import Mathlib

/-!
Verification development for the concurrent multi-stream synchronization
scheduler (`ConcurrentSource` in
`airbyte_cdk/sources/concurrent_source/concurrent_source.py`).

The driver (`ConcurrentSource.read`) is a single-threaded loop that pops
items from a shared queue fed by worker tasks.  We embed the driver as a
deterministic state machine over the sequence of popped queue items; the
nondeterminism of the thread pool (which interleaving of items arrives, and
whether all futures report done when the driver checks) is supplied as
input: a list of `(QueueItem, Bool)` pairs, the `Bool` being the value the
expression `all(f.done() for f in futures)` would return at the end of that
loop iteration.

Python runtime failures of the driver itself (`KeyError` from a missing
dict/set key, `ValueError` from `list.remove`, `IndexError` from
`list.pop(0)` on an empty list, `queue.Empty` from the blocking pop timing
out) are modelled explicitly as `RunError` values; they terminate the run
exactly where the Python exception would propagate out of the generator.
-/

namespace ConcurrentSource

/-- `AirbyteStreamStatus` values used by the driver. -/
inductive StreamStatus
  | started
  | running
  | complete
  | incomplete
deriving DecidableEq

/-- The slice of an `AbstractStream` the driver reads: its name, the
namespace reported by `as_airbyte_stream().namespace`, and the result of
`check_availability().is_available()`. -/
structure AbstractStream where
  name : String
  ns : Option String
  available : Bool
deriving DecidableEq

/-- A partition: an identity plus a back-reference to its owning stream's
name (`partition.stream_name()`). -/
structure Partition where
  stream_name : String
  pid : Nat
deriving DecidableEq

/-- The tagged union of everything popped from the shared queue: a task
exception, a `PartitionGenerationCompletedSentinel` (identified by the
stream name of its generator), a freshly generated `Partition`, a
`PartitionCompleteSentinel` (carrying its partition), or a record (with
`stream_name` and an opaque `data` payload). -/
inductive QueueItem
  | exception (e : Nat)
  | generationCompleted (streamName : String)
  | partitionItem (p : Partition)
  | partitionCompleted (p : Partition)
  | record (streamName : String) (data : Nat)
deriving DecidableEq

/-- Observable effects of one run, in order: messages yielded by `read`
(status messages, record messages, messages drained from the message
repository), cursor calls, and the log lines the claims reference. -/
inductive Event
  | statusMessage (name : String) (ns : Option String) (status : StreamStatus)
  | recordMessage (name : String) (data : Nat)
  | repoMessage (m : Nat)
  | cursorObserve (name : String) (data : Nat)
  | cursorClosePartition (p : Partition)
  | logSkippedStream (name : String)
  | logReadCount (name : String) (n : Nat)
  | logTimerReport
  | poolShutdown (cancelFutures : Bool)
deriving DecidableEq

/-- How a run of `read` can end on the Python side: a task exception
re-raised by the driver, the `queue.Empty` raised by the blocking pop's
timeout, or a runtime error of the driver's own bookkeeping. -/
inductive RunError
  | raised (e : Nat)
  | queueEmptyTimeout
  | indexError
  | keyError
  | valueError
deriving DecidableEq

/-- Outcome of a run: the generator was exhausted normally, or an exception
propagated to the caller. -/
inductive RunOutcome
  | finished
  | failed (e : RunError)
deriving DecidableEq

/-- The configuration that reaches `read`: the constructor arguments of
`ConcurrentSource` plus the collaborators' switches the driver consults
(`raise_exception_on_missing_stream` from `AbstractSource`, and
`_slice_logger.should_log_slice_message(logger)`). -/
structure SourceConfig where
  maxWorkers : Nat
  timeoutSeconds : Nat
  raiseExceptionOnMissingStream : Bool
  shouldLogSlice : Bool
deriving DecidableEq

/-- Python association-list model of a dict: lookup of the first matching
key. -/
def alistLookup {α β : Type} [DecidableEq α] : List (α × β) → α → Option β
  | [], _ => none
  | (k', v') :: rest, k => if k' = k then some v' else alistLookup rest k

/-- Python dict assignment `d[k] = v`: overwrite the first occurrence in
place, or append a fresh key. -/
def alistInsert {α β : Type} [DecidableEq α] : List (α × β) → α → β → List (α × β)
  | [], k, v => [(k, v)]
  | (k', v') :: rest, k, v => if k' = k then (k, v) :: rest else (k', v') :: alistInsert rest k v

/-- Remove the first occurrence of `a`. -/
def removeFirst {α : Type} [DecidableEq α] : List α → α → List α
  | [], _ => []
  | x :: rest, a => if x = a then rest else x :: removeFirst rest a

/-- Python `set.add` on a set modelled as a duplicate-free list. -/
def setAdd (l : List String) (x : String) : List String :=
  if x ∈ l then l else l ++ [x]

/-- Python `set.remove` / `list.remove`: `none` models the `KeyError` /
`ValueError` raised when the element is absent. -/
def setRemove (l : List String) (x : String) : Option (List String) :=
  if x ∈ l then some (removeFirst l x) else none

/-- The per-run driver state of `ConcurrentSource.read` (lines 85-92):
`streams_in_progress`, `partition_generator_running`,
`partition_generators` (pending generators, identified by
`stream_name()`), `streams_to_partitions_to_done`, `record_counter`, and
the contents of the in-memory message repository. -/
structure DriverState where
  streamsInProgress : List String
  partitionGeneratorRunning : List String
  partitionGenerators : List String
  streamsToPartitionsToDone : List (String × List (Partition × Bool))
  recordCounter : List (String × Nat)
  repository : List Nat
deriving DecidableEq

/-- `self._stream_to_instance_map[name]` / `stream_instances.get(name)`:
the dict comprehension `{s.name: s for s in streams}` keeps the last stream
with a given name. -/
def findStream (streams : List AbstractStream) (n : String) : Option AbstractStream :=
  streams.reverse.find? (fun s => s.name = n)

/-- Line 58: `max_number_of_partition_generator_in_progress = 1` — a local
constant, written as a function of the configuration to record that it does
not depend on it. -/
def maxNumberOfPartitionGeneratorInProgress (_cfg : SourceConfig) : Nat := 1

/-- The catalog iteration of lines 63-81: resolve each configured stream
name, raise `KeyError` on a missing stream when
`raise_exception_on_missing_stream` is set, log and skip unavailable
streams, and collect `stream_instances_to_read_from`. -/
def selectStreams (cfg : SourceConfig) (streams : List AbstractStream) :
    List String → List Event × Except RunError (List AbstractStream)
  | [] => ([], .ok [])
  | n :: rest =>
    match findStream streams n with
    | none =>
      if cfg.raiseExceptionOnMissingStream then ([], .error .keyError)
      else selectStreams cfg streams rest
    | some s =>
      if s.available then
        ((selectStreams cfg streams rest).1,
          (selectStreams cfg streams rest).2.map (fun es => s :: es))
      else
        (Event.logSkippedStream s.name :: (selectStreams cfg streams rest).1,
          (selectStreams cfg streams rest).2)

/-- Lines 85-92: the initial driver state built from
`stream_instances_to_read_from`. -/
def initState (eligible : List AbstractStream) : DriverState :=
  { streamsInProgress := []
    partitionGeneratorRunning := []
    partitionGenerators := eligible.map (fun s => s.name)
    streamsToPartitionsToDone := eligible.map (fun s => (s.name, []))
    recordCounter := eligible.map (fun s => (s.name, 0))
    repository := [] }

/-- One iteration of the startup loop of lines 93-105: pop the next
generator (`IndexError` on an empty list), mark its stream in progress,
submit it, and yield STARTED with namespace `None`.  The fuel is the number
of iterations the `while len(running) < cap` loop still has to run. -/
def startupGo (st : DriverState) : Nat → List Event × Except RunError DriverState
  | 0 => ([], .ok st)
  | Nat.succ k =>
    match st.partitionGenerators with
    | [] => ([], .error .indexError)
    | g :: rest =>
      (Event.statusMessage g none .started ::
          (startupGo
            { st with
              partitionGenerators := rest
              streamsInProgress := setAdd st.streamsInProgress g
              partitionGeneratorRunning := st.partitionGeneratorRunning ++ [g] } k).1,
        (startupGo
          { st with
            partitionGenerators := rest
            streamsInProgress := setAdd st.streamsInProgress g
            partitionGeneratorRunning := st.partitionGeneratorRunning ++ [g] } k).2)

/-- The startup loop of lines 93-105. -/
def startup (cap : Nat) (st : DriverState) : List Event × Except RunError DriverState :=
  startupGo st (cap - st.partitionGeneratorRunning.length)

/-- `_handle_partition_generation_completed` (lines 203-221): remove the
finished stream from `partition_generator_running` (`ValueError` if
absent); if generators are pending, pop the next, add its stream to
`streams_in_progress`, submit it and return a STARTED status with namespace
`None`; otherwise return nothing. -/
def handlePartitionGenerationCompleted (st : DriverState) (name : String) :
    Except RunError (DriverState × Option Event) :=
  match setRemove st.partitionGeneratorRunning name with
  | none => .error .valueError
  | some running =>
    match st.partitionGenerators with
    | [] => .ok ({ st with partitionGeneratorRunning := running }, none)
    | g :: rest =>
      .ok
        ({ st with
            partitionGeneratorRunning := running ++ [g]
            partitionGenerators := rest
            streamsInProgress := setAdd st.streamsInProgress g },
          some (.statusMessage g none .started))

/-- `_handle_partition` (lines 196-201): register the partition as not done
under its stream (`KeyError` if the stream has no entry in
`streams_to_partitions_to_done`), emit a slice log message into the message
repository when the slice logger asks for it, and submit a reading task. -/
def handlePartition (cfg : SourceConfig) (st : DriverState) (p : Partition) :
    Except RunError DriverState :=
  match alistLookup st.streamsToPartitionsToDone p.stream_name with
  | none => .error .keyError
  | some inner =>
    .ok
      { st with
        streamsToPartitionsToDone :=
          alistInsert st.streamsToPartitionsToDone p.stream_name (alistInsert inner p false)
        repository := if cfg.shouldLogSlice then st.repository ++ [p.pid] else st.repository }

/-- Line 235: `streams_to_partitions_to_done[stream_name][partition] = True`
applied to the current inner dict `inner` of `p`'s stream. -/
def streamDoneUpdate (st : DriverState) (p : Partition)
    (inner : List (Partition × Bool)) : DriverState :=
  { st with
    streamsToPartitionsToDone :=
      alistInsert st.streamsToPartitionsToDone p.stream_name (alistInsert inner p true) }

/-- Lines 238-247 of `_handle_partition_completed`, run in the state `st1`
that already has the partition marked done, with `inner'` the updated inner
dict: when every partition of the stream is done and its generator is no
longer running, finalize the stream — remove it from `streams_in_progress`
(`KeyError` if absent), log the record count, and return a COMPLETE status
with the stream's namespace. -/
def handlePartitionCompletedAux (streams : List AbstractStream) (st1 : DriverState)
    (p : Partition) (inner' : List (Partition × Bool)) :
    List Event × Except RunError DriverState :=
  if inner'.all (fun q => q.2) ∧ p.stream_name ∉ st1.partitionGeneratorRunning then
    match setRemove st1.streamsInProgress p.stream_name with
    | none => ([Event.cursorClosePartition p], .error .keyError)
    | some inProgress =>
      match alistLookup st1.recordCounter p.stream_name with
      | none => ([Event.cursorClosePartition p], .error .keyError)
      | some c =>
        match findStream streams p.stream_name with
        | none =>
          ([Event.cursorClosePartition p, Event.logReadCount p.stream_name c],
            .error .keyError)
        | some stream =>
          ([Event.cursorClosePartition p, Event.logReadCount p.stream_name c,
              Event.statusMessage stream.name stream.ns .complete],
            .ok { st1 with streamsInProgress := inProgress })
  else
    ([Event.cursorClosePartition p], .ok st1)

/-- `_handle_partition_completed` (lines 223-247): mark the partition done
(`KeyError` if its stream has no entry in `streams_to_partitions_to_done`),
call the stream's cursor `close_partition`, then run the finalization check
of lines 238-247. -/
def handlePartitionCompleted (streams : List AbstractStream) (st : DriverState)
    (p : Partition) : List Event × Except RunError DriverState :=
  match alistLookup st.streamsToPartitionsToDone p.stream_name with
  | none => ([], .error .keyError)
  | some inner =>
    handlePartitionCompletedAux streams (streamDoneUpdate st p inner) p
      (alistInsert inner p true)

/-- The record branch of the main loop (lines 162-182): look up the
stream's instance (`KeyError` if unknown) and its record counter
(`KeyError` if absent); yield RUNNING with the stream's namespace when the
counter is zero; increment the counter; yield the translated record
message; call the cursor's `observe`; drain the message repository. -/
def handleRecord (streams : List AbstractStream) (st : DriverState)
    (s : String) (d : Nat) : List Event × Except RunError DriverState :=
  match findStream streams s with
  | none => ([], .error .keyError)
  | some stream =>
    match alistLookup st.recordCounter stream.name with
    | none => ([], .error .keyError)
    | some c =>
      ((if c = 0 then [Event.statusMessage stream.name stream.ns .running] else []) ++
          Event.recordMessage s d :: Event.cursorObserve s d ::
            st.repository.map Event.repoMessage,
        .ok { st with
          recordCounter := alistInsert st.recordCounter stream.name (c + 1)
          repository := [] })

/-- `_stop_streams` (lines 249-255): shut the pool down cancelling pending
futures, then yield one INCOMPLETE status (with the stream's namespace) per
stream still in progress, finishing each stream's timer on the way. -/
def stopStreamsGo (streams : List AbstractStream) :
    List String → List Event × Except RunError Unit
  | [] => ([], .ok ())
  | s :: rest =>
    match findStream streams s with
    | none => ([], .error .keyError)
    | some stream =>
      (Event.statusMessage stream.name stream.ns .incomplete ::
          (stopStreamsGo streams rest).1,
        (stopStreamsGo streams rest).2)

/-- `_stop_streams`, including the pool shutdown that opens it. -/
def stopStreams (streams : List AbstractStream) (inProgress : List String) :
    List Event × Except RunError Unit :=
  (Event.poolShutdown true :: (stopStreamsGo streams inProgress).1,
    (stopStreamsGo streams inProgress).2)

/-- Lines 183-190: the end-of-loop quiescence test — no generator running,
none pending, every registered partition done; `futuresDone` stands for
`all(f.done() for f in futures)`. -/
def loopEndCheck (st : DriverState) (futuresDone : Bool) : Bool :=
  st.partitionGeneratorRunning.isEmpty && st.partitionGenerators.isEmpty &&
    st.streamsToPartitionsToDone.all (fun q => q.2.all (fun r => r.2)) && futuresDone

/-- Lines 191-194, run when the loop is left by `break`: shut the pool down
cancelling pending futures and log the timer report. -/
def postLoopEvents : List Event := [Event.poolShutdown true, Event.logTimerReport]

/-- Result of one loop iteration: keep looping in a new state, or end the
run with an outcome. -/
inductive StepOut
  | cont (st : DriverState)
  | halt (out : RunOutcome) (st : DriverState)
deriving DecidableEq

/-- One iteration of the main loop of `read` (lines 114-190) on a popped
item, given the value `futuresDone` the futures check would observe. -/
def driverStep (cfg : SourceConfig) (streams : List AbstractStream)
    (st : DriverState) (item : QueueItem) (futuresDone : Bool) :
    List Event × StepOut :=
  match item with
  | .exception e =>
    ((stopStreams streams st.streamsInProgress).1,
      match (stopStreams streams st.streamsInProgress).2 with
      | .ok _ => .halt (.failed (.raised e)) st
      | .error k => .halt (.failed k) st)
  | .generationCompleted name =>
    match handlePartitionGenerationCompleted st name with
    | .error k => ([], .halt (.failed k) st)
    | .ok (st', ev?) =>
      if loopEndCheck st' futuresDone then
        (ev?.toList ++ postLoopEvents, .halt .finished st')
      else (ev?.toList, .cont st')
  | .partitionItem p =>
    match handlePartition cfg st p with
    | .error k => ([], .halt (.failed k) st)
    | .ok st' =>
      if loopEndCheck st' futuresDone then (postLoopEvents, .halt .finished st')
      else ([], .cont st')
  | .partitionCompleted p =>
    match (handlePartitionCompleted streams st p).2 with
    | .error k => ((handlePartitionCompleted streams st p).1, .halt (.failed k) st)
    | .ok st' =>
      if st'.streamsInProgress.isEmpty then
        ((handlePartitionCompleted streams st p).1 ++ postLoopEvents, .halt .finished st')
      else if loopEndCheck st' futuresDone then
        ((handlePartitionCompleted streams st p).1 ++ postLoopEvents, .halt .finished st')
      else ((handlePartitionCompleted streams st p).1, .cont st')
  | .record s d =>
    match (handleRecord streams st s d).2 with
    | .error k => ((handleRecord streams st s d).1, .halt (.failed k) st)
    | .ok st' =>
      if loopEndCheck st' futuresDone then
        ((handleRecord streams st s d).1 ++ postLoopEvents, .halt .finished st')
      else ((handleRecord streams st s d).1, .cont st')

/-- The main loop: consume popped items until a `break`, an exception, or —
when the input is exhausted — the blocking pop's timeout (`queue.Empty`).
Returns the emitted events, the outcome, and the driver state at the end. -/
def driverLoop (cfg : SourceConfig) (streams : List AbstractStream) :
    DriverState → List (QueueItem × Bool) → List Event × RunOutcome × DriverState
  | st, [] => ([], .failed .queueEmptyTimeout, st)
  | st, (item, f) :: rest =>
    match (driverStep cfg streams st item f).2 with
    | .halt out st' => ((driverStep cfg streams st item f).1, out, st')
    | .cont st' =>
      ((driverStep cfg streams st item f).1 ++ (driverLoop cfg streams st' rest).1,
        (driverLoop cfg streams st' rest).2.1,
        (driverLoop cfg streams st' rest).2.2)

/-- `ConcurrentSource.read`: stream selection, the startup loop, then the
main queue-consuming loop. -/
def read (cfg : SourceConfig) (streams : List AbstractStream)
    (catalog : List String) (inputs : List (QueueItem × Bool)) :
    List Event × RunOutcome × DriverState :=
  match (selectStreams cfg streams catalog).2 with
  | .error k => ((selectStreams cfg streams catalog).1, .failed k, initState [])
  | .ok eligible =>
    match (startup (maxNumberOfPartitionGeneratorInProgress cfg) (initState eligible)).2 with
    | .error k =>
      ((selectStreams cfg streams catalog).1 ++
          (startup (maxNumberOfPartitionGeneratorInProgress cfg) (initState eligible)).1,
        .failed k, initState eligible)
    | .ok st1 =>
      ((selectStreams cfg streams catalog).1 ++
          (startup (maxNumberOfPartitionGeneratorInProgress cfg) (initState eligible)).1 ++
          (driverLoop cfg streams st1 inputs).1,
        (driverLoop cfg streams st1 inputs).2.1,
        (driverLoop cfg streams st1 inputs).2.2)

/-! ## Equation lemmas for the step, loop and read functions -/

theorem stepEq_exception_ok (cfg : SourceConfig) (streams : List AbstractStream)
    (st : DriverState) (e : Nat) (f : Bool) (u : Unit)
    (h : (stopStreams streams st.streamsInProgress).2 = .ok u) :
    driverStep cfg streams st (.exception e) f =
      ((stopStreams streams st.streamsInProgress).1, .halt (.failed (.raised e)) st) := by
  simp [driverStep, h]

theorem stepEq_exception_err (cfg : SourceConfig) (streams : List AbstractStream)
    (st : DriverState) (e : Nat) (f : Bool) (k : RunError)
    (h : (stopStreams streams st.streamsInProgress).2 = .error k) :
    driverStep cfg streams st (.exception e) f =
      ((stopStreams streams st.streamsInProgress).1, .halt (.failed k) st) := by
  simp [driverStep, h]

theorem stepEq_gen_err (cfg : SourceConfig) (streams : List AbstractStream)
    (st : DriverState) (name : String) (f : Bool) (k : RunError)
    (h : handlePartitionGenerationCompleted st name = .error k) :
    driverStep cfg streams st (.generationCompleted name) f = ([], .halt (.failed k) st) := by
  simp [driverStep, h]

theorem stepEq_gen_end (cfg : SourceConfig) (streams : List AbstractStream)
    (st st2 : DriverState) (name : String) (f : Bool) (ev? : Option Event)
    (h : handlePartitionGenerationCompleted st name = .ok (st2, ev?))
    (hl : loopEndCheck st2 f = true) :
    driverStep cfg streams st (.generationCompleted name) f =
      (ev?.toList ++ postLoopEvents, .halt .finished st2) := by
  simp [driverStep, h, hl]

theorem stepEq_gen_cont (cfg : SourceConfig) (streams : List AbstractStream)
    (st st2 : DriverState) (name : String) (f : Bool) (ev? : Option Event)
    (h : handlePartitionGenerationCompleted st name = .ok (st2, ev?))
    (hl : loopEndCheck st2 f = false) :
    driverStep cfg streams st (.generationCompleted name) f =
      (ev?.toList, .cont st2) := by
  simp [driverStep, h, hl]

theorem stepEq_part_err (cfg : SourceConfig) (streams : List AbstractStream)
    (st : DriverState) (p : Partition) (f : Bool) (k : RunError)
    (h : handlePartition cfg st p = .error k) :
    driverStep cfg streams st (.partitionItem p) f = ([], .halt (.failed k) st) := by
  simp [driverStep, h]

theorem stepEq_part_end (cfg : SourceConfig) (streams : List AbstractStream)
    (st st2 : DriverState) (p : Partition) (f : Bool)
    (h : handlePartition cfg st p = .ok st2) (hl : loopEndCheck st2 f = true) :
    driverStep cfg streams st (.partitionItem p) f =
      (postLoopEvents, .halt .finished st2) := by
  simp [driverStep, h, hl]

theorem stepEq_part_cont (cfg : SourceConfig) (streams : List AbstractStream)
    (st st2 : DriverState) (p : Partition) (f : Bool)
    (h : handlePartition cfg st p = .ok st2) (hl : loopEndCheck st2 f = false) :
    driverStep cfg streams st (.partitionItem p) f = ([], .cont st2) := by
  simp [driverStep, h, hl]

theorem stepEq_pc_err (cfg : SourceConfig) (streams : List AbstractStream)
    (st : DriverState) (p : Partition) (f : Bool) (k : RunError)
    (h : (handlePartitionCompleted streams st p).2 = .error k) :
    driverStep cfg streams st (.partitionCompleted p) f =
      ((handlePartitionCompleted streams st p).1, .halt (.failed k) st) := by
  simp [driverStep, h]

theorem stepEq_pc_done (cfg : SourceConfig) (streams : List AbstractStream)
    (st st2 : DriverState) (p : Partition) (f : Bool)
    (h : (handlePartitionCompleted streams st p).2 = .ok st2)
    (he : st2.streamsInProgress.isEmpty = true) :
    driverStep cfg streams st (.partitionCompleted p) f =
      ((handlePartitionCompleted streams st p).1 ++ postLoopEvents,
        .halt .finished st2) := by
  simp [driverStep, h, he]

theorem stepEq_pc_end (cfg : SourceConfig) (streams : List AbstractStream)
    (st st2 : DriverState) (p : Partition) (f : Bool)
    (h : (handlePartitionCompleted streams st p).2 = .ok st2)
    (he : st2.streamsInProgress.isEmpty = false) (hl : loopEndCheck st2 f = true) :
    driverStep cfg streams st (.partitionCompleted p) f =
      ((handlePartitionCompleted streams st p).1 ++ postLoopEvents,
        .halt .finished st2) := by
  simp [driverStep, h, he, hl]

theorem stepEq_pc_cont (cfg : SourceConfig) (streams : List AbstractStream)
    (st st2 : DriverState) (p : Partition) (f : Bool)
    (h : (handlePartitionCompleted streams st p).2 = .ok st2)
    (he : st2.streamsInProgress.isEmpty = false) (hl : loopEndCheck st2 f = false) :
    driverStep cfg streams st (.partitionCompleted p) f =
      ((handlePartitionCompleted streams st p).1, .cont st2) := by
  simp [driverStep, h, he, hl]

theorem stepEq_rec_err (cfg : SourceConfig) (streams : List AbstractStream)
    (st : DriverState) (s : String) (d : Nat) (f : Bool) (k : RunError)
    (h : (handleRecord streams st s d).2 = .error k) :
    driverStep cfg streams st (.record s d) f =
      ((handleRecord streams st s d).1, .halt (.failed k) st) := by
  simp [driverStep, h]

theorem stepEq_rec_end (cfg : SourceConfig) (streams : List AbstractStream)
    (st st2 : DriverState) (s : String) (d : Nat) (f : Bool)
    (h : (handleRecord streams st s d).2 = .ok st2) (hl : loopEndCheck st2 f = true) :
    driverStep cfg streams st (.record s d) f =
      ((handleRecord streams st s d).1 ++ postLoopEvents, .halt .finished st2) := by
  simp [driverStep, h, hl]

theorem stepEq_rec_cont (cfg : SourceConfig) (streams : List AbstractStream)
    (st st2 : DriverState) (s : String) (d : Nat) (f : Bool)
    (h : (handleRecord streams st s d).2 = .ok st2) (hl : loopEndCheck st2 f = false) :
    driverStep cfg streams st (.record s d) f =
      ((handleRecord streams st s d).1, .cont st2) := by
  simp [driverStep, h, hl]

theorem driverLoop_nil (cfg : SourceConfig) (streams : List AbstractStream)
    (st : DriverState) :
    driverLoop cfg streams st [] = ([], .failed .queueEmptyTimeout, st) := rfl

theorem driverLoop_cons_cont (cfg : SourceConfig) (streams : List AbstractStream)
    (st st2 : DriverState) (item : QueueItem) (f : Bool)
    (rest : List (QueueItem × Bool))
    (hs : (driverStep cfg streams st item f).2 = .cont st2) :
    driverLoop cfg streams st ((item, f) :: rest) =
      ((driverStep cfg streams st item f).1 ++ (driverLoop cfg streams st2 rest).1,
        (driverLoop cfg streams st2 rest).2.1, (driverLoop cfg streams st2 rest).2.2) := by
  simp [driverLoop, hs]

theorem driverLoop_cons_halt (cfg : SourceConfig) (streams : List AbstractStream)
    (st st2 : DriverState) (item : QueueItem) (f : Bool) (out : RunOutcome)
    (rest : List (QueueItem × Bool))
    (hs : (driverStep cfg streams st item f).2 = .halt out st2) :
    driverLoop cfg streams st ((item, f) :: rest) =
      ((driverStep cfg streams st item f).1, out, st2) := by
  simp [driverLoop, hs]

theorem readEq_sel_err (cfg : SourceConfig) (streams : List AbstractStream)
    (catalog : List String) (inputs : List (QueueItem × Bool)) (k : RunError)
    (h : (selectStreams cfg streams catalog).2 = .error k) :
    read cfg streams catalog inputs =
      ((selectStreams cfg streams catalog).1, .failed k, initState []) := by
  simp [read, h]

theorem readEq_startup_err (cfg : SourceConfig) (streams : List AbstractStream)
    (catalog : List String) (inputs : List (QueueItem × Bool))
    (eligible : List AbstractStream) (k : RunError)
    (hsel : (selectStreams cfg streams catalog).2 = .ok eligible)
    (hst : (startup (maxNumberOfPartitionGeneratorInProgress cfg)
      (initState eligible)).2 = .error k) :
    read cfg streams catalog inputs =
      ((selectStreams cfg streams catalog).1 ++
          (startup (maxNumberOfPartitionGeneratorInProgress cfg) (initState eligible)).1,
        .failed k, initState eligible) := by
  simp [read, hsel, hst]

theorem readEq_ok (cfg : SourceConfig) (streams : List AbstractStream)
    (catalog : List String) (inputs : List (QueueItem × Bool))
    (eligible : List AbstractStream) (st1 : DriverState)
    (hsel : (selectStreams cfg streams catalog).2 = .ok eligible)
    (hst : (startup (maxNumberOfPartitionGeneratorInProgress cfg)
      (initState eligible)).2 = .ok st1) :
    read cfg streams catalog inputs =
      ((selectStreams cfg streams catalog).1 ++
          (startup (maxNumberOfPartitionGeneratorInProgress cfg) (initState eligible)).1 ++
          (driverLoop cfg streams st1 inputs).1,
        (driverLoop cfg streams st1 inputs).2.1,
        (driverLoop cfg streams st1 inputs).2.2) := by
  simp [read, hsel, hst]

/-! ## Derived observables and trace well-formedness -/

/-- The subsequence of stream-status values emitted for stream `s`. -/
def streamStatuses (evs : List Event) (s : String) : List StreamStatus :=
  evs.filterMap (fun e =>
    match e with
    | .statusMessage n _ st => if n = s then some st else none
    | _ => none)

/-- Number of record messages yielded for stream `s`. -/
def recordMsgCount (evs : List Event) (s : String) : Nat :=
  (evs.filter (fun e =>
    match e with
    | .recordMessage n _ => n = s
    | _ => false)).length

/-- Events that only the global-abort machinery produces: INCOMPLETE
status marks, the worker-pool shutdown, and the timer report. -/
def abortOnlyEvent : Event → Bool
  | .statusMessage _ _ .incomplete => true
  | .poolShutdown _ => true
  | .logTimerReport => true
  | _ => false

/-- Is every partition registered under `s` marked done?  (Vacuously true
when `s` has no entry.) -/
def innerAllDone (st : DriverState) (s : String) : Bool :=
  match alistLookup st.streamsToPartitionsToDone s with
  | none => true
  | some inner => inner.all (fun q => q.2)

/-- Does `s` have at least one registered partition? -/
def innerNonempty (st : DriverState) (s : String) : Bool :=
  match alistLookup st.streamsToPartitionsToDone s with
  | none => false
  | some inner => !inner.isEmpty

/-- Does `s` have a registered partition that is not done? -/
def innerHasUndone (st : DriverState) (s : String) : Bool :=
  match alistLookup st.streamsToPartitionsToDone s with
  | none => false
  | some inner => inner.any (fun q => !q.2)

/-- Producer-protocol constraint on the next popped item, given the
driver's current state.  Tasks push their own items in program order and
the queue is FIFO, so: a generation-completed sentinel comes from a
currently running generator; a partition comes from a currently running
generator of its stream; a partition-completed sentinel refers to a
partition that was registered and is not yet done; a record comes from a
reading task of a registered, not-yet-done partition of its stream.
Exception items may arrive at any time. -/
def itemOk (st : DriverState) : QueueItem → Bool
  | .exception _ => true
  | .generationCompleted s => decide (s ∈ st.partitionGeneratorRunning)
  | .partitionItem p => decide (p.stream_name ∈ st.partitionGeneratorRunning)
  | .partitionCompleted p =>
    match alistLookup st.streamsToPartitionsToDone p.stream_name with
    | none => false
    | some inner => alistLookup inner p = some false
  | .record s _ => innerHasUndone st s

/-- A popped-item sequence is feasible from state `st` when every item
satisfies `itemOk` at the state in which the driver pops it (checked along
the driver's own transition function; items after the run has ended are
unconstrained). -/
def wfFrom (cfg : SourceConfig) (streams : List AbstractStream) :
    DriverState → List (QueueItem × Bool) → Bool
  | _, [] => true
  | st, (item, f) :: rest =>
    itemOk st item &&
      (match driverStep cfg streams st item f with
        | (_, .cont st') => wfFrom cfg streams st' rest
        | (_, .halt _ _) => true)

/-! ## Concrete runs used by individual claims -/

/-- A run with one available stream whose generator finishes with zero
partitions, after which the queue yields nothing more. -/
def c2Run : List Event × RunOutcome × DriverState :=
  read ⟨10, 300, true, false⟩ [⟨"s1", some "nsA", true⟩] ["s1"]
    [(QueueItem.generationCompleted "s1", true)]

/-- A run in which the first popped item is a task exception. -/
def c1Run : List Event × RunOutcome × DriverState :=
  read ⟨10, 300, true, false⟩ [⟨"s1", some "nsA", true⟩] ["s1"]
    [(QueueItem.exception 7, true)]

/-- A run whose queue stalls right after the startup loop: the only
status its stream ever receives is STARTED. -/
def c3Run : List Event × RunOutcome × DriverState :=
  read ⟨10, 300, true, false⟩ [⟨"s1", some "nsA", true⟩] ["s1"] []

/-- The per-stream status sequences Claim C3 asserts: one STARTED,
optionally one RUNNING, then exactly one of COMPLETE or INCOMPLETE. -/
def c3ClaimPatterns : List (List StreamStatus) :=
  [[.started, .complete], [.started, .running, .complete],
    [.started, .incomplete], [.started, .running, .incomplete]]

/-- Items of a two-stream run in which partition ⟨"s1", 1⟩ is completed
twice: the duplicate sentinel arrives after stream s1 was finalized. -/
def c4Items : List (QueueItem × Bool) :=
  [(QueueItem.partitionItem ⟨"s1", 1⟩, false),
    (QueueItem.generationCompleted "s1", false),
    (QueueItem.partitionCompleted ⟨"s1", 1⟩, false),
    (QueueItem.partitionCompleted ⟨"s1", 1⟩, false)]

/-- The duplicate-sentinel run of Claim C4. -/
def c4Run : List Event × RunOutcome × DriverState :=
  read ⟨10, 300, true, false⟩ [⟨"s1", some "nsA", true⟩, ⟨"s2", none, true⟩]
    ["s1", "s2"] c4Items

/-- The same run truncated before the duplicate sentinel. -/
def c4RunTruncated : List Event × RunOutcome × DriverState :=
  read ⟨10, 300, true, false⟩ [⟨"s1", some "nsA", true⟩, ⟨"s2", none, true⟩]
    ["s1", "s2"] (c4Items.take 3)

/-! ## Claim theorems -/

/-- Claim C2 (evaluation at the failing input): with one available stream
whose generation task discovers zero partitions, the driver never emits
RUNNING for it — but it also never emits COMPLETE: the only status the
stream ever receives is STARTED, the run nevertheless finishes via the
quiescence check of lines 183-190, and the stream is left in
`streams_in_progress` forever.  Finalization lives only in
`_handle_partition_completed`, which a stream with no partitions never
reaches, contradicting the claim's (and §4.5's) requirement that COMPLETE
be emitted once the generator finishes. -/
theorem c2_zero_partition_stream_never_completed :
    streamStatuses c2Run.1 "s1" = [StreamStatus.started] ∧
    c2Run.2.1 = RunOutcome.finished ∧
    "s1" ∈ c2Run.2.2.streamsInProgress := by decide

/-- Claim C1 (counterexample): in a concrete aborting run the driver pops
an Error item, shuts the pool down, yields INCOMPLETE for the in-progress
stream and re-raises that error — but the accumulated timing summary
(`logger.info(timer.report())`, line 193) is never emitted, because the
`raise` on line 119 propagates out of the generator and lines 191-194 are
skipped.  This falsifies the claim's "emits the accumulated timing
summary" conjunct. -/
theorem c1_counterexample_no_timing_summary :
    c1Run.2.1 = RunOutcome.failed (RunError.raised 7) ∧
    Event.statusMessage "s1" (some "nsA") .incomplete ∈ c1Run.1 ∧
    Event.poolShutdown true ∈ c1Run.1 ∧
    Event.logTimerReport ∉ c1Run.1 := by decide

/-- Claim C3 (counterexample): in a run whose queue stalls after startup,
the stream's status sequence is just `[STARTED]` — it is never followed by
COMPLETE or INCOMPLETE, so the claimed exhaustive shape (STARTED, optional
RUNNING, then exactly one terminal status) does not hold of every stream in
every run. -/
theorem c3_counterexample_started_only :
    streamStatuses c3Run.1 "s1" = [StreamStatus.started] ∧
    [StreamStatus.started] ∉ c3ClaimPatterns := by decide

/-- Claim C4 (counterexample): processing a second `PartitionCompleted`
sentinel for a partition of an already-finalized stream is neither rejected
nor ignored: `streams_in_progress.remove` (line 240) raises `KeyError`,
aborting the whole run, whereas the same run truncated before the
duplicate keeps going (and, its queue being exhausted, ends in the pop
timeout).  No second COMPLETE is emitted. -/
theorem c4_counterexample_duplicate_sentinel_crashes :
    c4Run.2.1 = RunOutcome.failed RunError.keyError ∧
    c4RunTruncated.2.1 = RunOutcome.failed RunError.queueEmptyTimeout ∧
    (streamStatuses c4Run.1 "s1").count StreamStatus.complete = 1 := by decide

/-- Claim C5 (counterexample): the discovery-concurrency cap
(`max_number_of_partition_generator_in_progress`, line 58) is not a
configurable value — it is the literal `1`, identical under two different
source configurations. -/
theorem c5_counterexample_cap_not_configurable :
    maxNumberOfPartitionGeneratorInProgress ⟨1, 1, true, false⟩ = 1 ∧
    maxNumberOfPartitionGeneratorInProgress ⟨100, 999, false, true⟩ = 1 := by decide

/-! ## Error-classification lemmas for the handlers -/

theorem handlePartitionGenerationCompleted_error_eq (st : DriverState) (name : String)
    (k : RunError) (h : handlePartitionGenerationCompleted st name = .error k) :
    k = .valueError := by
  unfold handlePartitionGenerationCompleted at h
  repeat' split at h
  all_goals simp_all

theorem handlePartition_error_eq (cfg : SourceConfig) (st : DriverState) (p : Partition)
    (k : RunError) (h : handlePartition cfg st p = .error k) : k = .keyError := by
  unfold handlePartition at h
  repeat' split at h
  all_goals simp_all

theorem handlePartitionCompletedAux_error_eq (streams : List AbstractStream)
    (st1 : DriverState) (p : Partition) (inner' : List (Partition × Bool)) (k : RunError)
    (h : (handlePartitionCompletedAux streams st1 p inner').2 = .error k) :
    k = .keyError := by
  unfold handlePartitionCompletedAux at h
  repeat' split at h
  all_goals simp_all

theorem handlePartitionCompleted_error_eq (streams : List AbstractStream)
    (st : DriverState) (p : Partition) (k : RunError)
    (h : (handlePartitionCompleted streams st p).2 = .error k) : k = .keyError := by
  unfold handlePartitionCompleted at h
  split at h
  · simp_all
  · exact handlePartitionCompletedAux_error_eq _ _ _ _ _ h

theorem handleRecord_error_eq (streams : List AbstractStream) (st : DriverState)
    (s : String) (d : Nat) (k : RunError)
    (h : (handleRecord streams st s d).2 = .error k) : k = .keyError := by
  unfold handleRecord at h
  repeat' split at h
  all_goals simp_all

theorem stopStreamsGo_error_eq (streams : List AbstractStream) :
    ∀ (l : List String) (k : RunError),
      (stopStreamsGo streams l).2 = .error k → k = .keyError := by
  intro l
  induction l with
  | nil => intro k h; simp [stopStreamsGo] at h
  | cons s rest ih =>
    intro k h
    unfold stopStreamsGo at h
    split at h
    · simp_all
    · exact ih k h

/-! ## Events emitted by handlers are never abort-machinery events -/

theorem handlePartitionCompletedAux_no_abortOnly (streams : List AbstractStream)
    (st1 : DriverState) (p : Partition) (inner' : List (Partition × Bool)) :
    ((handlePartitionCompletedAux streams st1 p inner').1.all
      fun e => !abortOnlyEvent e) = true := by
  unfold handlePartitionCompletedAux
  repeat' split
  all_goals simp [abortOnlyEvent]

theorem handlePartitionCompleted_no_abortOnly (streams : List AbstractStream)
    (st : DriverState) (p : Partition) :
    ((handlePartitionCompleted streams st p).1.all fun e => !abortOnlyEvent e) = true := by
  unfold handlePartitionCompleted
  split
  · simp
  · exact handlePartitionCompletedAux_no_abortOnly _ _ _ _

theorem handleRecord_no_abortOnly (streams : List AbstractStream) (st : DriverState)
    (s : String) (d : Nat) :
    ((handleRecord streams st s d).1.all fun e => !abortOnlyEvent e) = true := by
  unfold handleRecord
  repeat' split
  all_goals simp [abortOnlyEvent, List.all_eq_true, List.mem_map]

theorem handlePartitionGenerationCompleted_event_started (st : DriverState)
    (name : String) (st' : DriverState) (ev : Event)
    (h : handlePartitionGenerationCompleted st name = .ok (st', some ev)) :
    ∃ g, ev = .statusMessage g none .started := by
  unfold handlePartitionGenerationCompleted at h
  repeat' split at h
  all_goals simp_all
  exact ⟨_, h.2.symm⟩

/-! ## Setup-phase lemmas -/

theorem selectStreams_error_eq (cfg : SourceConfig) (streams : List AbstractStream) :
    ∀ (catalog : List String) (k : RunError),
      (selectStreams cfg streams catalog).2 = .error k → k = .keyError := by
  intro catalog
  induction catalog with
  | nil => intro k h; simp [selectStreams] at h
  | cons n rest ih =>
    intro k h
    unfold selectStreams at h
    split at h
    · split at h
      · simp_all
      · exact ih k h
    · split at h
      · rcases hr : (selectStreams cfg streams rest).2 with k' | es <;> rw [hr] at h
        · simp only [Except.map] at h
          injection h with h
          subst h
          exact ih k' hr
        · simp [Except.map] at h
      · exact ih k h

theorem selectStreams_no_abortOnly (cfg : SourceConfig) (streams : List AbstractStream) :
    ∀ catalog : List String,
      ((selectStreams cfg streams catalog).1.all fun e => !abortOnlyEvent e) = true := by
  intro catalog
  induction catalog with
  | nil => simp [selectStreams]
  | cons n rest ih =>
    unfold selectStreams
    split
    · split
      · simp
      · exact ih
    · split
      · exact ih
      · simpa [abortOnlyEvent] using ih

theorem startupGo_error_eq :
    ∀ (k : Nat) (st : DriverState) (e : RunError),
      (startupGo st k).2 = .error e → e = .indexError := by
  intro k
  induction k with
  | zero => intro st e h; simp [startupGo] at h
  | succ k ih =>
    intro st e h
    unfold startupGo at h
    split at h
    · simp_all
    · exact ih _ e h

theorem startupGo_no_abortOnly :
    ∀ (k : Nat) (st : DriverState),
      ((startupGo st k).1.all fun e => !abortOnlyEvent e) = true := by
  intro k
  induction k with
  | zero => intro st; simp [startupGo]
  | succ k ih =>
    intro st
    unfold startupGo
    split
    · simp
    · simpa [abortOnlyEvent] using ih _

/-! ## Driver-step lemmas -/

theorem driverStep_halt_ne_timeout (cfg : SourceConfig) (streams : List AbstractStream)
    (st : DriverState) (item : QueueItem) (f : Bool) (out : RunOutcome) (st' : DriverState)
    (h : (driverStep cfg streams st item f).2 = .halt out st') :
    out ≠ RunOutcome.failed RunError.queueEmptyTimeout := by
  intro hbad
  subst hbad
  cases item
  all_goals unfold driverStep at h
  all_goals repeat' split at h
  all_goals
    first
    | (rename_i k heq
       simp only [StepOut.halt.injEq, RunOutcome.failed.injEq] at h
       obtain ⟨hk, -⟩ := h
       subst hk
       first
       | exact absurd (handlePartitionGenerationCompleted_error_eq _ _ _ heq) (by simp)
       | exact absurd (handlePartition_error_eq _ _ _ _ heq) (by simp)
       | exact absurd (handlePartitionCompleted_error_eq _ _ _ _ heq) (by simp)
       | exact absurd (handleRecord_error_eq _ _ _ _ _ heq) (by simp)
       | exact absurd (stopStreamsGo_error_eq _ _ _ (by simpa [stopStreams] using heq))
          (by simp))
    | simp_all

theorem driverStep_cont_no_abortOnly (cfg : SourceConfig) (streams : List AbstractStream)
    (st : DriverState) (item : QueueItem) (f : Bool) (st' : DriverState)
    (h : (driverStep cfg streams st item f).2 = .cont st') :
    ((driverStep cfg streams st item f).1.all fun e => !abortOnlyEvent e) = true := by
  cases item with
  | exception e =>
    rcases hs : (stopStreams streams st.streamsInProgress).2 with k | u
    · rw [stepEq_exception_err cfg streams st e f k hs] at h; simp at h
    · rw [stepEq_exception_ok cfg streams st e f u hs] at h; simp at h
  | generationCompleted name =>
    rcases hg : handlePartitionGenerationCompleted st name with k | ⟨st2, ev?⟩
    · rw [stepEq_gen_err cfg streams st name f k hg] at h; simp at h
    · cases hl : loopEndCheck st2 f with
      | true => rw [stepEq_gen_end cfg streams st st2 name f ev? hg hl] at h; simp at h
      | false =>
        rw [stepEq_gen_cont cfg streams st st2 name f ev? hg hl]
        cases ev? with
        | none => simp
        | some ev =>
          obtain ⟨g, rfl⟩ := handlePartitionGenerationCompleted_event_started st name st2 ev hg
          simp [abortOnlyEvent]
  | partitionItem p =>
    rcases hp : handlePartition cfg st p with k | st2
    · rw [stepEq_part_err cfg streams st p f k hp] at h; simp at h
    · cases hl : loopEndCheck st2 f with
      | true => rw [stepEq_part_end cfg streams st st2 p f hp hl] at h; simp at h
      | false => rw [stepEq_part_cont cfg streams st st2 p f hp hl]; simp
  | partitionCompleted p =>
    rcases hp : (handlePartitionCompleted streams st p).2 with k | st2
    · rw [stepEq_pc_err cfg streams st p f k hp] at h; simp at h
    · cases he : st2.streamsInProgress.isEmpty with
      | true => rw [stepEq_pc_done cfg streams st st2 p f hp he] at h; simp at h
      | false =>
        cases hl : loopEndCheck st2 f with
        | true => rw [stepEq_pc_end cfg streams st st2 p f hp he hl] at h; simp at h
        | false =>
          rw [stepEq_pc_cont cfg streams st st2 p f hp he hl]
          exact handlePartitionCompleted_no_abortOnly streams st p
  | record s d =>
    rcases hp : (handleRecord streams st s d).2 with k | st2
    · rw [stepEq_rec_err cfg streams st s d f k hp] at h; simp at h
    · cases hl : loopEndCheck st2 f with
      | true => rw [stepEq_rec_end cfg streams st st2 s d f hp hl] at h; simp at h
      | false =>
        rw [stepEq_rec_cont cfg streams st st2 s d f hp hl]
        exact handleRecord_no_abortOnly streams st s d

/-! ## Timeout-path lemmas -/

theorem driverLoop_timeout_no_abortOnly (cfg : SourceConfig)
    (streams : List AbstractStream) :
    ∀ (inputs : List (QueueItem × Bool)) (st : DriverState),
      (driverLoop cfg streams st inputs).2.1 = .failed .queueEmptyTimeout →
      ((driverLoop cfg streams st inputs).1.all fun e => !abortOnlyEvent e) = true := by
  intro inputs
  induction inputs with
  | nil => intro st _; simp [driverLoop]
  | cons itf rest ih =>
    intro st h
    obtain ⟨item, f⟩ := itf
    rcases hs : (driverStep cfg streams st item f).2 with st2 | ⟨out, st2⟩
    · rw [driverLoop_cons_cont cfg streams st st2 item f rest hs] at h ⊢
      simp only [List.all_append]
      exact Bool.and_eq_true_iff.mpr
        ⟨driverStep_cont_no_abortOnly cfg streams st item f st2 hs, ih st2 h⟩
    · rw [driverLoop_cons_halt cfg streams st st2 item f out rest hs] at h
      exact absurd h (driverStep_halt_ne_timeout cfg streams st item f out st2 hs)

theorem read_timeout_no_abortOnly (cfg : SourceConfig) (streams : List AbstractStream)
    (catalog : List String) (inputs : List (QueueItem × Bool))
    (h : (read cfg streams catalog inputs).2.1 = .failed .queueEmptyTimeout) :
    ((read cfg streams catalog inputs).1.all fun e => !abortOnlyEvent e) = true := by
  rcases hsel : (selectStreams cfg streams catalog).2 with k | eligible
  · rw [readEq_sel_err cfg streams catalog inputs k hsel] at h
    rcases selectStreams_error_eq cfg streams catalog k hsel with rfl
    simp at h
  · rcases hst : (startup (maxNumberOfPartitionGeneratorInProgress cfg)
        (initState eligible)).2 with k | st1
    · rw [readEq_startup_err cfg streams catalog inputs eligible k hsel hst] at h
      rcases startupGo_error_eq _ _ k hst with rfl
      simp at h
    · rw [readEq_ok cfg streams catalog inputs eligible st1 hsel hst] at h ⊢
      simp only [List.all_append]
      refine Bool.and_eq_true_iff.mpr ⟨Bool.and_eq_true_iff.mpr ⟨?_, ?_⟩, ?_⟩
      · exact selectStreams_no_abortOnly cfg streams catalog
      · exact startupGo_no_abortOnly _ _
      · exact driverLoop_timeout_no_abortOnly cfg streams inputs st1 h

/-- Claim C8: a blocking pop that times out with no item available is fatal
and is not retried: popping from an exhausted queue immediately ends the
run as `queue.Empty` propagating to the caller (first conjunct), and when a
run ends this way none of the abort machinery runs — no INCOMPLETE status,
no pool shutdown, no timer report is emitted — i.e. the timeout surfaces as
an abort-equivalent raw failure of the read operation (second conjunct). -/
theorem c8_pop_timeout_fatal (cfg : SourceConfig) (streams : List AbstractStream)
    (catalog : List String) (inputs : List (QueueItem × Bool)) :
    (∀ st : DriverState,
      driverLoop cfg streams st [] = ([], .failed .queueEmptyTimeout, st)) ∧
    ((read cfg streams catalog inputs).2.1 = .failed .queueEmptyTimeout →
      ((read cfg streams catalog inputs).1.all fun e => !abortOnlyEvent e) = true) :=
  ⟨fun _ => rfl, read_timeout_no_abortOnly cfg streams catalog inputs⟩

/-- Witness for C8: a concrete run whose queue yields nothing ends in the
pop timeout, and the theorem applies to it. -/
theorem c8_pop_timeout_fatal_witness :
    ((read ⟨10, 300, true, false⟩ [⟨"s1", some "nsA", true⟩] ["s1"] []).1.all
      fun e => !abortOnlyEvent e) = true :=
  (c8_pop_timeout_fatal ⟨10, 300, true, false⟩ [⟨"s1", some "nsA", true⟩] ["s1"] []).2
    (by decide)

/-- Claim C9: when no eligible stream remains after catalog resolution and
availability checks, `read` raises the `IndexError` of
`partition_generators.pop(0)` on an empty list (line 94) before consuming
any queue item, instead of returning an empty successful output. -/
theorem c9_empty_eligible_raises_before_queue (cfg : SourceConfig)
    (streams : List AbstractStream) (catalog : List String)
    (inputs : List (QueueItem × Bool))
    (h : (selectStreams cfg streams catalog).2 = Except.ok []) :
    read cfg streams catalog inputs =
      ((selectStreams cfg streams catalog).1, RunOutcome.failed RunError.indexError,
        initState []) := by
  unfold read
  rw [h]
  simp [startup, startupGo, initState, maxNumberOfPartitionGeneratorInProgress]

/-- Witness for C9: a catalog whose only stream fails its availability
check leaves the eligible list empty, and the theorem applies. -/
theorem c9_empty_eligible_witness :
    read ⟨10, 300, true, false⟩ [⟨"bad", some "x", false⟩] ["bad"] [] =
      ((selectStreams ⟨10, 300, true, false⟩ [⟨"bad", some "x", false⟩] ["bad"]).1,
        RunOutcome.failed RunError.indexError, initState []) :=
  c9_empty_eligible_raises_before_queue _ _ _ _ (by rfl)

/-! ## Association-list and removeFirst lemmas -/

theorem alistInsert_self {α β : Type} [DecidableEq α] :
    ∀ (l : List (α × β)) (k : α) (v : β), alistLookup l k = some v →
      alistInsert l k v = l := by
  intro l
  induction l with
  | nil => intro k v h; simp [alistLookup] at h
  | cons kv rest ih =>
    intro k v h
    obtain ⟨k', v'⟩ := kv
    by_cases hk : k' = k
    · subst hk
      simp [alistLookup] at h
      simp [alistInsert, h]
    · simp [alistLookup, hk] at h
      simp [alistInsert, hk, ih k v h]

theorem alistLookup_insert_self {α β : Type} [DecidableEq α] :
    ∀ (l : List (α × β)) (k : α) (v : β), alistLookup (alistInsert l k v) k = some v := by
  intro l
  induction l with
  | nil => intro k v; simp [alistInsert, alistLookup]
  | cons kv rest ih =>
    intro k v
    obtain ⟨k', v'⟩ := kv
    by_cases hk : k' = k
    · subst hk; simp [alistInsert, alistLookup]
    · simp [alistInsert, hk, alistLookup, ih]

theorem alistLookup_insert_ne {α β : Type} [DecidableEq α] :
    ∀ (l : List (α × β)) (k k' : α) (v : β), k ≠ k' →
      alistLookup (alistInsert l k v) k' = alistLookup l k' := by
  intro l
  induction l with
  | nil => intro k k' v hne; simp [alistInsert, alistLookup, hne]
  | cons kv rest ih =>
    intro k k' v hne
    obtain ⟨k'', v''⟩ := kv
    by_cases hk : k'' = k
    · subst hk; simp [alistInsert, alistLookup, hne]
    · simp [alistInsert, hk, alistLookup, ih _ _ _ hne]

theorem alistLookup_insert_isSome {α β : Type} [DecidableEq α]
    (l : List (α × β)) (k k' : α) (v : β) :
    (alistLookup (alistInsert l k v) k').isSome =
      ((alistLookup l k').isSome || decide (k = k')) := by
  by_cases hk : k = k'
  · subst hk; simp [alistLookup_insert_self]
  · simp [alistLookup_insert_ne l k k' v hk, hk]

theorem removeFirst_length_of_mem {α : Type} [DecidableEq α] :
    ∀ (l : List α) (x : α), x ∈ l → (removeFirst l x).length + 1 = l.length := by
  intro l
  induction l with
  | nil => intro x h; simp at h
  | cons y rest ih =>
    intro x h
    by_cases hy : y = x
    · simp [removeFirst, hy]
    · rcases List.mem_cons.mp h with h' | h'
      · exact absurd h'.symm hy
      · simp [removeFirst, hy, ih x h']

theorem removeFirst_subset {α : Type} [DecidableEq α] :
    ∀ (l : List α) (x y : α), y ∈ removeFirst l x → y ∈ l := by
  intro l
  induction l with
  | nil => intro x y h; simp [removeFirst] at h
  | cons z rest ih =>
    intro x y h
    by_cases hz : z = x
    · simp [removeFirst, hz] at h
      exact List.mem_cons_of_mem _ h
    · simp only [removeFirst, if_neg hz, List.mem_cons] at h
      rcases h with h | h
      · exact h ▸ List.mem_cons_self _ _
      · exact List.mem_cons_of_mem _ (ih x y h)

theorem not_mem_removeFirst_of_nodup {α : Type} [DecidableEq α] :
    ∀ (l : List α) (x : α), l.Nodup → x ∉ removeFirst l x := by
  intro l
  induction l with
  | nil => intro x _; simp [removeFirst]
  | cons z rest ih =>
    intro x hnd
    obtain ⟨hz, hrest⟩ := List.nodup_cons.mp hnd
    by_cases hzx : z = x
    · subst hzx; simpa [removeFirst] using hz
    · simp only [removeFirst, if_neg hzx, List.mem_cons]
      rintro (h | h)
      · exact hzx h.symm
      · exact ih x hrest h

theorem mem_removeFirst_of_mem_ne {α : Type} [DecidableEq α] :
    ∀ (l : List α) (x y : α), y ∈ l → y ≠ x → y ∈ removeFirst l x := by
  intro l
  induction l with
  | nil => intro x y h _; simp at h
  | cons z rest ih =>
    intro x y h hne
    by_cases hz : z = x
    · subst hz
      rcases List.mem_cons.mp h with h' | h'
      · exact absurd h' hne
      · simpa [removeFirst] using h'
    · simp only [removeFirst, if_neg hz, List.mem_cons]
      rcases List.mem_cons.mp h with h' | h'
      · exact Or.inl h'
      · exact Or.inr (ih x y h' hne)

theorem nodup_removeFirst {α : Type} [DecidableEq α] :
    ∀ (l : List α) (x : α), l.Nodup → (removeFirst l x).Nodup := by
  intro l
  induction l with
  | nil => intro x _; simp [removeFirst]
  | cons z rest ih =>
    intro x hnd
    obtain ⟨hz, hrest⟩ := List.nodup_cons.mp hnd
    by_cases hzx : z = x
    · simpa [removeFirst, hzx] using hrest
    · simp only [removeFirst, if_neg hzx]
      exact List.nodup_cons.mpr
        ⟨fun hmem => hz (removeFirst_subset rest x z hmem), ih x hrest⟩

theorem findStream_name (streams : List AbstractStream) (n : String)
    (t : AbstractStream) (h : findStream streams n = some t) : t.name = n := by
  have := List.find?_some h
  simpa using this

theorem setRemove_some (l : List String) (x : String) (r : List String)
    (h : setRemove l x = some r) : x ∈ l ∧ r = removeFirst l x := by
  by_cases hm : x ∈ l
  · rw [setRemove, if_pos hm] at h
    injection h with h
    exact ⟨hm, h.symm⟩
  · rw [setRemove, if_neg hm] at h
    exact absurd h (by simp)

theorem setRemove_none (l : List String) (x : String) (h : setRemove l x = none) :
    x ∉ l := by
  intro hm
  rw [setRemove, if_pos hm] at h
  exact absurd h (by simp)

theorem setRemove_of_mem (l : List String) (x : String) (h : x ∈ l) :
    setRemove l x = some (removeFirst l x) := by
  rw [setRemove, if_pos h]

@[simp] theorem streamDoneUpdate_running (st : DriverState) (p : Partition)
    (inner : List (Partition × Bool)) :
    (streamDoneUpdate st p inner).partitionGeneratorRunning =
      st.partitionGeneratorRunning := rfl

@[simp] theorem streamDoneUpdate_inProgress (st : DriverState) (p : Partition)
    (inner : List (Partition × Bool)) :
    (streamDoneUpdate st p inner).streamsInProgress = st.streamsInProgress := rfl

@[simp] theorem streamDoneUpdate_counter (st : DriverState) (p : Partition)
    (inner : List (Partition × Bool)) :
    (streamDoneUpdate st p inner).recordCounter = st.recordCounter := rfl

@[simp] theorem streamDoneUpdate_pending (st : DriverState) (p : Partition)
    (inner : List (Partition × Bool)) :
    (streamDoneUpdate st p inner).partitionGenerators = st.partitionGenerators := rfl

@[simp] theorem streamDoneUpdate_repository (st : DriverState) (p : Partition)
    (inner : List (Partition × Bool)) :
    (streamDoneUpdate st p inner).repository = st.repository := rfl

/-! ## Handler inversion lemmas -/

theorem handlePGC_ok_cases (st st' : DriverState) (name : String) (ev? : Option Event)
    (h : handlePartitionGenerationCompleted st name = .ok (st', ev?)) :
    name ∈ st.partitionGeneratorRunning ∧
    ((st.partitionGenerators = [] ∧ ev? = none ∧
        st' = { st with
          partitionGeneratorRunning := removeFirst st.partitionGeneratorRunning name }) ∨
      (∃ g rest, st.partitionGenerators = g :: rest ∧
        ev? = some (.statusMessage g none .started) ∧
        st' = { st with
          partitionGeneratorRunning := removeFirst st.partitionGeneratorRunning name ++ [g]
          partitionGenerators := rest
          streamsInProgress := setAdd st.streamsInProgress g })) := by
  unfold handlePartitionGenerationCompleted at h
  rcases hr : setRemove st.partitionGeneratorRunning name with - | running
  · rw [hr] at h; simp at h
  · rw [hr] at h
    have hm : name ∈ st.partitionGeneratorRunning := by
      by_contra hm
      simp [setRemove, hm] at hr
    have hrun : running = removeFirst st.partitionGeneratorRunning name := by
      rw [setRemove, if_pos hm] at hr
      injection hr with hr
      exact hr.symm
    subst hrun
    refine ⟨hm, ?_⟩
    rcases hp : st.partitionGenerators with - | ⟨g, rest⟩ <;> rw [hp] at h <;>
      simp only [Except.ok.injEq, Prod.mk.injEq] at h
    · exact Or.inl ⟨rfl, h.2.symm, h.1.symm⟩
    · exact Or.inr ⟨g, rest, rfl, h.2.symm, h.1.symm⟩

theorem handlePartition_ok_cases (cfg : SourceConfig) (st st' : DriverState)
    (p : Partition) (h : handlePartition cfg st p = .ok st') :
    ∃ inner, alistLookup st.streamsToPartitionsToDone p.stream_name = some inner ∧
      st' = { st with
        streamsToPartitionsToDone :=
          alistInsert st.streamsToPartitionsToDone p.stream_name (alistInsert inner p false)
        repository :=
          if cfg.shouldLogSlice then st.repository ++ [p.pid] else st.repository } := by
  unfold handlePartition at h
  rcases hl : alistLookup st.streamsToPartitionsToDone p.stream_name with - | inner <;>
    rw [hl] at h
  · simp at h
  · simp only [Except.ok.injEq] at h
    exact ⟨inner, rfl, h.symm⟩

theorem hpcAux_nofinal (streams : List AbstractStream) (st1 : DriverState)
    (p : Partition) (inner' : List (Partition × Bool))
    (hcond : ¬ ((inner'.all fun q => q.2) = true ∧
      p.stream_name ∉ st1.partitionGeneratorRunning)) :
    handlePartitionCompletedAux streams st1 p inner' =
      ([Event.cursorClosePartition p], .ok st1) := by
  simp only [handlePartitionCompletedAux, if_neg hcond]

theorem hpcAux_err_notin (streams : List AbstractStream) (st1 : DriverState)
    (p : Partition) (inner' : List (Partition × Bool))
    (hcond : (inner'.all fun q => q.2) = true ∧
      p.stream_name ∉ st1.partitionGeneratorRunning)
    (hnot : setRemove st1.streamsInProgress p.stream_name = none) :
    handlePartitionCompletedAux streams st1 p inner' =
      ([Event.cursorClosePartition p], .error .keyError) := by
  simp only [handlePartitionCompletedAux, if_pos hcond, hnot]

theorem hpcAux_err_noctr (streams : List AbstractStream) (st1 : DriverState)
    (p : Partition) (inner' : List (Partition × Bool))
    (hcond : (inner'.all fun q => q.2) = true ∧
      p.stream_name ∉ st1.partitionGeneratorRunning)
    (hmem : p.stream_name ∈ st1.streamsInProgress)
    (hc : alistLookup st1.recordCounter p.stream_name = none) :
    handlePartitionCompletedAux streams st1 p inner' =
      ([Event.cursorClosePartition p], .error .keyError) := by
  simp only [handlePartitionCompletedAux, if_pos hcond, setRemove_of_mem _ _ hmem, hc]

theorem hpcAux_err_nostream (streams : List AbstractStream) (st1 : DriverState)
    (p : Partition) (inner' : List (Partition × Bool)) (c : Nat)
    (hcond : (inner'.all fun q => q.2) = true ∧
      p.stream_name ∉ st1.partitionGeneratorRunning)
    (hmem : p.stream_name ∈ st1.streamsInProgress)
    (hc : alistLookup st1.recordCounter p.stream_name = some c)
    (hf : findStream streams p.stream_name = none) :
    handlePartitionCompletedAux streams st1 p inner' =
      ([Event.cursorClosePartition p, Event.logReadCount p.stream_name c],
        .error .keyError) := by
  simp only [handlePartitionCompletedAux, if_pos hcond, setRemove_of_mem _ _ hmem, hc, hf]

theorem hpcAux_final (streams : List AbstractStream) (st1 : DriverState)
    (p : Partition) (inner' : List (Partition × Bool)) (c : Nat)
    (stream : AbstractStream)
    (hcond : (inner'.all fun q => q.2) = true ∧
      p.stream_name ∉ st1.partitionGeneratorRunning)
    (hmem : p.stream_name ∈ st1.streamsInProgress)
    (hc : alistLookup st1.recordCounter p.stream_name = some c)
    (hf : findStream streams p.stream_name = some stream) :
    handlePartitionCompletedAux streams st1 p inner' =
      ([Event.cursorClosePartition p, Event.logReadCount p.stream_name c,
          Event.statusMessage stream.name stream.ns .complete],
        .ok { st1 with
          streamsInProgress := removeFirst st1.streamsInProgress p.stream_name }) := by
  simp only [handlePartitionCompletedAux, if_pos hcond, setRemove_of_mem _ _ hmem, hc, hf]

theorem handlePartitionCompleted_eq_aux (streams : List AbstractStream)
    (st : DriverState) (p : Partition) (inner : List (Partition × Bool))
    (hl : alistLookup st.streamsToPartitionsToDone p.stream_name = some inner) :
    handlePartitionCompleted streams st p =
      handlePartitionCompletedAux streams (streamDoneUpdate st p inner) p
        (alistInsert inner p true) := by
  unfold handlePartitionCompleted
  rw [hl]

theorem handlePartitionCompleted_ok_cases (streams : List AbstractStream)
    (st st' : DriverState) (p : Partition)
    (h : (handlePartitionCompleted streams st p).2 = .ok st') :
    ∃ inner, alistLookup st.streamsToPartitionsToDone p.stream_name = some inner ∧
      ((¬ (((alistInsert inner p true).all fun q => q.2) = true ∧
            p.stream_name ∉ st.partitionGeneratorRunning) ∧
        st' = streamDoneUpdate st p inner ∧
        handlePartitionCompleted streams st p =
          ([Event.cursorClosePartition p], .ok (streamDoneUpdate st p inner))) ∨
      ((((alistInsert inner p true).all fun q => q.2) = true ∧
            p.stream_name ∉ st.partitionGeneratorRunning) ∧
        p.stream_name ∈ st.streamsInProgress ∧
        ∃ c stream, alistLookup st.recordCounter p.stream_name = some c ∧
          findStream streams p.stream_name = some stream ∧
          st' = { streamDoneUpdate st p inner with
            streamsInProgress := removeFirst st.streamsInProgress p.stream_name } ∧
          handlePartitionCompleted streams st p =
            ([Event.cursorClosePartition p, Event.logReadCount p.stream_name c,
                Event.statusMessage stream.name stream.ns .complete],
              .ok { streamDoneUpdate st p inner with
                streamsInProgress := removeFirst st.streamsInProgress p.stream_name }))) := by
  rcases hl : alistLookup st.streamsToPartitionsToDone p.stream_name with - | inner
  · unfold handlePartitionCompleted at h
    rw [hl] at h
    simp at h
  · have hpair := handlePartitionCompleted_eq_aux streams st p inner hl
    refine ⟨inner, rfl, ?_⟩
    by_cases hcond : ((alistInsert inner p true).all fun q => q.2) = true ∧
        p.stream_name ∉ st.partitionGeneratorRunning
    · have hcond' : ((alistInsert inner p true).all fun q => q.2) = true ∧
          p.stream_name ∉ (streamDoneUpdate st p inner).partitionGeneratorRunning := by
        simpa using hcond
      rcases hr : setRemove st.streamsInProgress p.stream_name with - | inProgress
      · have heq := hpcAux_err_notin streams (streamDoneUpdate st p inner) p
          (alistInsert inner p true) hcond' (by simpa using hr)
        rw [hpair, heq] at h
        simp at h
      · obtain ⟨hmem, hrm⟩ := setRemove_some _ _ _ hr
        rcases hc : alistLookup st.recordCounter p.stream_name with - | c
        · have heq := hpcAux_err_noctr streams (streamDoneUpdate st p inner) p
            (alistInsert inner p true) hcond' (by simpa using hmem) (by simpa using hc)
          rw [hpair, heq] at h
          simp at h
        · rcases hf : findStream streams p.stream_name with - | stream
          · have heq := hpcAux_err_nostream streams (streamDoneUpdate st p inner) p
              (alistInsert inner p true) c hcond' (by simpa using hmem)
              (by simpa using hc) hf
            rw [hpair, heq] at h
            simp at h
          · have heq := hpcAux_final streams (streamDoneUpdate st p inner) p
              (alistInsert inner p true) c stream hcond' (by simpa using hmem)
              (by simpa using hc) hf
            rw [hpair, heq] at h
            simp only [Except.ok.injEq] at h
            refine Or.inr ⟨hcond, hmem, c, stream, rfl, rfl, ?_, ?_⟩
            · exact h.symm
            · rw [hpair, heq]
              rfl
    · have hcond' : ¬ (((alistInsert inner p true).all fun q => q.2) = true ∧
          p.stream_name ∉ (streamDoneUpdate st p inner).partitionGeneratorRunning) := by
        simpa using hcond
      have heq := hpcAux_nofinal streams (streamDoneUpdate st p inner) p
        (alistInsert inner p true) hcond'
      rw [hpair, heq] at h
      simp only [Except.ok.injEq] at h
      refine Or.inl ⟨hcond, h.symm, ?_⟩
      rw [hpair, heq]

theorem handleRecord_ok_cases (streams : List AbstractStream) (st st' : DriverState)
    (s : String) (d : Nat) (h : (handleRecord streams st s d).2 = .ok st') :
    ∃ stream c, findStream streams s = some stream ∧
      alistLookup st.recordCounter stream.name = some c ∧
      st' = { st with
        recordCounter := alistInsert st.recordCounter stream.name (c + 1)
        repository := [] } ∧
      handleRecord streams st s d =
        ((if c = 0 then [Event.statusMessage stream.name stream.ns .running] else []) ++
            Event.recordMessage s d :: Event.cursorObserve s d ::
              st.repository.map Event.repoMessage,
          .ok { st with
            recordCounter := alistInsert st.recordCounter stream.name (c + 1)
            repository := [] }) := by
  rcases hf : findStream streams s with - | stream
  · have hke : handleRecord streams st s d = ([], .error .keyError) := by
      simp [handleRecord, hf]
    rw [hke] at h
    simp at h
  · rcases hc : alistLookup st.recordCounter stream.name with - | c
    · have hke : handleRecord streams st s d = ([], .error .keyError) := by
        simp [handleRecord, hf, hc]
      rw [hke] at h
      simp at h
    · have hpair : handleRecord streams st s d =
          ((if c = 0 then [Event.statusMessage stream.name stream.ns .running] else []) ++
              Event.recordMessage s d :: Event.cursorObserve s d ::
                st.repository.map Event.repoMessage,
            .ok { st with
              recordCounter := alistInsert st.recordCounter stream.name (c + 1)
              repository := [] }) := by
        simp [handleRecord, hf, hc]
      rw [hpair] at h
      simp only [Except.ok.injEq] at h
      exact ⟨stream, c, rfl, hc, h.symm, hpair⟩

/-! ## Error-abort path (C1) -/

/-- The namespace the driver reports for a stream name: the `ns` of the
resolved instance. -/
def nsOf (streams : List AbstractStream) (s : String) : Option String :=
  match findStream streams s with
  | some stream => stream.ns
  | none => none

theorem stopStreamsGo_of_findable (streams : List AbstractStream) :
    ∀ l : List String, (∀ s ∈ l, (findStream streams s).isSome) →
      stopStreamsGo streams l =
        (l.map (fun s => Event.statusMessage s (nsOf streams s) .incomplete), .ok ()) := by
  intro l
  induction l with
  | nil => intro _; rfl
  | cons s rest ih =>
    intro hf
    have hs := hf s (List.mem_cons_self _ _)
    rcases hfs : findStream streams s with - | stream
    · rw [hfs] at hs; simp at hs
    · have hrest := ih (fun t ht => hf t (List.mem_cons_of_mem _ ht))
      have hname := findStream_name streams s stream hfs
      simp [stopStreamsGo, hfs, hrest, nsOf, hname]

/-- Claim C1 (amended): when the Driver pops an Error item from the queue,
it performs a one-shot global abort — it shuts down the worker pool
cancelling not-yet-started work, yields exactly one INCOMPLETE status
message for each stream in the in-progress set, re-raises that same error
to the caller and consumes no further input — but the accumulated timing
summary (`timer.report()`) is NOT emitted on this path. -/
theorem c1_amended_error_abort (cfg : SourceConfig) (streams : List AbstractStream)
    (st : DriverState) (e : Nat) (f : Bool) (rest : List (QueueItem × Bool))
    (hfind : ∀ s ∈ st.streamsInProgress, (findStream streams s).isSome) :
    driverLoop cfg streams st ((QueueItem.exception e, f) :: rest) =
      (Event.poolShutdown true ::
          st.streamsInProgress.map
            (fun s => Event.statusMessage s (nsOf streams s) .incomplete),
        .failed (.raised e), st) ∧
    Event.logTimerReport ∉
      (driverLoop cfg streams st ((QueueItem.exception e, f) :: rest)).1 := by
  have hgo := stopStreamsGo_of_findable streams st.streamsInProgress hfind
  have hstop1 : (stopStreams streams st.streamsInProgress).1 =
      Event.poolShutdown true ::
        st.streamsInProgress.map
          (fun s => Event.statusMessage s (nsOf streams s) .incomplete) := by
    simp [stopStreams, hgo]
  have hstop2 : (stopStreams streams st.streamsInProgress).2 = .ok () := by
    simp [stopStreams, hgo]
  have hstep := stepEq_exception_ok cfg streams st e f () hstop2
  have hloop := driverLoop_cons_halt cfg streams st st (QueueItem.exception e) f
    (.failed (.raised e)) rest (by rw [hstep])
  constructor
  · rw [hloop, hstep, hstop1]
  · rw [hloop]
    rw [hstep]
    rw [hstop1]
    simp

/-- Witness for the amended C1 at a concrete aborting run. -/
theorem c1_amended_error_abort_witness :
    driverLoop ⟨10, 300, true, false⟩ [⟨"s1", some "nsA", true⟩]
        ⟨["s1"], ["s1"], [], [("s1", [])], [("s1", 0)], []⟩
        [(QueueItem.exception 7, true)] =
      (Event.poolShutdown true ::
          (["s1"].map (fun s =>
            Event.statusMessage s (nsOf [⟨"s1", some "nsA", true⟩] s) .incomplete)),
        .failed (.raised 7), ⟨["s1"], ["s1"], [], [("s1", [])], [("s1", 0)], []⟩) ∧
    Event.logTimerReport ∉
      (driverLoop ⟨10, 300, true, false⟩ [⟨"s1", some "nsA", true⟩]
        ⟨["s1"], ["s1"], [], [("s1", [])], [("s1", 0)], []⟩
        [(QueueItem.exception 7, true)]).1 :=
  c1_amended_error_abort _ _ _ _ _ _ (by decide)

/-! ## Duplicate sentinel handling (C4) -/

/-- Claim C4 (amended): a second `PartitionCompleted` sentinel for a
partition already marked done never finalizes the stream a second time and
never emits a second COMPLETE.  While the stream is not yet finalizable
(some other partition pending, or its generator still running), the
duplicate is ignored: the driver state is left exactly as it was, and only
the repeated cursor `close_partition` call is observable.  But if the
stream was already finalized, the duplicate makes
`streams_in_progress.remove` raise a `KeyError`, aborting the run, instead
of being rejected or ignored. -/
theorem c4_amended_duplicate_sentinel (streams : List AbstractStream)
    (st : DriverState) (p : Partition) (inner : List (Partition × Bool))
    (hin : alistLookup st.streamsToPartitionsToDone p.stream_name = some inner)
    (hdone : alistLookup inner p = some true) :
    (¬ ((inner.all fun q => q.2) = true ∧
        p.stream_name ∉ st.partitionGeneratorRunning) →
      handlePartitionCompleted streams st p =
        ([Event.cursorClosePartition p], .ok st)) ∧
    (((inner.all fun q => q.2) = true ∧
        p.stream_name ∉ st.partitionGeneratorRunning) →
      p.stream_name ∉ st.streamsInProgress →
      handlePartitionCompleted streams st p =
        ([Event.cursorClosePartition p], .error .keyError)) := by
  have hins : alistInsert inner p true = inner := alistInsert_self inner p true hdone
  have hsdu : streamDoneUpdate st p inner = st := by
    unfold streamDoneUpdate
    rw [hins, alistInsert_self _ _ _ hin]
  have hpair := handlePartitionCompleted_eq_aux streams st p inner hin
  rw [hins, hsdu] at hpair
  constructor
  · intro hnc
    rw [hpair, hpcAux_nofinal streams st p inner hnc]
  · intro hc hnm
    rw [hpair, hpcAux_err_notin streams st p inner hc (by simp [setRemove, hnm])]

/-- Witness for the amended C4: a duplicate sentinel arriving after its
stream was finalized makes the handler raise `KeyError`. -/
theorem c4_amended_duplicate_sentinel_witness :
    handlePartitionCompleted [⟨"s1", some "nsA", true⟩]
        ⟨["s2"], [], [], [("s1", [(⟨"s1", 1⟩, true)])], [("s1", 0)], []⟩ ⟨"s1", 1⟩ =
      ([Event.cursorClosePartition ⟨"s1", 1⟩], .error .keyError) :=
  (c4_amended_duplicate_sentinel _ _ _ _ (by rfl) (by rfl)).2 (by decide) (by decide)

/-! ## Discovery-concurrency cap (C5) -/

theorem handlePGC_ok_running_le (st st' : DriverState) (name : String)
    (ev? : Option Event) (h : handlePartitionGenerationCompleted st name = .ok (st', ev?)) :
    st'.partitionGeneratorRunning.length ≤ st.partitionGeneratorRunning.length := by
  obtain ⟨hmem, hcase⟩ := handlePGC_ok_cases st st' name ev? h
  have hlen := removeFirst_length_of_mem st.partitionGeneratorRunning name hmem
  rcases hcase with ⟨-, -, rfl⟩ | ⟨g, rest, -, -, rfl⟩ <;> simp <;> omega

theorem handlePartition_ok_running (cfg : SourceConfig) (st st' : DriverState)
    (p : Partition) (h : handlePartition cfg st p = .ok st') :
    st'.partitionGeneratorRunning = st.partitionGeneratorRunning := by
  obtain ⟨inner, -, rfl⟩ := handlePartition_ok_cases cfg st st' p h
  rfl

theorem handlePartitionCompleted_ok_running (streams : List AbstractStream)
    (st st' : DriverState) (p : Partition)
    (h : (handlePartitionCompleted streams st p).2 = .ok st') :
    st'.partitionGeneratorRunning = st.partitionGeneratorRunning := by
  obtain ⟨inner, -, hcase⟩ := handlePartitionCompleted_ok_cases streams st st' p h
  rcases hcase with ⟨-, rfl, -⟩ | ⟨-, -, c, stream, -, -, rfl, -⟩ <;> rfl

theorem handleRecord_ok_running (streams : List AbstractStream) (st st' : DriverState)
    (s : String) (d : Nat) (h : (handleRecord streams st s d).2 = .ok st') :
    st'.partitionGeneratorRunning = st.partitionGeneratorRunning := by
  obtain ⟨stream, c, -, -, rfl, -⟩ := handleRecord_ok_cases streams st st' s d h
  rfl

theorem driverStep_cont_running_le (cfg : SourceConfig) (streams : List AbstractStream)
    (st : DriverState) (item : QueueItem) (f : Bool) (st2 : DriverState)
    (h : (driverStep cfg streams st item f).2 = .cont st2) :
    st2.partitionGeneratorRunning.length ≤ st.partitionGeneratorRunning.length := by
  cases item with
  | exception e =>
    rcases hs : (stopStreams streams st.streamsInProgress).2 with k | u
    · rw [stepEq_exception_err cfg streams st e f k hs] at h; simp at h
    · rw [stepEq_exception_ok cfg streams st e f u hs] at h; simp at h
  | generationCompleted name =>
    rcases hg : handlePartitionGenerationCompleted st name with k | ⟨st3, ev?⟩
    · rw [stepEq_gen_err cfg streams st name f k hg] at h; simp at h
    · cases hl : loopEndCheck st3 f with
      | true => rw [stepEq_gen_end cfg streams st st3 name f ev? hg hl] at h; simp at h
      | false =>
        rw [stepEq_gen_cont cfg streams st st3 name f ev? hg hl] at h
        simp only [StepOut.cont.injEq] at h
        exact h ▸ handlePGC_ok_running_le st st3 name ev? hg
  | partitionItem p =>
    rcases hp : handlePartition cfg st p with k | st3
    · rw [stepEq_part_err cfg streams st p f k hp] at h; simp at h
    · cases hl : loopEndCheck st3 f with
      | true => rw [stepEq_part_end cfg streams st st3 p f hp hl] at h; simp at h
      | false =>
        rw [stepEq_part_cont cfg streams st st3 p f hp hl] at h
        simp only [StepOut.cont.injEq] at h
        rw [← h, handlePartition_ok_running cfg st st3 p hp]
  | partitionCompleted p =>
    rcases hp : (handlePartitionCompleted streams st p).2 with k | st3
    · rw [stepEq_pc_err cfg streams st p f k hp] at h; simp at h
    · cases he : st3.streamsInProgress.isEmpty with
      | true => rw [stepEq_pc_done cfg streams st st3 p f hp he] at h; simp at h
      | false =>
        cases hl : loopEndCheck st3 f with
        | true => rw [stepEq_pc_end cfg streams st st3 p f hp he hl] at h; simp at h
        | false =>
          rw [stepEq_pc_cont cfg streams st st3 p f hp he hl] at h
          simp only [StepOut.cont.injEq] at h
          rw [← h, handlePartitionCompleted_ok_running streams st st3 p hp]
  | record s d =>
    rcases hp : (handleRecord streams st s d).2 with k | st3
    · rw [stepEq_rec_err cfg streams st s d f k hp] at h; simp at h
    · cases hl : loopEndCheck st3 f with
      | true => rw [stepEq_rec_end cfg streams st st3 s d f hp hl] at h; simp at h
      | false =>
        rw [stepEq_rec_cont cfg streams st st3 s d f hp hl] at h
        simp only [StepOut.cont.injEq] at h
        rw [← h, handleRecord_ok_running streams st st3 s d hp]

theorem driverStep_halt_running_le (cfg : SourceConfig) (streams : List AbstractStream)
    (st : DriverState) (item : QueueItem) (f : Bool) (out : RunOutcome)
    (st2 : DriverState)
    (h : (driverStep cfg streams st item f).2 = .halt out st2) :
    st2.partitionGeneratorRunning.length ≤ st.partitionGeneratorRunning.length := by
  cases item with
  | exception e =>
    rcases hs : (stopStreams streams st.streamsInProgress).2 with k | u
    · rw [stepEq_exception_err cfg streams st e f k hs] at h
      simp only [StepOut.halt.injEq] at h
      exact h.2 ▸ le_refl _
    · rw [stepEq_exception_ok cfg streams st e f u hs] at h
      simp only [StepOut.halt.injEq] at h
      exact h.2 ▸ le_refl _
  | generationCompleted name =>
    rcases hg : handlePartitionGenerationCompleted st name with k | ⟨st3, ev?⟩
    · rw [stepEq_gen_err cfg streams st name f k hg] at h
      simp only [StepOut.halt.injEq] at h
      exact h.2 ▸ le_refl _
    · cases hl : loopEndCheck st3 f with
      | true =>
        rw [stepEq_gen_end cfg streams st st3 name f ev? hg hl] at h
        simp only [StepOut.halt.injEq] at h
        exact h.2 ▸ handlePGC_ok_running_le st st3 name ev? hg
      | false =>
        rw [stepEq_gen_cont cfg streams st st3 name f ev? hg hl] at h; simp at h
  | partitionItem p =>
    rcases hp : handlePartition cfg st p with k | st3
    · rw [stepEq_part_err cfg streams st p f k hp] at h
      simp only [StepOut.halt.injEq] at h
      exact h.2 ▸ le_refl _
    · cases hl : loopEndCheck st3 f with
      | true =>
        rw [stepEq_part_end cfg streams st st3 p f hp hl] at h
        simp only [StepOut.halt.injEq] at h
        rw [← h.2, handlePartition_ok_running cfg st st3 p hp]
      | false =>
        rw [stepEq_part_cont cfg streams st st3 p f hp hl] at h; simp at h
  | partitionCompleted p =>
    rcases hp : (handlePartitionCompleted streams st p).2 with k | st3
    · rw [stepEq_pc_err cfg streams st p f k hp] at h
      simp only [StepOut.halt.injEq] at h
      exact h.2 ▸ le_refl _
    · have hrun := handlePartitionCompleted_ok_running streams st st3 p hp
      cases he : st3.streamsInProgress.isEmpty with
      | true =>
        rw [stepEq_pc_done cfg streams st st3 p f hp he] at h
        simp only [StepOut.halt.injEq] at h
        rw [← h.2, hrun]
      | false =>
        cases hl : loopEndCheck st3 f with
        | true =>
          rw [stepEq_pc_end cfg streams st st3 p f hp he hl] at h
          simp only [StepOut.halt.injEq] at h
          rw [← h.2, hrun]
        | false =>
          rw [stepEq_pc_cont cfg streams st st3 p f hp he hl] at h; simp at h
  | record s d =>
    rcases hp : (handleRecord streams st s d).2 with k | st3
    · rw [stepEq_rec_err cfg streams st s d f k hp] at h
      simp only [StepOut.halt.injEq] at h
      exact h.2 ▸ le_refl _
    · cases hl : loopEndCheck st3 f with
      | true =>
        rw [stepEq_rec_end cfg streams st st3 s d f hp hl] at h
        simp only [StepOut.halt.injEq] at h
        rw [← h.2, handleRecord_ok_running streams st st3 s d hp]
      | false =>
        rw [stepEq_rec_cont cfg streams st st3 s d f hp hl] at h; simp at h

theorem driverLoop_running_le (cfg : SourceConfig) (streams : List AbstractStream) :
    ∀ (inputs : List (QueueItem × Bool)) (st : DriverState),
      st.partitionGeneratorRunning.length ≤ 1 →
      ((driverLoop cfg streams st inputs).2.2).partitionGeneratorRunning.length ≤ 1 := by
  intro inputs
  induction inputs with
  | nil => intro st h; simpa [driverLoop_nil] using h
  | cons itf rest ih =>
    intro st h
    obtain ⟨item, f⟩ := itf
    rcases hs : (driverStep cfg streams st item f).2 with st2 | ⟨out, st2⟩
    · rw [driverLoop_cons_cont cfg streams st st2 item f rest hs]
      exact ih st2 (le_trans (driverStep_cont_running_le cfg streams st item f st2 hs) h)
    · rw [driverLoop_cons_halt cfg streams st st2 item f out rest hs]
      exact le_trans (driverStep_halt_running_le cfg streams st item f out st2 hs) h

theorem startupGo_ok_running_length :
    ∀ (k : Nat) (st st' : DriverState), (startupGo st k).2 = .ok st' →
      st'.partitionGeneratorRunning.length = st.partitionGeneratorRunning.length + k := by
  intro k
  induction k with
  | zero =>
    intro st st' h
    simp only [startupGo] at h
    injection h with h
    rw [h]
    omega
  | succ k ih =>
    intro st st' h
    unfold startupGo at h
    rcases hp : st.partitionGenerators with - | ⟨g, rest⟩ <;> rw [hp] at h
    · simp at h
    · have := ih _ _ h
      simp only [List.length_append, List.length_cons, List.length_nil] at this
      omega

/-- Claim C5 (amended): the discovery-concurrency cap is the hardcoded
constant 1, not a configurable value.  First conjunct: at every point of
every run — i.e., after `read` has consumed any list of popped items — the
number of generation tasks concurrently running is at most that cap.
Second conjunct: whenever a GenerationCompleted sentinel is processed
successfully, the finished stream is removed from the running-generators
list, and if streams are still waiting to start discovery exactly one next
generator is submitted, its stream entering both the running-generators
list and the in-progress set, with a STARTED status (namespace `None`)
emitted for it. -/
theorem c5_amended_generator_cap (cfg : SourceConfig) (streams : List AbstractStream)
    (catalog : List String) :
    (∀ inputs : List (QueueItem × Bool),
      ((read cfg streams catalog inputs).2.2).partitionGeneratorRunning.length ≤
        maxNumberOfPartitionGeneratorInProgress cfg) ∧
    (∀ (st st' : DriverState) (name : String) (ev? : Option Event),
      handlePartitionGenerationCompleted st name = .ok (st', ev?) →
      (st.partitionGenerators = [] ∧ ev? = none ∧
        st'.partitionGeneratorRunning = removeFirst st.partitionGeneratorRunning name) ∨
      (∃ g rest, st.partitionGenerators = g :: rest ∧
        ev? = some (Event.statusMessage g none .started) ∧
        st'.partitionGeneratorRunning =
          removeFirst st.partitionGeneratorRunning name ++ [g] ∧
        st'.partitionGenerators = rest ∧ g ∈ st'.streamsInProgress)) := by
  constructor
  · intro inputs
    rw [maxNumberOfPartitionGeneratorInProgress]
    rcases hsel : (selectStreams cfg streams catalog).2 with k | eligible
    · rw [readEq_sel_err cfg streams catalog inputs k hsel]
      simp [initState]
    · rcases hst : (startup (maxNumberOfPartitionGeneratorInProgress cfg)
          (initState eligible)).2 with k | st1
      · rw [readEq_startup_err cfg streams catalog inputs eligible k hsel hst]
        simp [initState]
      · rw [readEq_ok cfg streams catalog inputs eligible st1 hsel hst]
        refine driverLoop_running_le cfg streams inputs st1 ?_
        have := startupGo_ok_running_length _ _ _ hst
        simp [initState, maxNumberOfPartitionGeneratorInProgress] at this
        omega
  · intro st st' name ev? h
    obtain ⟨hmem, hcase⟩ := handlePGC_ok_cases st st' name ev? h
    rcases hcase with ⟨h1, h2, rfl⟩ | ⟨g, rest, h1, h2, rfl⟩
    · exact Or.inl ⟨h1, h2, rfl⟩
    · refine Or.inr ⟨g, rest, h1, h2, rfl, rfl, ?_⟩
      unfold setAdd
      split
      · assumption
      · simp

/-- Witness for the amended C5: the cap bound at a concrete three-stream
run, and the handler disjunction at a concrete state in which a second
generator is waiting. -/
theorem c5_amended_generator_cap_witness :
    ((read ⟨10, 300, true, false⟩
        [⟨"s1", some "nsA", true⟩, ⟨"s2", none, true⟩, ⟨"s3", none, true⟩]
        ["s1", "s2", "s3"]
        [(QueueItem.generationCompleted "s1", false)]).2.2).partitionGeneratorRunning.length ≤
      maxNumberOfPartitionGeneratorInProgress ⟨10, 300, true, false⟩ :=
  (c5_amended_generator_cap ⟨10, 300, true, false⟩
    [⟨"s1", some "nsA", true⟩, ⟨"s2", none, true⟩, ⟨"s3", none, true⟩]
    ["s1", "s2", "s3"]).1 [(QueueItem.generationCompleted "s1", false)]

/-! ## Status-message namespaces (C10) -/

/-- Namespace discipline of a single event: a STARTED status message
carries namespace `None`; any other status message carries the namespace of
the resolved stream instance; non-status events are unconstrained. -/
def nsOkEvent (streams : List AbstractStream) : Event → Bool
  | .statusMessage _ ns .started => ns = none
  | .statusMessage n ns _ =>
    match findStream streams n with
    | some stream => ns = stream.ns
    | none => false
  | _ => true

theorem stopStreamsGo_events_nsOk (streams : List AbstractStream) :
    ∀ l : List String,
      ((stopStreamsGo streams l).1.all fun e => nsOkEvent streams e) = true := by
  intro l
  induction l with
  | nil => simp [stopStreamsGo]
  | cons s rest ih =>
    unfold stopStreamsGo
    rcases hf : findStream streams s with - | stream
    · simp
    · have hname := findStream_name streams s stream hf
      simp only [List.all_cons, ih, Bool.and_true]
      simp [nsOkEvent, hname, hf]

theorem handlePartitionCompleted_events_nsOk (streams : List AbstractStream)
    (st : DriverState) (p : Partition) :
    ((handlePartitionCompleted streams st p).1.all fun e => nsOkEvent streams e) = true := by
  rcases hl : alistLookup st.streamsToPartitionsToDone p.stream_name with - | inner
  · have : handlePartitionCompleted streams st p = ([], .error .keyError) := by
      unfold handlePartitionCompleted
      rw [hl]
    rw [this]
    simp
  · rw [handlePartitionCompleted_eq_aux streams st p inner hl]
    unfold handlePartitionCompletedAux
    repeat' split
    all_goals simp [nsOkEvent]
    rename_i c stream heq
    have hname := findStream_name streams p.stream_name stream heq
    simp [nsOkEvent, hname, heq]

theorem handleRecord_events_nsOk (streams : List AbstractStream) (st : DriverState)
    (s : String) (d : Nat) :
    ((handleRecord streams st s d).1.all fun e => nsOkEvent streams e) = true := by
  rcases hf : findStream streams s with - | stream
  · have hke : handleRecord streams st s d = ([], .error .keyError) := by
      simp [handleRecord, hf]
    rw [hke]; simp
  · rcases hc : alistLookup st.recordCounter stream.name with - | c
    · have hke : handleRecord streams st s d = ([], .error .keyError) := by
        simp [handleRecord, hf, hc]
      rw [hke]; simp
    · have hpair : handleRecord streams st s d =
          ((if c = 0 then [Event.statusMessage stream.name stream.ns .running] else []) ++
              Event.recordMessage s d :: Event.cursorObserve s d ::
                st.repository.map Event.repoMessage,
            .ok { st with
              recordCounter := alistInsert st.recordCounter stream.name (c + 1)
              repository := [] }) := by
        simp [handleRecord, hf, hc]
      have hname := findStream_name streams s stream hf
      rw [hpair]
      simp only [List.all_append]
      refine Bool.and_eq_true_iff.mpr ⟨?_, ?_⟩
      · by_cases hc0 : c = 0
        · simp [hc0, nsOkEvent, hname, hf]
        · simp [hc0]
      · simp [nsOkEvent, List.all_eq_true, List.mem_map]

theorem postLoopEvents_nsOk (streams : List AbstractStream) :
    (postLoopEvents.all fun e => nsOkEvent streams e) = true := by
  simp [postLoopEvents, nsOkEvent]

theorem driverStep_events_nsOk (cfg : SourceConfig) (streams : List AbstractStream)
    (st : DriverState) (item : QueueItem) (f : Bool) :
    ((driverStep cfg streams st item f).1.all fun e => nsOkEvent streams e) = true := by
  cases item with
  | exception e =>
    rcases hs : (stopStreams streams st.streamsInProgress).2 with k | u
    · rw [stepEq_exception_err cfg streams st e f k hs]
      simpa [stopStreams, nsOkEvent] using stopStreamsGo_events_nsOk streams st.streamsInProgress
    · rw [stepEq_exception_ok cfg streams st e f u hs]
      simpa [stopStreams, nsOkEvent] using stopStreamsGo_events_nsOk streams st.streamsInProgress
  | generationCompleted name =>
    rcases hg : handlePartitionGenerationCompleted st name with k | ⟨st2, ev?⟩
    · rw [stepEq_gen_err cfg streams st name f k hg]; simp
    · have hev : (ev?.toList.all fun e => nsOkEvent streams e) = true := by
        cases ev? with
        | none => simp
        | some ev =>
          obtain ⟨g, rfl⟩ := handlePartitionGenerationCompleted_event_started st name st2 ev hg
          simp [nsOkEvent]
      cases hl : loopEndCheck st2 f with
      | true =>
        rw [stepEq_gen_end cfg streams st st2 name f ev? hg hl]
        simp only [List.all_append, hev, Bool.true_and]
        exact postLoopEvents_nsOk streams
      | false =>
        rw [stepEq_gen_cont cfg streams st st2 name f ev? hg hl]
        exact hev
  | partitionItem p =>
    rcases hp : handlePartition cfg st p with k | st2
    · rw [stepEq_part_err cfg streams st p f k hp]; simp
    · cases hl : loopEndCheck st2 f with
      | true =>
        rw [stepEq_part_end cfg streams st st2 p f hp hl]
        exact postLoopEvents_nsOk streams
      | false => rw [stepEq_part_cont cfg streams st st2 p f hp hl]; simp
  | partitionCompleted p =>
    have hev := handlePartitionCompleted_events_nsOk streams st p
    rcases hp : (handlePartitionCompleted streams st p).2 with k | st2
    · rw [stepEq_pc_err cfg streams st p f k hp]
      exact hev
    · cases he : st2.streamsInProgress.isEmpty with
      | true =>
        rw [stepEq_pc_done cfg streams st st2 p f hp he]
        simp only [List.all_append, hev, Bool.true_and]
        exact postLoopEvents_nsOk streams
      | false =>
        cases hl : loopEndCheck st2 f with
        | true =>
          rw [stepEq_pc_end cfg streams st st2 p f hp he hl]
          simp only [List.all_append, hev, Bool.true_and]
          exact postLoopEvents_nsOk streams
        | false =>
          rw [stepEq_pc_cont cfg streams st st2 p f hp he hl]
          exact hev
  | record s d =>
    have hev := handleRecord_events_nsOk streams st s d
    rcases hp : (handleRecord streams st s d).2 with k | st2
    · rw [stepEq_rec_err cfg streams st s d f k hp]
      exact hev
    · cases hl : loopEndCheck st2 f with
      | true =>
        rw [stepEq_rec_end cfg streams st st2 s d f hp hl]
        simp only [List.all_append, hev, Bool.true_and]
        exact postLoopEvents_nsOk streams
      | false =>
        rw [stepEq_rec_cont cfg streams st st2 s d f hp hl]
        exact hev

theorem driverLoop_events_nsOk (cfg : SourceConfig) (streams : List AbstractStream) :
    ∀ (inputs : List (QueueItem × Bool)) (st : DriverState),
      ((driverLoop cfg streams st inputs).1.all fun e => nsOkEvent streams e) = true := by
  intro inputs
  induction inputs with
  | nil => intro st; simp [driverLoop_nil]
  | cons itf rest ih =>
    intro st
    obtain ⟨item, f⟩ := itf
    rcases hs : (driverStep cfg streams st item f).2 with st2 | ⟨out, st2⟩
    · rw [driverLoop_cons_cont cfg streams st st2 item f rest hs]
      simp only [List.all_append]
      exact Bool.and_eq_true_iff.mpr ⟨driverStep_events_nsOk cfg streams st item f, ih st2⟩
    · rw [driverLoop_cons_halt cfg streams st st2 item f out rest hs]
      exact driverStep_events_nsOk cfg streams st item f

theorem selectStreams_events_nsOk (cfg : SourceConfig) (streams : List AbstractStream) :
    ∀ catalog : List String,
      ((selectStreams cfg streams catalog).1.all fun e => nsOkEvent streams e) = true := by
  intro catalog
  induction catalog with
  | nil => simp [selectStreams]
  | cons n rest ih =>
    unfold selectStreams
    split
    · split
      · simp
      · exact ih
    · split
      · exact ih
      · simpa [nsOkEvent] using ih

theorem startupGo_events_nsOk (streams : List AbstractStream) :
    ∀ (k : Nat) (st : DriverState),
      ((startupGo st k).1.all fun e => nsOkEvent streams e) = true := by
  intro k
  induction k with
  | zero => intro st; simp [startupGo]
  | succ k ih =>
    intro st
    unfold startupGo
    split
    · simp
    · simpa [nsOkEvent] using ih _

theorem read_events_nsOk (cfg : SourceConfig) (streams : List AbstractStream)
    (catalog : List String) (inputs : List (QueueItem × Bool)) :
    ((read cfg streams catalog inputs).1.all fun e => nsOkEvent streams e) = true := by
  rcases hsel : (selectStreams cfg streams catalog).2 with k | eligible
  · rw [readEq_sel_err cfg streams catalog inputs k hsel]
    exact selectStreams_events_nsOk cfg streams catalog
  · rcases hst : (startup (maxNumberOfPartitionGeneratorInProgress cfg)
        (initState eligible)).2 with k | st1
    · rw [readEq_startup_err cfg streams catalog inputs eligible k hsel hst]
      simp only [List.all_append]
      exact Bool.and_eq_true_iff.mpr
        ⟨selectStreams_events_nsOk cfg streams catalog, startupGo_events_nsOk streams _ _⟩
    · rw [readEq_ok cfg streams catalog inputs eligible st1 hsel hst]
      simp only [List.all_append]
      exact Bool.and_eq_true_iff.mpr
        ⟨Bool.and_eq_true_iff.mpr
          ⟨selectStreams_events_nsOk cfg streams catalog, startupGo_events_nsOk streams _ _⟩,
          driverLoop_events_nsOk cfg streams inputs st1⟩

/-- Claim C10: every STARTED status message yielded by `read` is
constructed with namespace `None` regardless of the stream's namespace,
whereas every RUNNING, COMPLETE and INCOMPLETE status message carries the
namespace of the stream's resolved instance
(`stream.as_airbyte_stream().namespace`). -/
theorem c10_started_namespace_none (cfg : SourceConfig) (streams : List AbstractStream)
    (catalog : List String) (inputs : List (QueueItem × Bool)) :
    ∀ (n : String) (ns : Option String) (stt : StreamStatus),
      Event.statusMessage n ns stt ∈ (read cfg streams catalog inputs).1 →
      (stt = .started → ns = none) ∧
      (stt ≠ .started →
        ∃ stream, findStream streams n = some stream ∧ ns = stream.ns) := by
  intro n ns stt hmem
  have hall := read_events_nsOk cfg streams catalog inputs
  rw [List.all_eq_true] at hall
  have h := hall _ hmem
  cases stt with
  | started =>
    refine ⟨fun _ => ?_, fun hne => absurd rfl hne⟩
    simpa [nsOkEvent] using h
  | running =>
    refine ⟨fun hst => StreamStatus.noConfusion hst, fun _ => ?_⟩
    simp only [nsOkEvent] at h
    rcases hf : findStream streams n with - | stream
    · rw [hf] at h; simp at h
    · rw [hf] at h
      refine ⟨stream, rfl, ?_⟩
      simpa using h
  | complete =>
    refine ⟨fun hst => StreamStatus.noConfusion hst, fun _ => ?_⟩
    simp only [nsOkEvent] at h
    rcases hf : findStream streams n with - | stream
    · rw [hf] at h; simp at h
    · rw [hf] at h
      refine ⟨stream, rfl, ?_⟩
      simpa using h
  | incomplete =>
    refine ⟨fun hst => StreamStatus.noConfusion hst, fun _ => ?_⟩
    simp only [nsOkEvent] at h
    rcases hf : findStream streams n with - | stream
    · rw [hf] at h; simp at h
    · rw [hf] at h
      refine ⟨stream, rfl, ?_⟩
      simpa using h

/-- Witness for C10 at a concrete run containing a STARTED and a RUNNING
status message. -/
theorem c10_started_namespace_none_witness :
    (Event.statusMessage "s1" none .started ∈
      (read ⟨10, 300, true, false⟩ [⟨"s1", some "nsA", true⟩] ["s1"]
        [(QueueItem.partitionItem ⟨"s1", 1⟩, false),
          (QueueItem.record "s1" 5, false)]).1) ∧
    ((Event.statusMessage "s1" (some "nsA") .running ∈
        (read ⟨10, 300, true, false⟩ [⟨"s1", some "nsA", true⟩] ["s1"]
          [(QueueItem.partitionItem ⟨"s1", 1⟩, false),
            (QueueItem.record "s1" 5, false)]).1) ∧
      ∃ stream, findStream [⟨"s1", some "nsA", true⟩] "s1" = some stream ∧
        (some "nsA" : Option String) = stream.ns) :=
  ⟨by decide,
    by decide,
    (c10_started_namespace_none ⟨10, 300, true, false⟩ [⟨"s1", some "nsA", true⟩] ["s1"]
        [(QueueItem.partitionItem ⟨"s1", 1⟩, false), (QueueItem.record "s1" 5, false)]
        "s1" (some "nsA") .running (by decide)).2 (by decide)⟩

/-! ## Eligible-stream name discipline (C7) -/

/-- A status message may only name a stream in `elig`; other events are
unconstrained. -/
def statusElig (elig : List String) : Event → Bool
  | .statusMessage n _ _ => decide (n ∈ elig)
  | _ => true

/-- All stream names the driver's state can mention are eligible names:
pending generators, in-progress streams, and the key sets of
`streams_to_partitions_to_done` and `record_counter`. -/
def NamesInv (elig : List String) (st : DriverState) : Prop :=
  (∀ s ∈ st.partitionGenerators, s ∈ elig) ∧
  (∀ s ∈ st.streamsInProgress, s ∈ elig) ∧
  (∀ s : String, (alistLookup st.streamsToPartitionsToDone s).isSome = true → s ∈ elig) ∧
  (∀ s : String, (alistLookup st.recordCounter s).isSome = true → s ∈ elig)

theorem mem_setAdd {x y : String} {l : List String} (h : x ∈ setAdd l y) :
    x ∈ l ∨ x = y := by
  unfold setAdd at h
  split at h
  · exact Or.inl h
  · rcases List.mem_append.mp h with h' | h'
    · exact Or.inl h'
    · exact Or.inr (List.mem_singleton.mp h')

theorem mem_setAdd_self (y : String) (l : List String) : y ∈ setAdd l y := by
  unfold setAdd
  split
  · assumption
  · simp

theorem stopStreamsGo_statusElig (streams : List AbstractStream) (elig : List String) :
    ∀ l : List String, (∀ t ∈ l, t ∈ elig) →
      ((stopStreamsGo streams l).1.all (statusElig elig)) = true := by
  intro l
  induction l with
  | nil => intro _; simp [stopStreamsGo]
  | cons t rest ih =>
    intro hsub
    unfold stopStreamsGo
    rcases hf : findStream streams t with - | stream
    · simp
    · have hname := findStream_name streams t stream hf
      simp only [List.all_cons]
      refine Bool.and_eq_true_iff.mpr ⟨?_, ih fun u hu => hsub u (List.mem_cons_of_mem _ hu)⟩
      simp [statusElig, hname, hsub t (List.mem_cons_self _ _)]

theorem handlePGC_namesInv (elig : List String) (st st' : DriverState) (name : String)
    (ev? : Option Event) (hinv : NamesInv elig st)
    (h : handlePartitionGenerationCompleted st name = .ok (st', ev?)) :
    NamesInv elig st' ∧ (ev?.toList.all (statusElig elig)) = true := by
  obtain ⟨hpend, hip, hdone, hctr⟩ := hinv
  obtain ⟨hmem, hcase⟩ := handlePGC_ok_cases st st' name ev? h
  rcases hcase with ⟨h1, rfl, rfl⟩ | ⟨g, rest, h1, rfl, rfl⟩
  · exact ⟨⟨hpend, hip, hdone, hctr⟩, by simp⟩
  · have hg : g ∈ elig := hpend g (by rw [h1]; exact List.mem_cons_self _ _)
    refine ⟨⟨?_, ?_, hdone, hctr⟩, ?_⟩
    · intro t ht
      exact hpend t (by rw [h1]; exact List.mem_cons_of_mem _ ht)
    · intro t ht
      rcases mem_setAdd ht with ht' | rfl
      · exact hip t ht'
      · exact hg
    · simp [statusElig, hg]

theorem handlePartition_namesInv (cfg : SourceConfig) (elig : List String)
    (st st' : DriverState) (p : Partition) (hinv : NamesInv elig st)
    (h : handlePartition cfg st p = .ok st') : NamesInv elig st' := by
  obtain ⟨hpend, hip, hdone, hctr⟩ := hinv
  obtain ⟨inner, hl, rfl⟩ := handlePartition_ok_cases cfg st st' p h
  refine ⟨hpend, hip, ?_, hctr⟩
  intro t ht
  simp only at ht
  rw [alistLookup_insert_isSome] at ht
  rcases Bool.or_eq_true_iff.mp ht with ht' | ht'
  · exact hdone t ht'
  · have : p.stream_name = t := of_decide_eq_true ht'
    exact this ▸ hdone p.stream_name (by rw [hl]; rfl)

theorem handlePartitionCompleted_namesInv (streams : List AbstractStream)
    (elig : List String) (st st' : DriverState) (p : Partition) (hinv : NamesInv elig st)
    (h : (handlePartitionCompleted streams st p).2 = .ok st') :
    NamesInv elig st' ∧
      ((handlePartitionCompleted streams st p).1.all (statusElig elig)) = true := by
  obtain ⟨hpend, hip, hdone, hctr⟩ := hinv
  obtain ⟨inner, hl, hcase⟩ := handlePartitionCompleted_ok_cases streams st st' p h
  have hkey : p.stream_name ∈ elig := hdone p.stream_name (by rw [hl]; rfl)
  have hdone' : ∀ s : String,
      (alistLookup (streamDoneUpdate st p inner).streamsToPartitionsToDone s).isSome = true →
        s ∈ elig := by
    intro t ht
    simp only [streamDoneUpdate] at ht
    rw [alistLookup_insert_isSome] at ht
    rcases Bool.or_eq_true_iff.mp ht with ht' | ht'
    · exact hdone t ht'
    · exact (of_decide_eq_true ht') ▸ hkey
  rcases hcase with ⟨-, rfl, hev⟩ | ⟨-, -, c, stream, hc, hfs, rfl, hev⟩
  · refine ⟨⟨hpend, hip, hdone', hctr⟩, ?_⟩
    rw [hev]
    simp [statusElig]
  · have hname := findStream_name streams p.stream_name stream hfs
    refine ⟨⟨hpend, ?_, hdone', hctr⟩, ?_⟩
    · intro t ht
      exact hip t (removeFirst_subset _ _ _ ht)
    · rw [hev]
      simp [statusElig, hname, hkey]

theorem handleRecord_namesInv (streams : List AbstractStream) (elig : List String)
    (st st' : DriverState) (s : String) (d : Nat) (hinv : NamesInv elig st)
    (h : (handleRecord streams st s d).2 = .ok st') :
    NamesInv elig st' ∧ ((handleRecord streams st s d).1.all (statusElig elig)) = true := by
  obtain ⟨hpend, hip, hdone, hctr⟩ := hinv
  obtain ⟨stream, c, hf, hc, rfl, hev⟩ := handleRecord_ok_cases streams st st' s d h
  have hkey : stream.name ∈ elig := hctr stream.name (by rw [hc]; rfl)
  constructor
  · refine ⟨hpend, hip, hdone, ?_⟩
    intro t ht
    simp only at ht
    rw [alistLookup_insert_isSome] at ht
    rcases Bool.or_eq_true_iff.mp ht with ht' | ht'
    · exact hctr t ht'
    · exact (of_decide_eq_true ht') ▸ hkey
  · rw [hev]
    simp only [List.all_append]
    refine Bool.and_eq_true_iff.mpr ⟨?_, ?_⟩
    · by_cases hc0 : c = 0
      · simp [hc0, statusElig, hkey]
      · simp [hc0]
    · simp [statusElig, List.all_eq_true, List.mem_map]

theorem postLoopEvents_statusElig (elig : List String) :
    (postLoopEvents.all (statusElig elig)) = true := by
  simp [postLoopEvents, statusElig]

theorem driverStep_namesInv (cfg : SourceConfig) (streams : List AbstractStream)
    (elig : List String) (st : DriverState) (item : QueueItem) (f : Bool)
    (hinv : NamesInv elig st) :
    ((driverStep cfg streams st item f).1.all (statusElig elig)) = true ∧
    (∀ st2, (driverStep cfg streams st item f).2 = .cont st2 → NamesInv elig st2) ∧
    (∀ out st2, (driverStep cfg streams st item f).2 = .halt out st2 →
      NamesInv elig st2) := by
  cases item with
  | exception e =>
    have hev : ((stopStreams streams st.streamsInProgress).1.all (statusElig elig)) = true := by
      have := stopStreamsGo_statusElig streams elig st.streamsInProgress hinv.2.1
      simpa [stopStreams, statusElig] using this
    rcases hs : (stopStreams streams st.streamsInProgress).2 with k | u
    · rw [stepEq_exception_err cfg streams st e f k hs]
      refine ⟨hev, fun st2 h => by simp at h, fun out st2 h => ?_⟩
      simp only [StepOut.halt.injEq] at h
      exact h.2 ▸ hinv
    · rw [stepEq_exception_ok cfg streams st e f u hs]
      refine ⟨hev, fun st2 h => by simp at h, fun out st2 h => ?_⟩
      simp only [StepOut.halt.injEq] at h
      exact h.2 ▸ hinv
  | generationCompleted name =>
    rcases hg : handlePartitionGenerationCompleted st name with k | ⟨st3, ev?⟩
    · rw [stepEq_gen_err cfg streams st name f k hg]
      refine ⟨by simp, fun st2 h => by simp at h, fun out st2 h => ?_⟩
      simp only [StepOut.halt.injEq] at h
      exact h.2 ▸ hinv
    · obtain ⟨hinv3, hev⟩ := handlePGC_namesInv elig st st3 name ev? hinv hg
      cases hl : loopEndCheck st3 f with
      | true =>
        rw [stepEq_gen_end cfg streams st st3 name f ev? hg hl]
        refine ⟨?_, fun st2 h => by simp at h, fun out st2 h => ?_⟩
        · simp only [List.all_append, hev, Bool.true_and]
          exact postLoopEvents_statusElig elig
        · simp only [StepOut.halt.injEq] at h
          exact h.2 ▸ hinv3
      | false =>
        rw [stepEq_gen_cont cfg streams st st3 name f ev? hg hl]
        refine ⟨hev, fun st2 h => ?_, fun out st2 h => by simp at h⟩
        simp only [StepOut.cont.injEq] at h
        exact h ▸ hinv3
  | partitionItem p =>
    rcases hp : handlePartition cfg st p with k | st3
    · rw [stepEq_part_err cfg streams st p f k hp]
      refine ⟨by simp, fun st2 h => by simp at h, fun out st2 h => ?_⟩
      simp only [StepOut.halt.injEq] at h
      exact h.2 ▸ hinv
    · have hinv3 := handlePartition_namesInv cfg elig st st3 p hinv hp
      cases hl : loopEndCheck st3 f with
      | true =>
        rw [stepEq_part_end cfg streams st st3 p f hp hl]
        refine ⟨postLoopEvents_statusElig elig, fun st2 h => by simp at h,
          fun out st2 h => ?_⟩
        simp only [StepOut.halt.injEq] at h
        exact h.2 ▸ hinv3
      | false =>
        rw [stepEq_part_cont cfg streams st st3 p f hp hl]
        refine ⟨by simp, fun st2 h => ?_, fun out st2 h => by simp at h⟩
        simp only [StepOut.cont.injEq] at h
        exact h ▸ hinv3
  | partitionCompleted p =>
    rcases hp : (handlePartitionCompleted streams st p).2 with k | st3
    · have hev : ((handlePartitionCompleted streams st p).1.all (statusElig elig)) = true := by
        rcases hl : alistLookup st.streamsToPartitionsToDone p.stream_name with - | inner
        · have : handlePartitionCompleted streams st p = ([], .error .keyError) := by
            unfold handlePartitionCompleted
            rw [hl]
          rw [this]; simp
        · have hkey : p.stream_name ∈ elig := hinv.2.2.1 p.stream_name (by rw [hl]; rfl)
          rw [handlePartitionCompleted_eq_aux streams st p inner hl]
          unfold handlePartitionCompletedAux
          repeat' split
          all_goals simp [statusElig]
          rename_i stream heq'
          have hname := findStream_name streams p.stream_name stream heq'
          simp [hname, hkey]
      rw [stepEq_pc_err cfg streams st p f k hp]
      refine ⟨hev, fun st2 h => by simp at h, fun out st2 h => ?_⟩
      simp only [StepOut.halt.injEq] at h
      exact h.2 ▸ hinv
    · obtain ⟨hinv3, hev⟩ := handlePartitionCompleted_namesInv streams elig st st3 p hinv hp
      cases he : st3.streamsInProgress.isEmpty with
      | true =>
        rw [stepEq_pc_done cfg streams st st3 p f hp he]
        refine ⟨?_, fun st2 h => by simp at h, fun out st2 h => ?_⟩
        · simp only [List.all_append, hev, Bool.true_and]
          exact postLoopEvents_statusElig elig
        · simp only [StepOut.halt.injEq] at h
          exact h.2 ▸ hinv3
      | false =>
        cases hl : loopEndCheck st3 f with
        | true =>
          rw [stepEq_pc_end cfg streams st st3 p f hp he hl]
          refine ⟨?_, fun st2 h => by simp at h, fun out st2 h => ?_⟩
          · simp only [List.all_append, hev, Bool.true_and]
            exact postLoopEvents_statusElig elig
          · simp only [StepOut.halt.injEq] at h
            exact h.2 ▸ hinv3
        | false =>
          rw [stepEq_pc_cont cfg streams st st3 p f hp he hl]
          refine ⟨hev, fun st2 h => ?_, fun out st2 h => by simp at h⟩
          simp only [StepOut.cont.injEq] at h
          exact h ▸ hinv3
  | record s d =>
    rcases hp : (handleRecord streams st s d).2 with k | st3
    · have hev : ((handleRecord streams st s d).1.all (statusElig elig)) = true := by
        rcases hf : findStream streams s with - | stream
        · have hke : handleRecord streams st s d = ([], .error .keyError) := by
            simp [handleRecord, hf]
          rw [hke]; simp
        · rcases hc : alistLookup st.recordCounter stream.name with - | c
          · have hke : handleRecord streams st s d = ([], .error .keyError) := by
              simp [handleRecord, hf, hc]
            rw [hke]; simp
          · have hok : (handleRecord streams st s d).2 = .ok
                { st with
                  recordCounter := alistInsert st.recordCounter stream.name (c + 1)
                  repository := [] } := by
              simp [handleRecord, hf, hc]
            rw [hok] at hp
            simp at hp
      rw [stepEq_rec_err cfg streams st s d f k hp]
      refine ⟨hev, fun st2 h => by simp at h, fun out st2 h => ?_⟩
      simp only [StepOut.halt.injEq] at h
      exact h.2 ▸ hinv
    · obtain ⟨hinv3, hev⟩ := handleRecord_namesInv streams elig st st3 s d hinv hp
      cases hl : loopEndCheck st3 f with
      | true =>
        rw [stepEq_rec_end cfg streams st st3 s d f hp hl]
        refine ⟨?_, fun st2 h => by simp at h, fun out st2 h => ?_⟩
        · simp only [List.all_append, hev, Bool.true_and]
          exact postLoopEvents_statusElig elig
        · simp only [StepOut.halt.injEq] at h
          exact h.2 ▸ hinv3
      | false =>
        rw [stepEq_rec_cont cfg streams st st3 s d f hp hl]
        refine ⟨hev, fun st2 h => ?_, fun out st2 h => by simp at h⟩
        simp only [StepOut.cont.injEq] at h
        exact h ▸ hinv3

theorem driverLoop_statusElig (cfg : SourceConfig) (streams : List AbstractStream)
    (elig : List String) :
    ∀ (inputs : List (QueueItem × Bool)) (st : DriverState), NamesInv elig st →
      ((driverLoop cfg streams st inputs).1.all (statusElig elig)) = true := by
  intro inputs
  induction inputs with
  | nil => intro st _; simp [driverLoop_nil]
  | cons itf rest ih =>
    intro st hinv
    obtain ⟨item, f⟩ := itf
    obtain ⟨hev, hcont, hhalt⟩ := driverStep_namesInv cfg streams elig st item f hinv
    rcases hs : (driverStep cfg streams st item f).2 with st2 | ⟨out, st2⟩
    · rw [driverLoop_cons_cont cfg streams st st2 item f rest hs]
      simp only [List.all_append]
      exact Bool.and_eq_true_iff.mpr ⟨hev, ih st2 (hcont st2 hs)⟩
    · rw [driverLoop_cons_halt cfg streams st st2 item f out rest hs]
      exact hev

theorem startupGo_namesInv (elig : List String) :
    ∀ (k : Nat) (st : DriverState), NamesInv elig st →
      ((startupGo st k).1.all (statusElig elig)) = true ∧
      (∀ st', (startupGo st k).2 = .ok st' → NamesInv elig st') := by
  intro k
  induction k with
  | zero =>
    intro st hinv
    refine ⟨by simp [startupGo], fun st' h => ?_⟩
    simp only [startupGo] at h
    injection h with h
    exact h ▸ hinv
  | succ k ih =>
    intro st hinv
    obtain ⟨hpend, hip, hdone, hctr⟩ := hinv
    unfold startupGo
    rcases hp : st.partitionGenerators with - | ⟨g, rest⟩
    · exact ⟨by simp, fun st' h => by simp at h⟩
    · have hg : g ∈ elig := hpend g (by rw [hp]; exact List.mem_cons_self _ _)
      have hinv' : NamesInv elig
          { st with
            partitionGenerators := rest
            streamsInProgress := setAdd st.streamsInProgress g
            partitionGeneratorRunning := st.partitionGeneratorRunning ++ [g] } := by
        refine ⟨?_, ?_, hdone, hctr⟩
        · intro t ht
          exact hpend t (by rw [hp]; exact List.mem_cons_of_mem _ ht)
        · intro t ht
          rcases mem_setAdd ht with ht' | rfl
          · exact hip t ht'
          · exact hg
      obtain ⟨hev, hok⟩ := ih _ hinv'
      refine ⟨?_, fun st' h => hok st' h⟩
      simp only [List.all_cons, hev, Bool.and_true]
      simp [statusElig, hg]

theorem alistLookup_initMap_isSome (eligible : List AbstractStream) {β : Type}
    (f : AbstractStream → β) (s : String)
    (h : (alistLookup (eligible.map fun t => (t.name, f t)) s).isSome = true) :
    s ∈ eligible.map (fun t => t.name) := by
  induction eligible with
  | nil => simp [alistLookup] at h
  | cons t rest ih =>
    simp only [List.map_cons, alistLookup] at h
    by_cases ht : t.name = s
    · simp [ht]
    · rw [if_neg ht] at h
      simp only [List.map_cons, List.mem_cons]
      exact Or.inr (ih h)

theorem initState_namesInv (eligible : List AbstractStream) :
    NamesInv (eligible.map fun t => t.name) (initState eligible) := by
  refine ⟨?_, ?_, ?_, ?_⟩
  · intro s hs; exact hs
  · intro s hs; simp [initState] at hs
  · intro s hs
    exact alistLookup_initMap_isSome eligible (fun _ => ([] : List (Partition × Bool))) s hs
  · intro s hs
    exact alistLookup_initMap_isSome eligible (fun _ => (0 : Nat)) s hs

theorem selectStreams_statusElig (cfg : SourceConfig) (streams : List AbstractStream)
    (elig : List String) :
    ∀ catalog : List String,
      ((selectStreams cfg streams catalog).1.all (statusElig elig)) = true := by
  intro catalog
  induction catalog with
  | nil => simp [selectStreams]
  | cons n rest ih =>
    unfold selectStreams
    split
    · split
      · simp
      · exact ih
    · split
      · exact ih
      · simpa [statusElig] using ih

/-- Erasing an unavailable configured stream from the catalog does not
change the selection outcome (the resolved eligible list or the error). -/
theorem selectStreams_unavailable_snd (cfg : SourceConfig) (streams : List AbstractStream)
    (name : String) (s : AbstractStream) (hf : findStream streams name = some s)
    (hna : s.available = false) :
    ∀ c1 c2 : List String,
      (selectStreams cfg streams (c1 ++ name :: c2)).2 =
        (selectStreams cfg streams (c1 ++ c2)).2 := by
  intro c1
  induction c1 with
  | nil =>
    intro c2
    simp [selectStreams, hf, hna]
  | cons n rest ih =>
    intro c2
    simp only [List.cons_append, selectStreams]
    rcases hfn : findStream streams n with - | t
    · by_cases hr : cfg.raiseExceptionOnMissingStream
      · simp [hr]
      · simp [hr, ih c2]
    · by_cases ht : t.available = true
      · simp [ht, ih c2]
      · simp [ht, ih c2]

theorem selectStreams_ok_skip_logged (cfg : SourceConfig) (streams : List AbstractStream)
    (name : String) (s : AbstractStream) (hf : findStream streams name = some s)
    (hna : s.available = false) :
    ∀ (c1 c2 : List String) (r : List AbstractStream),
      (selectStreams cfg streams (c1 ++ name :: c2)).2 = .ok r →
      Event.logSkippedStream s.name ∈ (selectStreams cfg streams (c1 ++ name :: c2)).1 := by
  intro c1
  induction c1 with
  | nil =>
    intro c2 r _
    simp [selectStreams, hf, hna]
  | cons n rest ih =>
    intro c2 r hok
    rw [List.cons_append] at hok ⊢
    rcases hfn : findStream streams n with - | t
    · by_cases hr : cfg.raiseExceptionOnMissingStream = true
      · have heq : selectStreams cfg streams (n :: (rest ++ name :: c2)) =
            ([], .error .keyError) := by
          simp [selectStreams, hfn, hr]
        rw [heq] at hok
        simp at hok
      · have heq : selectStreams cfg streams (n :: (rest ++ name :: c2)) =
            selectStreams cfg streams (rest ++ name :: c2) := by
          simp [selectStreams, hfn, hr]
        rw [heq] at hok ⊢
        exact ih c2 r hok
    · by_cases ht : t.available = true
      · have heq : selectStreams cfg streams (n :: (rest ++ name :: c2)) =
            ((selectStreams cfg streams (rest ++ name :: c2)).1,
              Except.map (fun es => t :: es)
                (selectStreams cfg streams (rest ++ name :: c2)).2) := by
          simp [selectStreams, hfn, ht]
        rw [heq] at hok ⊢
        rcases hr2 : (selectStreams cfg streams (rest ++ name :: c2)).2 with k | r'
        · rw [hr2] at hok
          simp [Except.map] at hok
        · exact ih c2 r' hr2
      · have heq : selectStreams cfg streams (n :: (rest ++ name :: c2)) =
            (Event.logSkippedStream t.name ::
                (selectStreams cfg streams (rest ++ name :: c2)).1,
              (selectStreams cfg streams (rest ++ name :: c2)).2) := by
          simp [selectStreams, hfn, ht]
        rw [heq] at hok ⊢
        exact List.mem_cons_of_mem _ (ih c2 r hok)

theorem selectStreams_ok_mem (cfg : SourceConfig) (streams : List AbstractStream) :
    ∀ (catalog : List String) (r : List AbstractStream),
      (selectStreams cfg streams catalog).2 = .ok r →
      ∀ t ∈ r, findStream streams t.name = some t ∧ t.available = true := by
  intro catalog
  induction catalog with
  | nil =>
    intro r h
    simp only [selectStreams] at h
    injection h with h
    subst h
    intro t ht
    simp at ht
  | cons n rest ih =>
    intro r h
    rcases hfn : findStream streams n with - | u
    · by_cases hr : cfg.raiseExceptionOnMissingStream = true
      · have heq : selectStreams cfg streams (n :: rest) = ([], .error .keyError) := by
          simp [selectStreams, hfn, hr]
        rw [heq] at h
        simp at h
      · have heq : selectStreams cfg streams (n :: rest) =
            selectStreams cfg streams rest := by
          simp [selectStreams, hfn, hr]
        rw [heq] at h
        exact ih r h
    · by_cases hu : u.available = true
      · have heq : selectStreams cfg streams (n :: rest) =
            ((selectStreams cfg streams rest).1,
              Except.map (fun es => u :: es) (selectStreams cfg streams rest).2) := by
          simp [selectStreams, hfn, hu]
        rw [heq] at h
        rcases hr2 : (selectStreams cfg streams rest).2 with k | r'
        · rw [hr2] at h
          simp [Except.map] at h
        · rw [hr2] at h
          simp only [Except.map, Except.ok.injEq] at h
          subst h
          intro t ht
          rcases List.mem_cons.mp ht with rfl | ht'
          · have hname := findStream_name streams n t hfn
            exact ⟨hname ▸ hfn, hu⟩
          · exact ih r' hr2 t ht'
      · have heq : selectStreams cfg streams (n :: rest) =
            (Event.logSkippedStream u.name :: (selectStreams cfg streams rest).1,
              (selectStreams cfg streams rest).2) := by
          simp [selectStreams, hfn, hu]
        rw [heq] at h
        exact ih r h

theorem read_statusElig (cfg : SourceConfig) (streams : List AbstractStream)
    (catalog : List String) (inputs : List (QueueItem × Bool))
    (eligible : List AbstractStream)
    (hsel : (selectStreams cfg streams catalog).2 = .ok eligible) :
    ((read cfg streams catalog inputs).1.all
      (statusElig (eligible.map fun t => t.name))) = true := by
  have hinit := initState_namesInv eligible
  obtain ⟨hstev, hstok⟩ := startupGo_namesInv (eligible.map fun t => t.name)
    (maxNumberOfPartitionGeneratorInProgress cfg -
      (initState eligible).partitionGeneratorRunning.length) (initState eligible) hinit
  rcases hst : (startup (maxNumberOfPartitionGeneratorInProgress cfg)
      (initState eligible)).2 with k | st1
  · rw [readEq_startup_err cfg streams catalog inputs eligible k hsel hst]
    simp only [List.all_append]
    exact Bool.and_eq_true_iff.mpr
      ⟨selectStreams_statusElig cfg streams _ catalog, hstev⟩
  · rw [readEq_ok cfg streams catalog inputs eligible st1 hsel hst]
    simp only [List.all_append]
    refine Bool.and_eq_true_iff.mpr ⟨Bool.and_eq_true_iff.mpr
      ⟨selectStreams_statusElig cfg streams _ catalog, hstev⟩, ?_⟩
    exact driverLoop_statusElig cfg streams _ inputs st1 (hstok st1 hst)

/-- Claim C7: a configured stream whose availability check reports
unavailable is skipped entirely.  The run's outcome and final state are the
same as if the stream had not been in the catalog at all (so the run is not
aborted and the remaining streams are synced normally); no status message
whatsoever is ever emitted for that stream; when stream selection succeeds,
the skip is logged and no generation task is submitted for the stream (its
name is not among the eligible generators). -/
theorem c7_unavailable_stream_skipped (cfg : SourceConfig)
    (streams : List AbstractStream) (name : String) (s : AbstractStream)
    (c1 c2 : List String) (inputs : List (QueueItem × Bool))
    (hf : findStream streams name = some s) (hna : s.available = false) :
    (read cfg streams (c1 ++ name :: c2) inputs).2 =
      (read cfg streams (c1 ++ c2) inputs).2 ∧
    (∀ (ns : Option String) (stt : StreamStatus),
      Event.statusMessage name ns stt ∉ (read cfg streams (c1 ++ name :: c2) inputs).1) ∧
    (∀ eligible : List AbstractStream,
      (selectStreams cfg streams (c1 ++ name :: c2)).2 = .ok eligible →
      Event.logSkippedStream name ∈ (read cfg streams (c1 ++ name :: c2) inputs).1 ∧
      name ∉ eligible.map (fun t => t.name)) := by
  have hsnd := selectStreams_unavailable_snd cfg streams name s hf hna c1 c2
  have hname := findStream_name streams name s hf
  have hnotin : ∀ eligible : List AbstractStream,
      (selectStreams cfg streams (c1 ++ name :: c2)).2 = .ok eligible →
      name ∉ eligible.map (fun t => t.name) := by
    intro eligible hok hmem
    rw [List.mem_map] at hmem
    obtain ⟨t, ht, hteq⟩ := hmem
    obtain ⟨htf, hta⟩ := selectStreams_ok_mem cfg streams _ eligible hok t ht
    rw [hteq, hf] at htf
    injection htf with htf
    rw [htf] at hna
    rw [hta] at hna
    exact Bool.noConfusion hna
  refine ⟨?_, ?_, ?_⟩
  · rcases hsel : (selectStreams cfg streams (c1 ++ name :: c2)).2 with k | eligible
    · have hsel' : (selectStreams cfg streams (c1 ++ c2)).2 = .error k := by
        rw [← hsnd]; exact hsel
      rw [readEq_sel_err cfg streams _ inputs k hsel,
        readEq_sel_err cfg streams _ inputs k hsel']
    · have hsel' : (selectStreams cfg streams (c1 ++ c2)).2 = .ok eligible := by
        rw [← hsnd]; exact hsel
      rcases hst : (startup (maxNumberOfPartitionGeneratorInProgress cfg)
          (initState eligible)).2 with k | st1
      · rw [readEq_startup_err cfg streams _ inputs eligible k hsel hst,
          readEq_startup_err cfg streams _ inputs eligible k hsel' hst]
      · rw [readEq_ok cfg streams _ inputs eligible st1 hsel hst,
          readEq_ok cfg streams _ inputs eligible st1 hsel' hst]
  · intro ns stt hmem
    rcases hsel : (selectStreams cfg streams (c1 ++ name :: c2)).2 with k | eligible
    · rw [readEq_sel_err cfg streams _ inputs k hsel] at hmem
      have hall := selectStreams_statusElig cfg streams [] (c1 ++ name :: c2)
      rw [List.all_eq_true] at hall
      have := hall _ hmem
      simp [statusElig] at this
    · have hall := read_statusElig cfg streams _ inputs eligible hsel
      rw [List.all_eq_true] at hall
      have := hall _ hmem
      simp only [statusElig, decide_eq_true_eq] at this
      exact hnotin eligible hsel this
  · intro eligible hok
    have hlog := selectStreams_ok_skip_logged cfg streams name s hf hna c1 c2 eligible hok
    rw [hname] at hlog
    refine ⟨?_, hnotin eligible hok⟩
    rcases hst : (startup (maxNumberOfPartitionGeneratorInProgress cfg)
        (initState eligible)).2 with k | st1
    · rw [readEq_startup_err cfg streams _ inputs eligible k hok hst]
      exact List.mem_append.mpr (Or.inl hlog)
    · rw [readEq_ok cfg streams _ inputs eligible st1 hok hst]
      exact List.mem_append.mpr (Or.inl (List.mem_append.mpr (Or.inl hlog)))

/-- Witness for C7 at a concrete two-stream catalog whose first stream is
unavailable. -/
theorem c7_unavailable_stream_skipped_witness :
    (read ⟨10, 300, true, false⟩ [⟨"bad", some "x", false⟩, ⟨"s1", some "nsA", true⟩]
        ([] ++ "bad" :: ["s1"]) [(QueueItem.generationCompleted "s1", true)]).2 =
      (read ⟨10, 300, true, false⟩ [⟨"bad", some "x", false⟩, ⟨"s1", some "nsA", true⟩]
        ([] ++ ["s1"]) [(QueueItem.generationCompleted "s1", true)]).2 ∧
    (∀ (ns : Option String) (stt : StreamStatus),
      Event.statusMessage "bad" ns stt ∉
        (read ⟨10, 300, true, false⟩ [⟨"bad", some "x", false⟩, ⟨"s1", some "nsA", true⟩]
          ([] ++ "bad" :: ["s1"]) [(QueueItem.generationCompleted "s1", true)]).1) ∧
    (∀ eligible : List AbstractStream,
      (selectStreams ⟨10, 300, true, false⟩
          [⟨"bad", some "x", false⟩, ⟨"s1", some "nsA", true⟩]
          ([] ++ "bad" :: ["s1"])).2 = .ok eligible →
      Event.logSkippedStream "bad" ∈
        (read ⟨10, 300, true, false⟩ [⟨"bad", some "x", false⟩, ⟨"s1", some "nsA", true⟩]
          ([] ++ "bad" :: ["s1"]) [(QueueItem.generationCompleted "s1", true)]).1 ∧
      "bad" ∉ eligible.map (fun t => t.name)) :=
  c7_unavailable_stream_skipped ⟨10, 300, true, false⟩
    [⟨"bad", some "x", false⟩, ⟨"s1", some "nsA", true⟩] "bad" ⟨"bad", some "x", false⟩
    [] ["s1"] [(QueueItem.generationCompleted "s1", true)] (by rfl) (by rfl)

/-! ## Record counting (C6) -/

/-- The stream's record counter value (0 when the stream has no counter). -/
def counterVal (st : DriverState) (s : String) : Nat :=
  (alistLookup st.recordCounter s).getD 0

/-- A stream whose discovery and reading are entirely over: its generator
is neither pending nor running and every registered partition is done.  In
a feasible trace no further record of the stream can be popped. -/
def StreamClosed (st : DriverState) (s : String) : Prop :=
  s ∉ st.partitionGeneratorRunning ∧ s ∉ st.partitionGenerators ∧
    innerAllDone st s = true

/-- Bookkeeping discipline of the pending-generator list: no duplicates,
and pending streams are not in progress yet. -/
def DInv (st : DriverState) : Prop :=
  st.partitionGenerators.Nodup ∧
    ∀ t ∈ st.partitionGenerators, t ∉ st.streamsInProgress

/-- Events that are not record messages. -/
def notRecordMsg : Event → Bool
  | .recordMessage _ _ => false
  | _ => true

theorem recordMsgCount_eq_zero (l : List Event) (s : String)
    (h : (l.all notRecordMsg) = true) : recordMsgCount l s = 0 := by
  induction l with
  | nil => rfl
  | cons e rest ih =>
    rw [List.all_cons] at h
    obtain ⟨he, hrest⟩ := Bool.and_eq_true_iff.mp h
    cases e <;> simp [recordMsgCount, List.filter] at *
    all_goals first
      | exact ih hrest
      | (rw [notRecordMsg] at he; exact absurd he (by simp))

theorem recordMsgCount_append (l1 l2 : List Event) (s : String) :
    recordMsgCount (l1 ++ l2) s = recordMsgCount l1 s + recordMsgCount l2 s := by
  simp [recordMsgCount, List.filter_append]

theorem recordMsgCount_cons_record (s : String) (d : Nat) (l : List Event) :
    recordMsgCount (Event.recordMessage s d :: l) s = recordMsgCount l s + 1 := by
  simp [recordMsgCount, List.filter]

theorem recordMsgCount_cons_record_ne (s t : String) (d : Nat) (l : List Event)
    (h : t ≠ s) : recordMsgCount (Event.recordMessage t d :: l) s =
      recordMsgCount l s := by
  simp [recordMsgCount, List.filter, h]

theorem recordMsgCount_cons_other (e : Event) (s : String) (l : List Event)
    (h : notRecordMsg e = true) :
    recordMsgCount (e :: l) s = recordMsgCount l s := by
  cases e <;> simp [recordMsgCount, List.filter] at *
  exact absurd h (by rw [notRecordMsg]; simp)

theorem innerAllDone_not_undone (st : DriverState) (s : String)
    (h : innerAllDone st s = true) : innerHasUndone st s = false := by
  unfold innerAllDone at h
  unfold innerHasUndone
  rcases hl : alistLookup st.streamsToPartitionsToDone s with - | inner
  · rfl
  · rw [hl] at h
    rw [List.all_eq_true] at h
    rw [List.any_eq_false]
    intro q hq
    simp [h q hq]

/-- Events that are not record-count log lines. -/
def notLogCount : Event → Bool
  | .logReadCount _ _ => false
  | _ => true

theorem stopStreamsGo_notRecord (streams : List AbstractStream) :
    ∀ l : List String, ((stopStreamsGo streams l).1.all notRecordMsg) = true := by
  intro l
  induction l with
  | nil => simp [stopStreamsGo]
  | cons t rest ih =>
    unfold stopStreamsGo
    split
    · simp
    · simpa [notRecordMsg] using ih

theorem stopStreamsGo_notLogCount (streams : List AbstractStream) :
    ∀ l : List String, ((stopStreamsGo streams l).1.all notLogCount) = true := by
  intro l
  induction l with
  | nil => simp [stopStreamsGo]
  | cons t rest ih =>
    unfold stopStreamsGo
    split
    · simp
    · simpa [notLogCount] using ih

theorem handlePartitionCompleted_notRecord (streams : List AbstractStream)
    (st : DriverState) (p : Partition) :
    ((handlePartitionCompleted streams st p).1.all notRecordMsg) = true := by
  rcases hl : alistLookup st.streamsToPartitionsToDone p.stream_name with - | inner
  · have : handlePartitionCompleted streams st p = ([], .error .keyError) := by
      unfold handlePartitionCompleted
      rw [hl]
    rw [this]; simp
  · rw [handlePartitionCompleted_eq_aux streams st p inner hl]
    unfold handlePartitionCompletedAux
    repeat' split
    all_goals simp [notRecordMsg]

theorem handleRecord_notLogCount (streams : List AbstractStream) (st : DriverState)
    (s : String) (d : Nat) :
    ((handleRecord streams st s d).1.all notLogCount) = true := by
  rcases hf : findStream streams s with - | stream
  · have hke : handleRecord streams st s d = ([], .error .keyError) := by
      simp [handleRecord, hf]
    rw [hke]; simp
  · rcases hc : alistLookup st.recordCounter stream.name with - | c
    · have hke : handleRecord streams st s d = ([], .error .keyError) := by
        simp [handleRecord, hf, hc]
      rw [hke]; simp
    · have hpair : handleRecord streams st s d =
          ((if c = 0 then [Event.statusMessage stream.name stream.ns .running] else []) ++
              Event.recordMessage s d :: Event.cursorObserve s d ::
                st.repository.map Event.repoMessage,
            .ok { st with
              recordCounter := alistInsert st.recordCounter stream.name (c + 1)
              repository := [] }) := by
        simp [handleRecord, hf, hc]
      rw [hpair]
      simp only [List.all_append]
      refine Bool.and_eq_true_iff.mpr ⟨?_, ?_⟩
      · by_cases hc0 : c = 0 <;> simp [hc0, notLogCount]
      · simp [notLogCount, List.all_eq_true, List.mem_map]

theorem postLoopEvents_notRecord : (postLoopEvents.all notRecordMsg) = true := by decide

theorem postLoopEvents_notLogCount : (postLoopEvents.all notLogCount) = true := by decide

theorem notLogCount_all_no_mem (l : List Event) (s : String) (n : Nat)
    (h : (l.all notLogCount) = true) : Event.logReadCount s n ∉ l := by
  intro hmem
  rw [List.all_eq_true] at h
  have := h _ hmem
  simp [notLogCount] at this

/-- The record counter of the state a driver step leaves behind grows by
exactly the number of record messages the step emitted. -/
theorem driverStep_counter_delta (cfg : SourceConfig) (streams : List AbstractStream)
    (st : DriverState) (item : QueueItem) (f : Bool) (s : String) (st2 : DriverState)
    (h : (driverStep cfg streams st item f).2 = .cont st2 ∨
      ∃ out, (driverStep cfg streams st item f).2 = .halt out st2) :
    counterVal st2 s =
      counterVal st s + recordMsgCount ((driverStep cfg streams st item f).1) s := by
  cases item with
  | exception e =>
    have hz : recordMsgCount ((driverStep cfg streams st (.exception e) f).1) s = 0 := by
      rcases hs : (stopStreams streams st.streamsInProgress).2 with k | u
      · rw [stepEq_exception_err cfg streams st e f k hs]
        refine recordMsgCount_eq_zero _ _ ?_
        simpa [stopStreams, notRecordMsg] using stopStreamsGo_notRecord streams _
      · rw [stepEq_exception_ok cfg streams st e f u hs]
        refine recordMsgCount_eq_zero _ _ ?_
        simpa [stopStreams, notRecordMsg] using stopStreamsGo_notRecord streams _
    rw [hz]
    rcases hs : (stopStreams streams st.streamsInProgress).2 with k | u
    · rcases h with h | ⟨out, h⟩ <;>
        rw [stepEq_exception_err cfg streams st e f k hs] at h <;>
        simp only [StepOut.halt.injEq] at h
      · exact absurd h (by simp)
      · rw [h.2]; omega
    · rcases h with h | ⟨out, h⟩ <;>
        rw [stepEq_exception_ok cfg streams st e f u hs] at h <;>
        simp only [StepOut.halt.injEq] at h
      · exact absurd h (by simp)
      · rw [h.2]; omega
  | generationCompleted name =>
    rcases hg : handlePartitionGenerationCompleted st name with k | ⟨st3, ev?⟩
    · rw [stepEq_gen_err cfg streams st name f k hg] at h ⊢
      rcases h with h | ⟨out, h⟩ <;> simp only [StepOut.halt.injEq] at h
      · exact absurd h (by simp)
      · obtain ⟨-, rfl⟩ := h
        simp [recordMsgCount]
    · have hctr : st3.recordCounter = st.recordCounter := by
        obtain ⟨-, hcase⟩ := handlePGC_ok_cases st st3 name ev? hg
        rcases hcase with ⟨-, -, rfl⟩ | ⟨g, rest, -, -, rfl⟩ <;> rfl
      have hev : recordMsgCount ev?.toList s = 0 := by
        refine recordMsgCount_eq_zero _ _ ?_
        cases ev? with
        | none => simp
        | some ev =>
          obtain ⟨g, rfl⟩ := handlePartitionGenerationCompleted_event_started st name st3 ev hg
          simp [notRecordMsg]
      cases hl : loopEndCheck st3 f with
      | true =>
        rw [stepEq_gen_end cfg streams st st3 name f ev? hg hl] at h ⊢
        rcases h with h | ⟨out, h⟩ <;> simp only [StepOut.halt.injEq] at h
        · exact absurd h (by simp)
        · rw [← h.2]
          rw [recordMsgCount_append, hev,
            recordMsgCount_eq_zero _ _ postLoopEvents_notRecord]
          simp [counterVal, hctr]
      | false =>
        rw [stepEq_gen_cont cfg streams st st3 name f ev? hg hl] at h ⊢
        rcases h with h | ⟨out, h⟩ <;> simp only [StepOut.cont.injEq] at h
        · rw [← h, hev]
          simp [counterVal, hctr]
        · exact absurd h (by simp)
  | partitionItem p =>
    rcases hp : handlePartition cfg st p with k | st3
    · rw [stepEq_part_err cfg streams st p f k hp] at h ⊢
      rcases h with h | ⟨out, h⟩ <;> simp only [StepOut.halt.injEq] at h
      · exact absurd h (by simp)
      · obtain ⟨-, rfl⟩ := h
        simp [recordMsgCount]
    · have hctr : st3.recordCounter = st.recordCounter := by
        obtain ⟨inner, -, rfl⟩ := handlePartition_ok_cases cfg st st3 p hp
        rfl
      cases hl : loopEndCheck st3 f with
      | true =>
        rw [stepEq_part_end cfg streams st st3 p f hp hl] at h ⊢
        rcases h with h | ⟨out, h⟩ <;> simp only [StepOut.halt.injEq] at h
        · exact absurd h (by simp)
        · rw [← h.2, recordMsgCount_eq_zero _ _ postLoopEvents_notRecord]
          simp [counterVal, hctr]
      | false =>
        rw [stepEq_part_cont cfg streams st st3 p f hp hl] at h ⊢
        rcases h with h | ⟨out, h⟩ <;> simp only [StepOut.cont.injEq] at h
        · rw [← h]
          simp [counterVal, hctr, recordMsgCount]
        · exact absurd h (by simp)
  | partitionCompleted p =>
    have hzero : recordMsgCount ((handlePartitionCompleted streams st p).1) s = 0 :=
      recordMsgCount_eq_zero _ _ (handlePartitionCompleted_notRecord streams st p)
    rcases hp : (handlePartitionCompleted streams st p).2 with k | st3
    · rw [stepEq_pc_err cfg streams st p f k hp] at h ⊢
      rcases h with h | ⟨out, h⟩ <;> simp only [StepOut.halt.injEq] at h
      · exact absurd h (by simp)
      · obtain ⟨-, rfl⟩ := h
        rw [hzero]
        omega
    · have hctr : st3.recordCounter = st.recordCounter := by
        obtain ⟨inner, -, hcase⟩ := handlePartitionCompleted_ok_cases streams st st3 p hp
        rcases hcase with ⟨-, rfl, -⟩ | ⟨-, -, c, stream, -, -, rfl, -⟩ <;> rfl
      cases he : st3.streamsInProgress.isEmpty with
      | true =>
        rw [stepEq_pc_done cfg streams st st3 p f hp he] at h ⊢
        rcases h with h | ⟨out, h⟩ <;> simp only [StepOut.halt.injEq] at h
        · exact absurd h (by simp)
        · rw [← h.2, recordMsgCount_append, hzero,
            recordMsgCount_eq_zero _ _ postLoopEvents_notRecord]
          simp [counterVal, hctr]
      | false =>
        cases hl : loopEndCheck st3 f with
        | true =>
          rw [stepEq_pc_end cfg streams st st3 p f hp he hl] at h ⊢
          rcases h with h | ⟨out, h⟩ <;> simp only [StepOut.halt.injEq] at h
          · exact absurd h (by simp)
          · rw [← h.2, recordMsgCount_append, hzero,
              recordMsgCount_eq_zero _ _ postLoopEvents_notRecord]
            simp [counterVal, hctr]
        | false =>
          rw [stepEq_pc_cont cfg streams st st3 p f hp he hl] at h ⊢
          rcases h with h | ⟨out, h⟩ <;> simp only [StepOut.cont.injEq] at h
          · rw [← h, hzero]
            simp [counterVal, hctr]
          · exact absurd h (by simp)
  | record s' d =>
    rcases hf : findStream streams s' with - | stream
    · have hke : (handleRecord streams st s' d) = ([], .error .keyError) := by
        simp [handleRecord, hf]
      rcases hp : (handleRecord streams st s' d).2 with k | st3
      · rw [stepEq_rec_err cfg streams st s' d f k hp] at h ⊢
        rcases h with h | ⟨out, h⟩ <;> simp only [StepOut.halt.injEq] at h
        · exact absurd h (by simp)
        · obtain ⟨-, rfl⟩ := h
          rw [hke]
          simp [recordMsgCount]
      · rw [hke] at hp
        simp at hp
    · rcases hc : alistLookup st.recordCounter stream.name with - | c
      · have hke : (handleRecord streams st s' d) = ([], .error .keyError) := by
          simp [handleRecord, hf, hc]
        rcases hp : (handleRecord streams st s' d).2 with k | st3
        · rw [stepEq_rec_err cfg streams st s' d f k hp] at h ⊢
          rcases h with h | ⟨out, h⟩ <;> simp only [StepOut.halt.injEq] at h
          · exact absurd h (by simp)
          · obtain ⟨-, rfl⟩ := h
            rw [hke]
            simp [recordMsgCount]
        · rw [hke] at hp
          simp at hp
      · have hname := findStream_name streams s' stream hf
        have hpair : handleRecord streams st s' d =
            ((if c = 0 then [Event.statusMessage stream.name stream.ns .running] else []) ++
                Event.recordMessage s' d :: Event.cursorObserve s' d ::
                  st.repository.map Event.repoMessage,
              .ok { st with
                recordCounter := alistInsert st.recordCounter stream.name (c + 1)
                repository := [] }) := by
          simp [handleRecord, hf, hc]
        have hblock : recordMsgCount ((handleRecord streams st s' d).1) s =
            if s' = s then 1 else 0 := by
          rw [hpair]
          rw [recordMsgCount_append]
          have h1 : recordMsgCount
              (if c = 0 then [Event.statusMessage stream.name stream.ns .running] else [])
              s = 0 := by
            refine recordMsgCount_eq_zero _ _ ?_
            by_cases hc0 : c = 0 <;> simp [hc0, notRecordMsg]
          rw [h1]
          by_cases hss : s' = s
          · subst hss
            rw [recordMsgCount_cons_record]
            have : recordMsgCount (Event.cursorObserve s' d ::
                st.repository.map Event.repoMessage) s' = 0 := by
              refine recordMsgCount_eq_zero _ _ ?_
              simp [notRecordMsg, List.all_eq_true, List.mem_map]
            rw [this]
            simp
          · rw [recordMsgCount_cons_record_ne _ _ _ _ hss]
            have : recordMsgCount (Event.cursorObserve s' d ::
                st.repository.map Event.repoMessage) s = 0 := by
              refine recordMsgCount_eq_zero _ _ ?_
              simp [notRecordMsg, List.all_eq_true, List.mem_map]
            rw [this]
            simp [hss]
        have hctr : counterVal { st with
            recordCounter := alistInsert st.recordCounter stream.name (c + 1)
            repository := ([] : List Nat) } s =
            counterVal st s + (if s' = s then 1 else 0) := by
          by_cases hss : s' = s
          · subst hss
            rw [← hname]
            simp [counterVal, alistLookup_insert_self, hc]
          · have hne : stream.name ≠ s := by rw [hname]; exact hss
            simp [counterVal, alistLookup_insert_ne _ _ _ _ hne, hss]
        rcases hp : (handleRecord streams st s' d).2 with k | st3
        · rw [hpair] at hp
          simp at hp
        · have hst3 : st3 = { st with
              recordCounter := alistInsert st.recordCounter stream.name (c + 1)
              repository := [] } := by
            rw [hpair] at hp
            simpa using hp.symm
          cases hl : loopEndCheck st3 f with
          | true =>
            rw [stepEq_rec_end cfg streams st st3 s' d f hp hl] at h ⊢
            rcases h with h | ⟨out, h⟩ <;> simp only [StepOut.halt.injEq] at h
            · exact absurd h (by simp)
            · rw [← h.2, hst3, recordMsgCount_append, hblock,
                recordMsgCount_eq_zero _ _ postLoopEvents_notRecord, hctr]
              omega
          | false =>
            rw [stepEq_rec_cont cfg streams st st3 s' d f hp hl] at h ⊢
            rcases h with h | ⟨out, h⟩ <;> simp only [StepOut.cont.injEq] at h
            · rw [← h, hst3, hblock, hctr]
            · exact absurd h (by simp)

/-- Every state a driver step can leave behind is either the unchanged
pre-step state (error paths) or the successful result of the handler of the
popped item. -/
theorem driverStep_state_cases (cfg : SourceConfig) (streams : List AbstractStream)
    (st : DriverState) (item : QueueItem) (f : Bool) (st2 : DriverState)
    (h : (driverStep cfg streams st item f).2 = .cont st2 ∨
      ∃ out, (driverStep cfg streams st item f).2 = .halt out st2) :
    st2 = st ∨
    (∃ name ev?, item = .generationCompleted name ∧
      handlePartitionGenerationCompleted st name = .ok (st2, ev?)) ∨
    (∃ p, item = .partitionItem p ∧ handlePartition cfg st p = .ok st2) ∨
    (∃ p, item = .partitionCompleted p ∧
      (handlePartitionCompleted streams st p).2 = .ok st2) ∨
    (∃ s' d, item = .record s' d ∧ (handleRecord streams st s' d).2 = .ok st2) := by
  cases item with
  | exception e =>
    rcases hs : (stopStreams streams st.streamsInProgress).2 with k | u
    · rcases h with h | ⟨out, h⟩ <;>
        rw [stepEq_exception_err cfg streams st e f k hs] at h <;>
        simp only [StepOut.halt.injEq] at h
      · exact absurd h (by simp)
      · exact Or.inl h.2.symm
    · rcases h with h | ⟨out, h⟩ <;>
        rw [stepEq_exception_ok cfg streams st e f u hs] at h <;>
        simp only [StepOut.halt.injEq] at h
      · exact absurd h (by simp)
      · exact Or.inl h.2.symm
  | generationCompleted name =>
    rcases hg : handlePartitionGenerationCompleted st name with k | ⟨st3, ev?⟩
    · rcases h with h | ⟨out, h⟩ <;>
        rw [stepEq_gen_err cfg streams st name f k hg] at h <;>
        simp only [StepOut.halt.injEq] at h
      · exact absurd h (by simp)
      · exact Or.inl h.2.symm
    · cases hl : loopEndCheck st3 f with
      | true =>
        rcases h with h | ⟨out, h⟩ <;>
          rw [stepEq_gen_end cfg streams st st3 name f ev? hg hl] at h <;>
          simp only [StepOut.halt.injEq] at h
        · exact absurd h (by simp)
        · exact Or.inr (Or.inl ⟨name, ev?, rfl, h.2 ▸ hg⟩)
      | false =>
        rcases h with h | ⟨out, h⟩ <;>
          rw [stepEq_gen_cont cfg streams st st3 name f ev? hg hl] at h <;>
          simp only [StepOut.cont.injEq] at h
        · exact Or.inr (Or.inl ⟨name, ev?, rfl, h ▸ hg⟩)
        · exact absurd h (by simp)
  | partitionItem p =>
    rcases hp : handlePartition cfg st p with k | st3
    · rcases h with h | ⟨out, h⟩ <;>
        rw [stepEq_part_err cfg streams st p f k hp] at h <;>
        simp only [StepOut.halt.injEq] at h
      · exact absurd h (by simp)
      · exact Or.inl h.2.symm
    · cases hl : loopEndCheck st3 f with
      | true =>
        rcases h with h | ⟨out, h⟩ <;>
          rw [stepEq_part_end cfg streams st st3 p f hp hl] at h <;>
          simp only [StepOut.halt.injEq] at h
        · exact absurd h (by simp)
        · exact Or.inr (Or.inr (Or.inl ⟨p, rfl, h.2 ▸ hp⟩))
      | false =>
        rcases h with h | ⟨out, h⟩ <;>
          rw [stepEq_part_cont cfg streams st st3 p f hp hl] at h <;>
          simp only [StepOut.cont.injEq] at h
        · exact Or.inr (Or.inr (Or.inl ⟨p, rfl, h ▸ hp⟩))
        · exact absurd h (by simp)
  | partitionCompleted p =>
    rcases hp : (handlePartitionCompleted streams st p).2 with k | st3
    · rcases h with h | ⟨out, h⟩ <;>
        rw [stepEq_pc_err cfg streams st p f k hp] at h <;>
        simp only [StepOut.halt.injEq] at h
      · exact absurd h (by simp)
      · exact Or.inl h.2.symm
    · cases he : st3.streamsInProgress.isEmpty with
      | true =>
        rcases h with h | ⟨out, h⟩ <;>
          rw [stepEq_pc_done cfg streams st st3 p f hp he] at h <;>
          simp only [StepOut.halt.injEq] at h
        · exact absurd h (by simp)
        · exact Or.inr (Or.inr (Or.inr (Or.inl ⟨p, rfl, h.2 ▸ hp⟩)))
      | false =>
        cases hl : loopEndCheck st3 f with
        | true =>
          rcases h with h | ⟨out, h⟩ <;>
            rw [stepEq_pc_end cfg streams st st3 p f hp he hl] at h <;>
            simp only [StepOut.halt.injEq] at h
          · exact absurd h (by simp)
          · exact Or.inr (Or.inr (Or.inr (Or.inl ⟨p, rfl, h.2 ▸ hp⟩)))
        | false =>
          rcases h with h | ⟨out, h⟩ <;>
            rw [stepEq_pc_cont cfg streams st st3 p f hp he hl] at h <;>
            simp only [StepOut.cont.injEq] at h
          · exact Or.inr (Or.inr (Or.inr (Or.inl ⟨p, rfl, h ▸ hp⟩)))
          · exact absurd h (by simp)
  | record s' d =>
    rcases hp : (handleRecord streams st s' d).2 with k | st3
    · rcases h with h | ⟨out, h⟩ <;>
        rw [stepEq_rec_err cfg streams st s' d f k hp] at h <;>
        simp only [StepOut.halt.injEq] at h
      · exact absurd h (by simp)
      · exact Or.inl h.2.symm
    · cases hl : loopEndCheck st3 f with
      | true =>
        rcases h with h | ⟨out, h⟩ <;>
          rw [stepEq_rec_end cfg streams st st3 s' d f hp hl] at h <;>
          simp only [StepOut.halt.injEq] at h
        · exact absurd h (by simp)
        · exact Or.inr (Or.inr (Or.inr (Or.inr ⟨s', d, rfl, h.2 ▸ hp⟩)))
      | false =>
        rcases h with h | ⟨out, h⟩ <;>
          rw [stepEq_rec_cont cfg streams st st3 s' d f hp hl] at h <;>
          simp only [StepOut.cont.injEq] at h
        · exact Or.inr (Or.inr (Or.inr (Or.inr ⟨s', d, rfl, h ▸ hp⟩)))
        · exact absurd h (by simp)

theorem driverStep_dinv (cfg : SourceConfig) (streams : List AbstractStream)
    (st : DriverState) (item : QueueItem) (f : Bool) (st2 : DriverState)
    (h : (driverStep cfg streams st item f).2 = .cont st2 ∨
      ∃ out, (driverStep cfg streams st item f).2 = .halt out st2)
    (hd : DInv st) : DInv st2 := by
  obtain ⟨hnd, hdisj⟩ := hd
  rcases driverStep_state_cases cfg streams st item f st2 h with
    rfl | ⟨name, ev?, -, hg⟩ | ⟨p, -, hp⟩ | ⟨p, -, hp⟩ | ⟨s', d, -, hp⟩
  · exact ⟨hnd, hdisj⟩
  · obtain ⟨-, hcase⟩ := handlePGC_ok_cases st st2 name ev? hg
    rcases hcase with ⟨h1, -, rfl⟩ | ⟨g, rest, h1, -, rfl⟩
    · exact ⟨hnd, hdisj⟩
    · rw [h1] at hnd hdisj
      obtain ⟨hg1, hrest⟩ := List.nodup_cons.mp hnd
      refine ⟨hrest, ?_⟩
      intro t ht hmem
      rcases mem_setAdd hmem with hmem' | rfl
      · exact hdisj t (List.mem_cons_of_mem _ ht) hmem'
      · exact hg1 ht
  · obtain ⟨inner, -, rfl⟩ := handlePartition_ok_cases cfg st st2 p hp
    exact ⟨hnd, hdisj⟩
  · obtain ⟨inner, -, hcase⟩ := handlePartitionCompleted_ok_cases streams st st2 p hp
    rcases hcase with ⟨-, rfl, -⟩ | ⟨-, -, c, stream, -, -, rfl, -⟩
    · exact ⟨hnd, hdisj⟩
    · refine ⟨hnd, ?_⟩
      intro t ht hmem
      exact hdisj t ht (removeFirst_subset _ _ _ hmem)
  · obtain ⟨stream, c, -, -, rfl, -⟩ := handleRecord_ok_cases streams st st2 s' d hp
    exact ⟨hnd, hdisj⟩

theorem alistInsert_true_all_done {α : Type} [DecidableEq α] :
    ∀ (l : List (α × Bool)) (k : α), (∀ q ∈ l, q.2 = true) →
      ∀ q ∈ alistInsert l k true, q.2 = true := by
  intro l
  induction l with
  | nil =>
    intro k _ q hq
    simp [alistInsert] at hq
    rw [hq]
  | cons kv rest ih =>
    intro k h q hq
    obtain ⟨k', v'⟩ := kv
    by_cases hk : k' = k
    · rw [alistInsert, if_pos hk] at hq
      rcases List.mem_cons.mp hq with rfl | hq'
      · rfl
      · exact h q (List.mem_cons_of_mem _ hq')
    · rw [alistInsert, if_neg hk] at hq
      rcases List.mem_cons.mp hq with rfl | hq'
      · exact h _ (List.mem_cons_self _ _)
      · exact ih k (fun r hr => h r (List.mem_cons_of_mem _ hr)) q hq'

theorem alistLookup_mem {α β : Type} [DecidableEq α] :
    ∀ (l : List (α × β)) (k : α) (v : β), alistLookup l k = some v → (k, v) ∈ l := by
  intro l
  induction l with
  | nil => intro k v h; simp [alistLookup] at h
  | cons kv rest ih =>
    intro k v h
    obtain ⟨k', v'⟩ := kv
    by_cases hk : k' = k
    · subst hk
      simp [alistLookup] at h
      simp [h]
    · rw [alistLookup, if_neg hk] at h
      exact List.mem_cons_of_mem _ (ih k v h)

theorem driverStep_closed (cfg : SourceConfig) (streams : List AbstractStream)
    (st : DriverState) (item : QueueItem) (f : Bool) (s : String) (st2 : DriverState)
    (hok : itemOk st item = true) (hcl : StreamClosed st s)
    (h : (driverStep cfg streams st item f).2 = .cont st2 ∨
      ∃ out, (driverStep cfg streams st item f).2 = .halt out st2) :
    StreamClosed st2 s ∧ recordMsgCount ((driverStep cfg streams st item f).1) s = 0 := by
  obtain ⟨hrun, hpend, hdone⟩ := hcl
  constructor
  · rcases driverStep_state_cases cfg streams st item f st2 h with
      rfl | ⟨name, ev?, hit, hg⟩ | ⟨p, hit, hp⟩ | ⟨p, hit, hp⟩ | ⟨s', d, hit, hp⟩
    · exact ⟨hrun, hpend, hdone⟩
    · obtain ⟨-, hcase⟩ := handlePGC_ok_cases st st2 name ev? hg
      rcases hcase with ⟨h1, -, rfl⟩ | ⟨g, rest, h1, -, rfl⟩
      · refine ⟨fun hmem => hrun (removeFirst_subset _ _ _ hmem), hpend, hdone⟩
      · have hg1 : g ≠ s := by
          intro hgs
          refine hpend ?_
          rw [h1, ← hgs]
          exact List.mem_cons_self _ _
        refine ⟨?_, ?_, hdone⟩
        · intro hmem
          rcases List.mem_append.mp hmem with hmem' | hmem'
          · exact hrun (removeFirst_subset _ _ _ hmem')
          · exact hg1 (List.mem_singleton.mp hmem').symm
        · intro hmem
          exact hpend (by rw [h1]; exact List.mem_cons_of_mem _ hmem)
    · subst hit
      simp only [itemOk] at hok
      have hne : p.stream_name ≠ s := by
        intro hps
        refine hrun ?_
        rw [← hps]
        exact of_decide_eq_true hok
      obtain ⟨inner, -, rfl⟩ := handlePartition_ok_cases cfg st st2 p hp
      refine ⟨hrun, hpend, ?_⟩
      have hiad : innerAllDone { st with
          streamsToPartitionsToDone :=
            alistInsert st.streamsToPartitionsToDone p.stream_name
              (alistInsert inner p false)
          repository :=
            if cfg.shouldLogSlice then st.repository ++ [p.pid] else st.repository } s =
          innerAllDone st s := by
        simp only [innerAllDone]
        rw [alistLookup_insert_ne _ _ _ _ hne]
      rw [hiad]
      exact hdone
    · obtain ⟨inner, hl, hcase⟩ := handlePartitionCompleted_ok_cases streams st st2 p hp
      have hinner : ∀ st' : DriverState,
          st'.streamsToPartitionsToDone =
            alistInsert st.streamsToPartitionsToDone p.stream_name
              (alistInsert inner p true) →
          innerAllDone st' s = true := by
        intro st' hst'
        by_cases hps : p.stream_name = s
        · subst hps
          have hd := hdone
          simp only [innerAllDone, hl] at hd
          simp only [innerAllDone, hst', alistLookup_insert_self]
          rw [List.all_eq_true] at hd ⊢
          intro q hq
          exact alistInsert_true_all_done inner p
            (fun r hr => by simpa using hd r hr) q hq
        · simp only [innerAllDone, hst', alistLookup_insert_ne _ _ _ _ hps]
          have hd := hdone
          simp only [innerAllDone] at hd
          exact hd
      rcases hcase with ⟨-, rfl, -⟩ | ⟨-, -, c, stream, -, -, rfl, -⟩
      · exact ⟨hrun, hpend, hinner _ rfl⟩
      · exact ⟨hrun, hpend, hinner _ rfl⟩
    · obtain ⟨stream, c, -, -, rfl, -⟩ := handleRecord_ok_cases streams st st2 s' d hp
      exact ⟨hrun, hpend, hdone⟩
  · cases item with
    | exception e =>
      rcases hs : (stopStreams streams st.streamsInProgress).2 with k | u
      · rw [stepEq_exception_err cfg streams st e f k hs]
        refine recordMsgCount_eq_zero _ _ ?_
        simpa [stopStreams, notRecordMsg] using stopStreamsGo_notRecord streams _
      · rw [stepEq_exception_ok cfg streams st e f u hs]
        refine recordMsgCount_eq_zero _ _ ?_
        simpa [stopStreams, notRecordMsg] using stopStreamsGo_notRecord streams _
    | generationCompleted name =>
      have hz : ∀ st3 ev?, handlePartitionGenerationCompleted st name = .ok (st3, ev?) →
          recordMsgCount ev?.toList s = 0 := by
        intro st3 ev? hg
        refine recordMsgCount_eq_zero _ _ ?_
        cases ev? with
        | none => simp
        | some ev =>
          obtain ⟨g, rfl⟩ := handlePartitionGenerationCompleted_event_started st name st3 ev hg
          simp [notRecordMsg]
      rcases hg : handlePartitionGenerationCompleted st name with k | ⟨st3, ev?⟩
      · rw [stepEq_gen_err cfg streams st name f k hg]
        rfl
      · cases hl : loopEndCheck st3 f with
        | true =>
          rw [stepEq_gen_end cfg streams st st3 name f ev? hg hl]
          rw [recordMsgCount_append, hz st3 ev? hg,
            recordMsgCount_eq_zero _ _ postLoopEvents_notRecord]
        | false =>
          rw [stepEq_gen_cont cfg streams st st3 name f ev? hg hl]
          exact hz st3 ev? hg
    | partitionItem p =>
      rcases hp : handlePartition cfg st p with k | st3
      · rw [stepEq_part_err cfg streams st p f k hp]
        rfl
      · cases hl : loopEndCheck st3 f with
        | true =>
          rw [stepEq_part_end cfg streams st st3 p f hp hl]
          exact recordMsgCount_eq_zero _ _ postLoopEvents_notRecord
        | false =>
          rw [stepEq_part_cont cfg streams st st3 p f hp hl]
          rfl
    | partitionCompleted p =>
      have hz := recordMsgCount_eq_zero _ s (handlePartitionCompleted_notRecord streams st p)
      rcases hp : (handlePartitionCompleted streams st p).2 with k | st3
      · rw [stepEq_pc_err cfg streams st p f k hp]
        exact hz
      · cases he : st3.streamsInProgress.isEmpty with
        | true =>
          rw [stepEq_pc_done cfg streams st st3 p f hp he]
          rw [recordMsgCount_append, hz,
            recordMsgCount_eq_zero _ _ postLoopEvents_notRecord]
        | false =>
          cases hl : loopEndCheck st3 f with
          | true =>
            rw [stepEq_pc_end cfg streams st st3 p f hp he hl]
            rw [recordMsgCount_append, hz,
              recordMsgCount_eq_zero _ _ postLoopEvents_notRecord]
          | false =>
            rw [stepEq_pc_cont cfg streams st st3 p f hp he hl]
            exact hz
    | record s' d =>
      simp only [itemOk] at hok
      have hne : s' ≠ s := by
        intro hss
        subst hss
        rw [innerAllDone_not_undone st s' hdone] at hok
        exact Bool.noConfusion hok
      have hz : recordMsgCount ((handleRecord streams st s' d).1) s = 0 := by
        rcases hf : findStream streams s' with - | stream
        · have hke : handleRecord streams st s' d = ([], .error .keyError) := by
            simp [handleRecord, hf]
          rw [hke]
          rfl
        · rcases hc : alistLookup st.recordCounter stream.name with - | c
          · have hke : handleRecord streams st s' d = ([], .error .keyError) := by
              simp [handleRecord, hf, hc]
            rw [hke]
            rfl
          · have hpair : handleRecord streams st s' d =
                ((if c = 0 then [Event.statusMessage stream.name stream.ns .running]
                    else []) ++
                    Event.recordMessage s' d :: Event.cursorObserve s' d ::
                      st.repository.map Event.repoMessage,
                  .ok { st with
                    recordCounter := alistInsert st.recordCounter stream.name (c + 1)
                    repository := [] }) := by
              simp [handleRecord, hf, hc]
            rw [hpair]
            have h1 : recordMsgCount
                (if c = 0 then [Event.statusMessage stream.name stream.ns .running]
                  else []) s = 0 := by
              refine recordMsgCount_eq_zero _ _ ?_
              by_cases hc0 : c = 0 <;> simp [hc0, notRecordMsg]
            have h2 : recordMsgCount (Event.cursorObserve s' d ::
                st.repository.map Event.repoMessage) s = 0 := by
              refine recordMsgCount_eq_zero _ _ ?_
              simp [notRecordMsg, List.all_eq_true, List.mem_map]
            calc recordMsgCount _ s
              = recordMsgCount
                  (if c = 0 then [Event.statusMessage stream.name stream.ns .running]
                    else []) s +
                recordMsgCount (Event.recordMessage s' d ::
                  Event.cursorObserve s' d :: st.repository.map Event.repoMessage) s := by
                  rw [← recordMsgCount_append]
              _ = 0 := by
                  rw [h1, recordMsgCount_cons_record_ne _ _ _ _ hne, h2]
      rcases hp : (handleRecord streams st s' d).2 with k | st3
      · rw [stepEq_rec_err cfg streams st s' d f k hp]
        exact hz
      · cases hl : loopEndCheck st3 f with
        | true =>
          rw [stepEq_rec_end cfg streams st st3 s' d f hp hl]
          rw [recordMsgCount_append, hz,
            recordMsgCount_eq_zero _ _ postLoopEvents_notRecord]
        | false =>
          rw [stepEq_rec_cont cfg streams st st3 s' d f hp hl]
          exact hz

theorem mem_setAdd_of_mem {x y : String} {l : List String} (h : x ∈ l) :
    x ∈ setAdd l y := by
  unfold setAdd
  split
  · exact h
  · exact List.mem_append.mpr (Or.inl h)

theorem isEmpty_false_of_lookup {α β : Type} [DecidableEq α]
    (l : List (α × β)) (k : α) (v : β) (h : alistLookup l k = some v) :
    l.isEmpty = false := by
  cases l with
  | nil => simp [alistLookup] at h
  | cons kv rest => rfl

/-- Invariants threaded through the loop for the end-of-run summary: the
pending-generator discipline, running generators belong to the in-progress
set, and a stream with registered partitions is no longer pending. -/
def GInv (st : DriverState) : Prop :=
  DInv st ∧ (∀ t ∈ st.partitionGeneratorRunning, t ∈ st.streamsInProgress) ∧
    (∀ s, innerNonempty st s = true → s ∉ st.partitionGenerators)

theorem driverStep_ginv (cfg : SourceConfig) (streams : List AbstractStream)
    (st : DriverState) (item : QueueItem) (f : Bool) (st2 : DriverState)
    (hok : itemOk st item = true)
    (h : (driverStep cfg streams st item f).2 = .cont st2 ∨
      ∃ out, (driverStep cfg streams st item f).2 = .halt out st2)
    (hg : GInv st) : GInv st2 := by
  obtain ⟨hd, hr, hn⟩ := hg
  have hd2 : DInv st2 := driverStep_dinv cfg streams st item f st2 h hd
  refine ⟨hd2, ?_, ?_⟩ <;>
    rcases driverStep_state_cases cfg streams st item f st2 h with
      rfl | ⟨name, ev?, hit, hgc⟩ | ⟨p, hit, hp⟩ | ⟨p, hit, hp⟩ | ⟨s', d, hit, hp⟩
  -- running ⊆ in-progress
  · exact hr
  · obtain ⟨-, hcase⟩ := handlePGC_ok_cases st st2 name ev? hgc
    rcases hcase with ⟨h1, -, rfl⟩ | ⟨g, rest, h1, -, rfl⟩
    · exact fun t ht => hr t (removeFirst_subset _ _ _ ht)
    · intro t ht
      rcases List.mem_append.mp ht with ht' | ht'
      · exact mem_setAdd_of_mem (hr t (removeFirst_subset _ _ _ ht'))
      · rw [List.mem_singleton.mp ht']
        exact mem_setAdd_self _ _
  · obtain ⟨inner, -, rfl⟩ := handlePartition_ok_cases cfg st st2 p hp
    exact hr
  · obtain ⟨inner, hl, hcase⟩ := handlePartitionCompleted_ok_cases streams st st2 p hp
    rcases hcase with ⟨-, rfl, -⟩ | ⟨hcond, -, c, stream, -, -, rfl, -⟩
    · exact hr
    · intro t ht
      refine mem_removeFirst_of_mem_ne _ _ _ (hr t ht) ?_
      intro hts
      exact hcond.2 (hts ▸ ht)
  · obtain ⟨stream, c, -, -, rfl, -⟩ := handleRecord_ok_cases streams st st2 s' d hp
    exact hr
  -- registered partitions imply not pending
  · exact hn
  · obtain ⟨-, hcase⟩ := handlePGC_ok_cases st st2 name ev? hgc
    rcases hcase with ⟨h1, -, rfl⟩ | ⟨g, rest, h1, -, rfl⟩
    · exact hn
    · intro s hs hmem
      have hs' : innerNonempty st s = true := hs
      have := hn s hs'
      rw [h1] at this
      exact this (List.mem_cons_of_mem _ hmem)
  · subst hit
    simp only [itemOk] at hok
    obtain ⟨inner, -, rfl⟩ := handlePartition_ok_cases cfg st st2 p hp
    intro s hs hmem
    by_cases hps : p.stream_name = s
    · refine hd.2 s hmem ?_
      rw [← hps]
      exact hr _ (of_decide_eq_true hok)
    · have hs' : innerNonempty st s = true := by
        simp only [innerNonempty, alistLookup_insert_ne _ _ _ _ hps] at hs
        simpa [innerNonempty] using hs
      exact hn s hs' hmem
  · subst hit
    simp only [itemOk] at hok
    obtain ⟨inner, hl, hcase⟩ := handlePartitionCompleted_ok_cases streams st st2 p hp
    simp only [hl] at hok
    have hfalse : alistLookup inner p = some false := of_decide_eq_true hok
    have hpn : p.stream_name ∉ st.partitionGenerators := by
      refine hn p.stream_name ?_
      simp only [innerNonempty, hl]
      rw [isEmpty_false_of_lookup inner p false hfalse]
      rfl
    have hkey : ∀ st' : DriverState,
        st'.streamsToPartitionsToDone =
          alistInsert st.streamsToPartitionsToDone p.stream_name
            (alistInsert inner p true) →
        st'.partitionGenerators = st.partitionGenerators →
        ∀ s, innerNonempty st' s = true → s ∉ st'.partitionGenerators := by
      intro st' hst' hpg s hs
      rw [hpg]
      by_cases hps : p.stream_name = s
      · rw [← hps]
        exact hpn
      · have hs' : innerNonempty st s = true := by
          simp only [innerNonempty, hst', alistLookup_insert_ne _ _ _ _ hps] at hs
          simpa [innerNonempty] using hs
        exact hn s hs'
    rcases hcase with ⟨-, rfl, -⟩ | ⟨-, -, c, stream, -, -, rfl, -⟩
    · exact hkey _ rfl rfl
    · exact hkey _ rfl rfl
  · obtain ⟨stream, c, -, -, rfl, -⟩ := handleRecord_ok_cases streams st st2 s' d hp
    exact hn

theorem wfFrom_cons (cfg : SourceConfig) (streams : List AbstractStream)
    (st : DriverState) (item : QueueItem) (f : Bool)
    (rest : List (QueueItem × Bool)) :
    wfFrom cfg streams st ((item, f) :: rest) =
      (itemOk st item &&
        (match (driverStep cfg streams st item f).2 with
          | .cont st' => wfFrom cfg streams st' rest
          | .halt _ _ => true)) := by
  simp only [wfFrom]
  rcases hd : driverStep cfg streams st item f with ⟨evs, o⟩
  cases o <;> rfl

/-- When a record-count log line appears among a step's events, its count
is the stream's current counter, the step yields no record messages for
that stream, and if the loop continues the stream is closed in the
post-step state. -/
theorem driverStep_logcount (cfg : SourceConfig) (streams : List AbstractStream)
    (st : DriverState) (item : QueueItem) (f : Bool) (s : String) (n : Nat)
    (hok : itemOk st item = true) (hg : GInv st)
    (hmem : Event.logReadCount s n ∈ (driverStep cfg streams st item f).1) :
    n = counterVal st s ∧
    recordMsgCount ((driverStep cfg streams st item f).1) s = 0 ∧
    ∀ st', (driverStep cfg streams st item f).2 = .cont st' → StreamClosed st' s := by
  cases item with
  | exception e =>
    exfalso
    refine notLogCount_all_no_mem _ s n ?_ hmem
    rcases hs : (stopStreams streams st.streamsInProgress).2 with k | u
    · rw [stepEq_exception_err cfg streams st e f k hs]
      simpa [stopStreams, notLogCount] using stopStreamsGo_notLogCount streams _
    · rw [stepEq_exception_ok cfg streams st e f u hs]
      simpa [stopStreams, notLogCount] using stopStreamsGo_notLogCount streams _
  | generationCompleted name =>
    exfalso
    refine notLogCount_all_no_mem _ s n ?_ hmem
    rcases hgc : handlePartitionGenerationCompleted st name with k | ⟨st3, ev?⟩
    · rw [stepEq_gen_err cfg streams st name f k hgc]
      rfl
    · have hev : (ev?.toList.all notLogCount) = true := by
        cases ev? with
        | none => rfl
        | some ev =>
          obtain ⟨g, rfl⟩ :=
            handlePartitionGenerationCompleted_event_started st name st3 ev hgc
          rfl
      cases hl : loopEndCheck st3 f with
      | true =>
        rw [stepEq_gen_end cfg streams st st3 name f ev? hgc hl]
        simp [List.all_append, hev, postLoopEvents_notLogCount]
      | false =>
        rw [stepEq_gen_cont cfg streams st st3 name f ev? hgc hl]
        exact hev
  | partitionItem p =>
    exfalso
    refine notLogCount_all_no_mem _ s n ?_ hmem
    rcases hp : handlePartition cfg st p with k | st3
    · rw [stepEq_part_err cfg streams st p f k hp]
      rfl
    · cases hl : loopEndCheck st3 f with
      | true =>
        rw [stepEq_part_end cfg streams st st3 p f hp hl]
        exact postLoopEvents_notLogCount
      | false =>
        rw [stepEq_part_cont cfg streams st st3 p f hp hl]
        rfl
  | record s' d =>
    exfalso
    refine notLogCount_all_no_mem _ s n ?_ hmem
    have hrec := handleRecord_notLogCount streams st s' d
    rcases hp : (handleRecord streams st s' d).2 with k | st3
    · rw [stepEq_rec_err cfg streams st s' d f k hp]
      exact hrec
    · cases hl : loopEndCheck st3 f with
      | true =>
        rw [stepEq_rec_end cfg streams st st3 s' d f hp hl]
        simp [List.all_append, hrec, postLoopEvents_notLogCount]
      | false =>
        rw [stepEq_rec_cont cfg streams st st3 s' d f hp hl]
        exact hrec
  | partitionCompleted p =>
    simp only [itemOk] at hok
    rcases hli : alistLookup st.streamsToPartitionsToDone p.stream_name with - | inner
    · simp only [hli] at hok
      exact Bool.noConfusion hok
    · simp only [hli] at hok
      have hfalse : alistLookup inner p = some false := of_decide_eq_true hok
      have hpair := handlePartitionCompleted_eq_aux streams st p inner hli
      by_cases hcond : ((alistInsert inner p true).all fun q => q.2) = true ∧
          p.stream_name ∉ st.partitionGeneratorRunning
      · have hcond' : ((alistInsert inner p true).all fun q => q.2) = true ∧
            p.stream_name ∉ (streamDoneUpdate st p inner).partitionGeneratorRunning := by
          simpa using hcond
        rcases hr : setRemove st.streamsInProgress p.stream_name with - | inProgress
        · have heq := hpcAux_err_notin streams (streamDoneUpdate st p inner) p
            (alistInsert inner p true) hcond' (by simpa using hr)
          have hfull := hpair.trans heq
          exfalso
          refine notLogCount_all_no_mem _ s n ?_ hmem
          have herr : (handlePartitionCompleted streams st p).2 = .error .keyError := by
            rw [hfull]
          rw [stepEq_pc_err cfg streams st p f .keyError herr, hfull]
          rfl
        · obtain ⟨hmemip, -⟩ := setRemove_some _ _ _ hr
          rcases hc : alistLookup st.recordCounter p.stream_name with - | c
          · have heq := hpcAux_err_noctr streams (streamDoneUpdate st p inner) p
              (alistInsert inner p true) hcond' (by simpa using hmemip)
              (by simpa using hc)
            have hfull := hpair.trans heq
            exfalso
            refine notLogCount_all_no_mem _ s n ?_ hmem
            have herr : (handlePartitionCompleted streams st p).2 = .error .keyError := by
              rw [hfull]
            rw [stepEq_pc_err cfg streams st p f .keyError herr, hfull]
            rfl
          · have hcc : counterVal st p.stream_name = c := by
              simp [counterVal, hc]
            rcases hf : findStream streams p.stream_name with - | stream
            · have heq := hpcAux_err_nostream streams (streamDoneUpdate st p inner) p
                (alistInsert inner p true) c hcond' (by simpa using hmemip)
                (by simpa using hc) hf
              have hfull := hpair.trans heq
              have herr : (handlePartitionCompleted streams st p).2 = .error .keyError := by
                rw [hfull]
              have hstep := stepEq_pc_err cfg streams st p f .keyError herr
              rw [hstep, hfull] at hmem
              simp at hmem
              obtain ⟨hs1, hn1⟩ := hmem
              subst hs1
              refine ⟨by rw [hn1, hcc], ?_, ?_⟩
              · rw [hstep, hfull]
                rfl
              · intro st'' hcont
                rw [hstep] at hcont
                exact absurd hcont (by simp)
            · have heq := hpcAux_final streams (streamDoneUpdate st p inner) p
                (alistInsert inner p true) c stream hcond' (by simpa using hmemip)
                (by simpa using hc) hf
              have hfull := hpair.trans heq
              have hev : (handlePartitionCompleted streams st p).1 =
                  [Event.cursorClosePartition p, Event.logReadCount p.stream_name c,
                    Event.statusMessage stream.name stream.ns .complete] := by
                rw [hfull]
              have hnotpend : p.stream_name ∉ st.partitionGenerators := by
                refine hg.2.2 p.stream_name ?_
                simp only [innerNonempty, hli]
                rw [isEmpty_false_of_lookup inner p false hfalse]
                rfl
              obtain ⟨st2', hok2, hrun2, hpend2, hdone2⟩ :
                  ∃ st2', (handlePartitionCompleted streams st p).2 = .ok st2' ∧
                    p.stream_name ∉ st2'.partitionGeneratorRunning ∧
                    p.stream_name ∉ st2'.partitionGenerators ∧
                    innerAllDone st2' p.stream_name = true := by
                refine ⟨{ streamDoneUpdate st p inner with
                    streamsInProgress := removeFirst st.streamsInProgress p.stream_name },
                  ?_, hcond.2, hnotpend, ?_⟩
                · exact congrArg Prod.snd hfull
                · simp only [innerAllDone, streamDoneUpdate, alistLookup_insert_self]
                  exact hcond.1
              cases he : st2'.streamsInProgress.isEmpty with
              | true =>
                have hstep := stepEq_pc_done cfg streams st st2' p f hok2 he
                rw [hstep, hev] at hmem
                simp [postLoopEvents] at hmem
                obtain ⟨hs1, hn1⟩ := hmem
                subst hs1
                refine ⟨by rw [hn1, hcc], ?_, ?_⟩
                · rw [hstep, hev]
                  rfl
                · intro st'' hcont
                  rw [hstep] at hcont
                  exact absurd hcont (by simp)
              | false =>
                cases hl : loopEndCheck st2' f with
                | true =>
                  have hstep := stepEq_pc_end cfg streams st st2' p f hok2 he hl
                  rw [hstep, hev] at hmem
                  simp [postLoopEvents] at hmem
                  obtain ⟨hs1, hn1⟩ := hmem
                  subst hs1
                  refine ⟨by rw [hn1, hcc], ?_, ?_⟩
                  · rw [hstep, hev]
                    rfl
                  · intro st'' hcont
                    rw [hstep] at hcont
                    exact absurd hcont (by simp)
                | false =>
                  have hstep := stepEq_pc_cont cfg streams st st2' p f hok2 he hl
                  rw [hstep, hev] at hmem
                  simp at hmem
                  obtain ⟨hs1, hn1⟩ := hmem
                  subst hs1
                  refine ⟨by rw [hn1, hcc], ?_, ?_⟩
                  · rw [hstep, hev]
                    rfl
                  · intro st'' hcont
                    rw [hstep] at hcont
                    simp only [StepOut.cont.injEq] at hcont
                    rw [← hcont]
                    exact ⟨hrun2, hpend2, hdone2⟩
      · have hcond' : ¬ (((alistInsert inner p true).all fun q => q.2) = true ∧
            p.stream_name ∉ (streamDoneUpdate st p inner).partitionGeneratorRunning) := by
          simpa using hcond
        have heq := hpcAux_nofinal streams (streamDoneUpdate st p inner) p
          (alistInsert inner p true) hcond'
        have hfull := hpair.trans heq
        exfalso
        refine notLogCount_all_no_mem _ s n ?_ hmem
        have hok2 : (handlePartitionCompleted streams st p).2 =
            .ok (streamDoneUpdate st p inner) := by
          rw [hfull]
        have hev : (handlePartitionCompleted streams st p).1 =
            [Event.cursorClosePartition p] := by
          rw [hfull]
        cases he : (streamDoneUpdate st p inner).streamsInProgress.isEmpty with
        | true =>
          rw [stepEq_pc_done cfg streams st _ p f hok2 he, hev]
          simp [postLoopEvents, notLogCount]
        | false =>
          cases hl : loopEndCheck (streamDoneUpdate st p inner) f with
          | true =>
            rw [stepEq_pc_end cfg streams st _ p f hok2 he hl, hev]
            simp [postLoopEvents, notLogCount]
          | false =>
            rw [stepEq_pc_cont cfg streams st _ p f hok2 he hl, hev]
            rfl

theorem driverLoop_closed_norecords (cfg : SourceConfig)
    (streams : List AbstractStream) :
    ∀ (items : List (QueueItem × Bool)) (st : DriverState) (s : String),
      StreamClosed st s → wfFrom cfg streams st items = true →
      recordMsgCount (driverLoop cfg streams st items).1 s = 0 := by
  intro items
  induction items with
  | nil =>
    intro st s _ _
    rw [driverLoop_nil]
    rfl
  | cons itf rest ih =>
    intro st s hcl hwf
    obtain ⟨item, f⟩ := itf
    rw [wfFrom_cons] at hwf
    obtain ⟨hok, hm⟩ := Bool.and_eq_true_iff.mp hwf
    rcases hs : (driverStep cfg streams st item f).2 with st2 | ⟨out, st2⟩
    · rw [hs] at hm
      have hwf2 : wfFrom cfg streams st2 rest = true := hm
      obtain ⟨hcl2, hz⟩ := driverStep_closed cfg streams st item f s st2 hok hcl
        (Or.inl hs)
      rw [driverLoop_cons_cont cfg streams st st2 item f rest hs]
      rw [recordMsgCount_append, hz, ih st2 s hcl2 hwf2]
    · obtain ⟨-, hz⟩ := driverStep_closed cfg streams st item f s st2 hok hcl
        (Or.inr ⟨out, hs⟩)
      rw [driverLoop_cons_halt cfg streams st st2 item f out rest hs]
      exact hz

theorem driverLoop_logcount (cfg : SourceConfig) (streams : List AbstractStream) :
    ∀ (items : List (QueueItem × Bool)) (st : DriverState) (s : String) (n : Nat),
      GInv st → wfFrom cfg streams st items = true →
      Event.logReadCount s n ∈ (driverLoop cfg streams st items).1 →
      n = counterVal st s + recordMsgCount (driverLoop cfg streams st items).1 s := by
  intro items
  induction items with
  | nil =>
    intro st s n _ _ hmem
    rw [driverLoop_nil] at hmem
    exact absurd hmem (by simp)
  | cons itf rest ih =>
    intro st s n hg hwf hmem
    obtain ⟨item, f⟩ := itf
    rw [wfFrom_cons] at hwf
    obtain ⟨hok, hm⟩ := Bool.and_eq_true_iff.mp hwf
    rcases hs : (driverStep cfg streams st item f).2 with st2 | ⟨out, st2⟩
    · rw [hs] at hm
      have hwf2 : wfFrom cfg streams st2 rest = true := hm
      rw [driverLoop_cons_cont cfg streams st st2 item f rest hs] at hmem ⊢
      rw [recordMsgCount_append]
      rcases List.mem_append.mp hmem with hmem' | hmem'
      · obtain ⟨hn, hz, hclosed⟩ :=
          driverStep_logcount cfg streams st item f s n hok hg hmem'
        have hz2 := driverLoop_closed_norecords cfg streams rest st2 s
          (hclosed st2 hs) hwf2
        rw [hz, hz2]
        omega
      · have hg2 := driverStep_ginv cfg streams st item f st2 hok (Or.inl hs) hg
        have hrec := ih st2 s n hg2 hwf2 hmem'
        have hdelta := driverStep_counter_delta cfg streams st item f s st2 (Or.inl hs)
        rw [hrec, hdelta]
        omega
    · rw [driverLoop_cons_halt cfg streams st st2 item f out rest hs] at hmem ⊢
      obtain ⟨hn, hz, -⟩ :=
        driverStep_logcount cfg streams st item f s n hok hg hmem
      rw [hz]
      omega

theorem startupGo_pres :
    ∀ (k : Nat) (st st' : DriverState), (startupGo st k).2 = .ok st' →
      st'.streamsToPartitionsToDone = st.streamsToPartitionsToDone ∧
      st'.recordCounter = st.recordCounter := by
  intro k
  induction k with
  | zero =>
    intro st st' h
    simp only [startupGo] at h
    injection h with h
    rw [← h]
    exact ⟨rfl, rfl⟩
  | succ k ih =>
    intro st st' h
    rcases hp : st.partitionGenerators with - | ⟨g, rest⟩
    · have heq : (startupGo st (Nat.succ k)).2 = .error .indexError := by
        simp [startupGo, hp]
      rw [heq] at h
      exact absurd h (by simp)
    · simp only [startupGo, hp] at h
      obtain ⟨h1, h2⟩ := ih _ st' h
      exact ⟨h1, h2⟩

theorem startupGo_events_status :
    ∀ (k : Nat) (st : DriverState), ∀ e ∈ (startupGo st k).1,
      ∃ g, e = Event.statusMessage g none .started := by
  intro k
  induction k with
  | zero =>
    intro st e he
    simp [startupGo] at he
  | succ k ih =>
    intro st e he
    rcases hp : st.partitionGenerators with - | ⟨g, rest⟩
    · simp [startupGo, hp] at he
    · simp only [startupGo, hp] at he
      rcases List.mem_cons.mp he with rfl | he'
      · exact ⟨g, rfl⟩
      · exact ih _ e he'

theorem startupGo_ginv :
    ∀ (k : Nat) (st : DriverState),
      DInv st → (∀ t ∈ st.partitionGeneratorRunning, t ∈ st.streamsInProgress) →
      ∀ st', (startupGo st k).2 = .ok st' →
        DInv st' ∧ ∀ t ∈ st'.partitionGeneratorRunning, t ∈ st'.streamsInProgress := by
  intro k
  induction k with
  | zero =>
    intro st hd hr st' h
    simp only [startupGo] at h
    injection h with h
    subst h
    exact ⟨hd, hr⟩
  | succ k ih =>
    intro st hd hr st' h
    rcases hp : st.partitionGenerators with - | ⟨g, rest⟩
    · have heq : (startupGo st (Nat.succ k)).2 = .error .indexError := by
        simp [startupGo, hp]
      rw [heq] at h
      exact absurd h (by simp)
    · simp only [startupGo, hp] at h
      obtain ⟨hnd, hdisj⟩ := hd
      rw [hp] at hnd hdisj
      obtain ⟨hg1, hrest⟩ := List.nodup_cons.mp hnd
      refine ih _ ⟨hrest, ?_⟩ ?_ st' h
      · intro t ht hmem
        rcases mem_setAdd hmem with hmem' | rfl
        · exact hdisj t (List.mem_cons_of_mem _ ht) hmem'
        · exact hg1 ht
      · intro t ht
        rcases List.mem_append.mp ht with ht' | ht'
        · exact mem_setAdd_of_mem (hr t ht')
        · rw [List.mem_singleton.mp ht']
          exact mem_setAdd_self _ _

theorem selectStreams_events_skip (cfg : SourceConfig)
    (streams : List AbstractStream) :
    ∀ (catalog : List String), ∀ e ∈ (selectStreams cfg streams catalog).1,
      ∃ nm, e = Event.logSkippedStream nm := by
  intro catalog
  induction catalog with
  | nil =>
    intro e he
    simp [selectStreams] at he
  | cons n rest ih =>
    intro e he
    rcases hfn : findStream streams n with - | u
    · by_cases hr : cfg.raiseExceptionOnMissingStream = true
      · have heq : (selectStreams cfg streams (n :: rest)).1 = [] := by
          simp [selectStreams, hfn, hr]
        rw [heq] at he
        exact absurd he (by simp)
      · have heq : (selectStreams cfg streams (n :: rest)).1 =
            (selectStreams cfg streams rest).1 := by
          simp [selectStreams, hfn, hr]
        rw [heq] at he
        exact ih e he
    · by_cases hav : u.available = true
      · have heq : (selectStreams cfg streams (n :: rest)).1 =
            (selectStreams cfg streams rest).1 := by
          simp [selectStreams, hfn, hav]
        rw [heq] at he
        exact ih e he
      · have heq : (selectStreams cfg streams (n :: rest)).1 =
            Event.logSkippedStream u.name :: (selectStreams cfg streams rest).1 := by
          simp [selectStreams, hfn, hav]
        rw [heq] at he
        rcases List.mem_cons.mp he with rfl | he'
        · exact ⟨u.name, rfl⟩
        · exact ih e he'

theorem selectStreams_ok_name_mem (cfg : SourceConfig)
    (streams : List AbstractStream) :
    ∀ (catalog : List String) (r : List AbstractStream),
      (selectStreams cfg streams catalog).2 = .ok r →
      ∀ t ∈ r, t.name ∈ catalog := by
  intro catalog
  induction catalog with
  | nil =>
    intro r h
    simp only [selectStreams] at h
    injection h with h
    subst h
    intro t ht
    exact absurd ht (by simp)
  | cons n rest ih =>
    intro r h
    rcases hfn : findStream streams n with - | u
    · by_cases hr : cfg.raiseExceptionOnMissingStream = true
      · have heq : (selectStreams cfg streams (n :: rest)).2 = .error .keyError := by
          simp [selectStreams, hfn, hr]
        rw [heq] at h
        exact absurd h (by simp)
      · have heq : (selectStreams cfg streams (n :: rest)).2 =
            (selectStreams cfg streams rest).2 := by
          simp [selectStreams, hfn, hr]
        rw [heq] at h
        intro t ht
        exact List.mem_cons_of_mem _ (ih r h t ht)
    · by_cases hav : u.available = true
      · have heq : (selectStreams cfg streams (n :: rest)).2 =
            (selectStreams cfg streams rest).2.map (fun es => u :: es) := by
          simp [selectStreams, hfn, hav]
        rw [heq] at h
        rcases hrest : (selectStreams cfg streams rest).2 with k | es <;>
          rw [hrest] at h
        · exact absurd h (by simp [Except.map])
        · simp only [Except.map, Except.ok.injEq] at h
          subst h
          intro t ht
          rcases List.mem_cons.mp ht with rfl | ht'
          · rw [findStream_name streams n t hfn]
            exact List.mem_cons_self _ _
          · exact List.mem_cons_of_mem _ (ih es hrest t ht')
      · have heq : (selectStreams cfg streams (n :: rest)).2 =
            (selectStreams cfg streams rest).2 := by
          simp [selectStreams, hfn, hav]
        rw [heq] at h
        intro t ht
        exact List.mem_cons_of_mem _ (ih r h t ht)

theorem selectStreams_ok_names_nodup (cfg : SourceConfig)
    (streams : List AbstractStream) :
    ∀ (catalog : List String) (r : List AbstractStream), catalog.Nodup →
      (selectStreams cfg streams catalog).2 = .ok r →
      (r.map fun t => t.name).Nodup := by
  intro catalog
  induction catalog with
  | nil =>
    intro r _ h
    simp only [selectStreams] at h
    injection h with h
    subst h
    exact List.nodup_nil
  | cons n rest ih =>
    intro r hnd h
    obtain ⟨hn, hrest⟩ := List.nodup_cons.mp hnd
    rcases hfn : findStream streams n with - | u
    · by_cases hr : cfg.raiseExceptionOnMissingStream = true
      · have heq : (selectStreams cfg streams (n :: rest)).2 = .error .keyError := by
          simp [selectStreams, hfn, hr]
        rw [heq] at h
        exact absurd h (by simp)
      · have heq : (selectStreams cfg streams (n :: rest)).2 =
            (selectStreams cfg streams rest).2 := by
          simp [selectStreams, hfn, hr]
        rw [heq] at h
        exact ih r hrest h
    · by_cases hav : u.available = true
      · have heq : (selectStreams cfg streams (n :: rest)).2 =
            (selectStreams cfg streams rest).2.map (fun es => u :: es) := by
          simp [selectStreams, hfn, hav]
        rw [heq] at h
        rcases hrest2 : (selectStreams cfg streams rest).2 with k | es <;>
          rw [hrest2] at h
        · exact absurd h (by simp [Except.map])
        · simp only [Except.map, Except.ok.injEq] at h
          subst h
          rw [List.map_cons]
          refine List.nodup_cons.mpr ⟨?_, ih es hrest hrest2⟩
          intro hmem
          obtain ⟨t, ht, htn⟩ := List.mem_map.mp hmem
          have : t.name ∈ rest := selectStreams_ok_name_mem cfg streams rest es hrest2 t ht
          rw [htn, findStream_name streams n u hfn] at this
          exact hn this
      · have heq : (selectStreams cfg streams (n :: rest)).2 =
            (selectStreams cfg streams rest).2 := by
          simp [selectStreams, hfn, hav]
        rw [heq] at h
        exact ih r hrest h

theorem alistLookup_map_const {α γ : Type} (key : α → String) (c : γ) :
    ∀ (l : List α) (s : String) (v : γ),
      alistLookup (l.map fun t => (key t, c)) s = some v → v = c := by
  intro l
  induction l with
  | nil =>
    intro s v h
    simp [alistLookup] at h
  | cons t rest ih =>
    intro s v h
    simp only [List.map_cons] at h
    rw [alistLookup] at h
    split at h
    · injection h with h
      exact h.symm
    · exact ih s v h

theorem initState_inner_empty (eligible : List AbstractStream) (s : String) :
    innerNonempty (initState eligible) s = false := by
  simp only [innerNonempty, initState]
  rcases hl : alistLookup
      (eligible.map fun t => (t.name, ([] : List (Partition × Bool)))) s with - | inner
  · simp [hl]
  · have hi := alistLookup_map_const (fun t : AbstractStream => t.name) _ eligible s inner hl
    subst hi
    simp [hl]

theorem counterVal_initState (eligible : List AbstractStream) (s : String) :
    counterVal (initState eligible) s = 0 := by
  simp only [counterVal, initState]
  rcases hl : alistLookup (eligible.map fun t => (t.name, (0 : Nat))) s with - | c
  · simp [hl]
  · have hi := alistLookup_map_const (fun t : AbstractStream => t.name) _ eligible s c hl
    subst hi
    simp [hl]

theorem initState_ginv (eligible : List AbstractStream)
    (hnd : (eligible.map fun t => t.name).Nodup) : GInv (initState eligible) := by
  refine ⟨⟨hnd, ?_⟩, ?_, ?_⟩
  · intro t ht hmem
    simp [initState] at hmem
  · intro t ht
    simp [initState] at ht
  · intro s hs
    rw [initState_inner_empty eligible s] at hs
    exact absurd hs (by simp)

/-- C6: when the Driver pops a Record item for a stream and the run
continues, it emits a RUNNING status precisely when the stream's record
counter is zero, increments that counter, yields the translated record
message, invokes the stream's cursor observe, and drains the message
repository; and, on every feasible popped-item sequence, the count logged
in a stream's end-of-run summary line equals the number of record messages
the whole run emitted for that stream. -/
theorem c6_record_processing_and_summary (cfg : SourceConfig)
    (streams : List AbstractStream) (catalog : List String)
    (items : List (QueueItem × Bool)) (eligible : List AbstractStream)
    (st1 : DriverState)
    (hnd : catalog.Nodup)
    (hsel : (selectStreams cfg streams catalog).2 = .ok eligible)
    (hst : (startup (maxNumberOfPartitionGeneratorInProgress cfg)
      (initState eligible)).2 = .ok st1)
    (hwf : wfFrom cfg streams st1 items = true) :
    (∀ (st : DriverState) (s : String) (d : Nat) (f : Bool) (st2 : DriverState),
      (driverStep cfg streams st (.record s d) f).2 = .cont st2 →
      ∃ stream c, findStream streams s = some stream ∧
        alistLookup st.recordCounter stream.name = some c ∧
        (driverStep cfg streams st (.record s d) f).1 =
          (if c = 0 then [Event.statusMessage stream.name stream.ns .running]
            else []) ++
            Event.recordMessage s d :: Event.cursorObserve s d ::
              st.repository.map Event.repoMessage ∧
        st2 = { st with
          recordCounter := alistInsert st.recordCounter stream.name (c + 1)
          repository := [] }) ∧
    (∀ (s : String) (n : Nat),
      Event.logReadCount s n ∈ (read cfg streams catalog items).1 →
      n = recordMsgCount (read cfg streams catalog items).1 s) := by
  constructor
  · intro st s d f st2 hcont
    rcases hp : (handleRecord streams st s d).2 with k | st3
    · rw [stepEq_rec_err cfg streams st s d f k hp] at hcont
      exact absurd hcont (by simp)
    · cases hl : loopEndCheck st3 f with
      | true =>
        rw [stepEq_rec_end cfg streams st st3 s d f hp hl] at hcont
        exact absurd hcont (by simp)
      | false =>
        rw [stepEq_rec_cont cfg streams st st3 s d f hp hl] at hcont
        simp only [StepOut.cont.injEq] at hcont
        obtain ⟨stream, c, hfs, hc, hst3, hpr⟩ :=
          handleRecord_ok_cases streams st st3 s d hp
        refine ⟨stream, c, hfs, hc, ?_, ?_⟩
        · rw [stepEq_rec_cont cfg streams st st3 s d f hp hl, hpr]
        · rw [← hcont]
          exact hst3
  · have hne : (eligible.map fun t => t.name).Nodup :=
      selectStreams_ok_names_nodup cfg streams catalog eligible hnd hsel
    have hg0 : GInv (initState eligible) := initState_ginv eligible hne
    have hst' : (startupGo (initState eligible)
        (maxNumberOfPartitionGeneratorInProgress cfg -
          (initState eligible).partitionGeneratorRunning.length)).2 = .ok st1 := hst
    obtain ⟨hd1, hr1⟩ := startupGo_ginv _ (initState eligible) hg0.1 hg0.2.1 st1 hst'
    obtain ⟨hpd, hpc⟩ := startupGo_pres _ (initState eligible) st1 hst'
    have hg1 : GInv st1 := by
      refine ⟨hd1, hr1, ?_⟩
      intro s hs
      have heqn : innerNonempty st1 s = innerNonempty (initState eligible) s := by
        simp only [innerNonempty, hpd]
      rw [heqn, initState_inner_empty] at hs
      exact absurd hs (by simp)
    intro s n hmem
    have hc1 : counterVal st1 s = 0 := by
      rw [counterVal, hpc]
      exact counterVal_initState eligible s
    have hselz : recordMsgCount (selectStreams cfg streams catalog).1 s = 0 := by
      refine recordMsgCount_eq_zero _ _ ?_
      rw [List.all_eq_true]
      intro e he
      obtain ⟨nm, rfl⟩ := selectStreams_events_skip cfg streams catalog e he
      rfl
    have hstz : recordMsgCount (startup (maxNumberOfPartitionGeneratorInProgress cfg)
        (initState eligible)).1 s = 0 := by
      refine recordMsgCount_eq_zero _ _ ?_
      rw [List.all_eq_true]
      intro e he
      obtain ⟨g, rfl⟩ := startupGo_events_status _ _ e he
      rfl
    rw [readEq_ok cfg streams catalog items eligible st1 hsel hst] at hmem ⊢
    rcases List.mem_append.mp hmem with hmem1 | hmemL
    · exfalso
      rcases List.mem_append.mp hmem1 with hmem2 | hmem2
      · obtain ⟨nm, he⟩ := selectStreams_events_skip cfg streams catalog _ hmem2
        exact Event.noConfusion he
      · obtain ⟨g, he⟩ := startupGo_events_status _ _ _ hmem2
        exact Event.noConfusion he
    · have hlog := driverLoop_logcount cfg streams items st1 s n hg1 hwf hmemL
      rw [recordMsgCount_append, recordMsgCount_append, hselz, hstz]
      omega

theorem c6_record_processing_and_summary_witness :
    (∀ (st : DriverState) (s : String) (d : Nat) (f : Bool) (st2 : DriverState),
      (driverStep ⟨10, 300, true, false⟩ [⟨"s1", some "nsA", true⟩] st
        (.record s d) f).2 = .cont st2 →
      ∃ stream c, findStream [⟨"s1", some "nsA", true⟩] s = some stream ∧
        alistLookup st.recordCounter stream.name = some c ∧
        (driverStep ⟨10, 300, true, false⟩ [⟨"s1", some "nsA", true⟩] st
          (.record s d) f).1 =
          (if c = 0 then [Event.statusMessage stream.name stream.ns .running]
            else []) ++
            Event.recordMessage s d :: Event.cursorObserve s d ::
              st.repository.map Event.repoMessage ∧
        st2 = { st with
          recordCounter := alistInsert st.recordCounter stream.name (c + 1)
          repository := [] }) ∧
    (∀ (s : String) (n : Nat),
      Event.logReadCount s n ∈
        (read ⟨10, 300, true, false⟩ [⟨"s1", some "nsA", true⟩] ["s1"]
          [(QueueItem.partitionItem ⟨"s1", 1⟩, false),
            (QueueItem.generationCompleted "s1", false),
            (QueueItem.record "s1" 100, false), (QueueItem.record "s1" 101, false),
            (QueueItem.partitionCompleted ⟨"s1", 1⟩, true)]).1 →
      n = recordMsgCount
        (read ⟨10, 300, true, false⟩ [⟨"s1", some "nsA", true⟩] ["s1"]
          [(QueueItem.partitionItem ⟨"s1", 1⟩, false),
            (QueueItem.generationCompleted "s1", false),
            (QueueItem.record "s1" 100, false), (QueueItem.record "s1" 101, false),
            (QueueItem.partitionCompleted ⟨"s1", 1⟩, true)]).1 s) :=
  c6_record_processing_and_summary ⟨10, 300, true, false⟩ [⟨"s1", some "nsA", true⟩]
    ["s1"]
    [(QueueItem.partitionItem ⟨"s1", 1⟩, false),
      (QueueItem.generationCompleted "s1", false),
      (QueueItem.record "s1" 100, false), (QueueItem.record "s1" 101, false),
      (QueueItem.partitionCompleted ⟨"s1", 1⟩, true)]
    [⟨"s1", some "nsA", true⟩]
    ⟨["s1"], ["s1"], [], [("s1", [])], [("s1", 0)], []⟩
    (by decide) (by rfl) (by rfl) (by decide)

/-! ## Per-stream status sequences (C3) -/

/-- All per-stream status sequences the code can actually produce: the
claim's four terminated shapes plus the unterminated prefixes a stalled or
aborted run leaves behind. -/
def c3SafePatterns : List (List StreamStatus) :=
  [[], [.started], [.started, .running],
    [.started, .complete], [.started, .running, .complete],
    [.started, .incomplete], [.started, .running, .incomplete]]

/-- The status subsequence the driver has emitted for a stream, as a
function of the driver state: a stream in `streams_in_progress` has
STARTED (and RUNNING once its record counter is positive); a stream no
longer in progress but with registered partitions was finalized and has
COMPLETE as well; any other stream has no status yet. -/
def classOf (st : DriverState) (s : String) : List StreamStatus :=
  if s ∈ st.streamsInProgress then
    .started :: (if counterVal st s = 0 then [] else [.running])
  else if innerNonempty st s = true then
    (.started :: (if counterVal st s = 0 then [] else [.running])) ++ [.complete]
  else []

/-- The events so far determine each stream's status history through
`classOf`. -/
def StatusRel (evs : List Event) (st : DriverState) : Prop :=
  ∀ s, streamStatuses evs s = classOf st s

/-- The state invariants behind the status-sequence argument: the
generator bookkeeping of `GInv`, no duplicates in `streams_in_progress`,
streams without registered partitions have a zero record counter, and
streams with an undone partition are still in progress. -/
def TInv (st : DriverState) : Prop :=
  GInv st ∧ st.streamsInProgress.Nodup ∧
    (∀ s, innerNonempty st s = false → counterVal st s = 0) ∧
    (∀ s, innerHasUndone st s = true → s ∈ st.streamsInProgress)

theorem classOf_mem_patterns (st : DriverState) (s : String) :
    classOf st s ∈ c3SafePatterns := by
  by_cases h1 : s ∈ st.streamsInProgress
  · by_cases h2 : counterVal st s = 0 <;> simp [classOf, h1, h2, c3SafePatterns]
  · by_cases h3 : innerNonempty st s = true
    · by_cases h2 : counterVal st s = 0 <;> simp [classOf, h1, h2, h3, c3SafePatterns]
    · simp [classOf, h1, h3, c3SafePatterns]

theorem streamStatuses_append (l1 l2 : List Event) (s : String) :
    streamStatuses (l1 ++ l2) s = streamStatuses l1 s ++ streamStatuses l2 s := by
  simp [streamStatuses, List.filterMap_append]

/-- Events that are not stream-status messages. -/
def notStatus : Event → Bool
  | .statusMessage _ _ _ => false
  | _ => true

theorem streamStatuses_eq_nil (l : List Event) (s : String)
    (h : (l.all notStatus) = true) : streamStatuses l s = [] := by
  induction l with
  | nil => rfl
  | cons e rest ih =>
    rw [List.all_cons] at h
    obtain ⟨he, hrest⟩ := Bool.and_eq_true_iff.mp h
    cases e <;> simp [streamStatuses, List.filterMap_cons] at *
    all_goals first
      | exact ih hrest
      | (rw [notStatus] at he; exact absurd he (by simp))

theorem streamStatuses_cons_status (nm : String) (ns : Option String)
    (stt : StreamStatus) (l : List Event) (s : String) :
    streamStatuses (Event.statusMessage nm ns stt :: l) s =
      (if nm = s then [stt] else []) ++ streamStatuses l s := by
  by_cases h : nm = s <;> simp [streamStatuses, List.filterMap_cons, h]

theorem nodup_setAdd (l : List String) (x : String) (h : l.Nodup) :
    (setAdd l x).Nodup := by
  unfold setAdd
  split
  · exact h
  · rename_i hx
    simp [List.nodup_append, h, hx]

theorem mem_alistInsert {α β : Type} [DecidableEq α] :
    ∀ (l : List (α × β)) (k : α) (v : β) (q : α × β),
      q ∈ alistInsert l k v → q = (k, v) ∨ q ∈ l := by
  intro l
  induction l with
  | nil =>
    intro k v q hq
    simp [alistInsert] at hq
    exact Or.inl hq
  | cons kv rest ih =>
    intro k v q hq
    obtain ⟨k', v'⟩ := kv
    by_cases hk : k' = k
    · rw [alistInsert, if_pos hk] at hq
      rcases List.mem_cons.mp hq with rfl | hq'
      · exact Or.inl rfl
      · exact Or.inr (List.mem_cons_of_mem _ hq')
    · rw [alistInsert, if_neg hk] at hq
      rcases List.mem_cons.mp hq with rfl | hq'
      · exact Or.inr (List.mem_cons_self _ _)
      · rcases ih k v q hq' with h' | h'
        · exact Or.inl h'
        · exact Or.inr (List.mem_cons_of_mem _ h')

theorem innerHasUndone_of_lookup (st : DriverState) (s : String)
    (inner : List (Partition × Bool)) (p : Partition)
    (hl : alistLookup st.streamsToPartitionsToDone s = some inner)
    (hp : alistLookup inner p = some false) : innerHasUndone st s = true := by
  simp only [innerHasUndone, hl]
  rw [List.any_eq_true]
  exact ⟨(p, false), alistLookup_mem inner p false hp, rfl⟩

theorem innerNonempty_of_lookup (st : DriverState) (s : String)
    (inner : List (Partition × Bool)) (p : Partition) (b : Bool)
    (hl : alistLookup st.streamsToPartitionsToDone s = some inner)
    (hp : alistLookup inner p = some b) : innerNonempty st s = true := by
  simp only [innerNonempty, hl]
  rw [isEmpty_false_of_lookup inner p b hp]
  rfl

theorem classOf_congr (st st2 : DriverState) (s : String)
    (hm : (s ∈ st2.streamsInProgress) ↔ (s ∈ st.streamsInProgress))
    (hc : counterVal st2 s = counterVal st s)
    (hn : innerNonempty st2 s = innerNonempty st s) :
    classOf st2 s = classOf st s := by
  unfold classOf
  rw [hc, hn]
  by_cases h : s ∈ st.streamsInProgress
  · rw [if_pos h, if_pos (hm.mpr h)]
  · rw [if_neg h, if_neg (fun h' => h (hm.mp h'))]

theorem innerNonempty_insert (st st2 : DriverState) (nm : String)
    (inner2 : List (Partition × Bool))
    (hst2 : st2.streamsToPartitionsToDone =
      alistInsert st.streamsToPartitionsToDone nm inner2) (s : String) :
    innerNonempty st2 s = if nm = s then !inner2.isEmpty else innerNonempty st s := by
  by_cases hps : nm = s
  · subst hps
    simp [innerNonempty, hst2, alistLookup_insert_self]
  · simp [innerNonempty, hst2, alistLookup_insert_ne _ _ _ _ hps, hps]

theorem innerHasUndone_insert (st st2 : DriverState) (nm : String)
    (inner2 : List (Partition × Bool))
    (hst2 : st2.streamsToPartitionsToDone =
      alistInsert st.streamsToPartitionsToDone nm inner2) (s : String) :
    innerHasUndone st2 s =
      if nm = s then inner2.any (fun q => !q.2) else innerHasUndone st s := by
  by_cases hps : nm = s
  · subst hps
    simp [innerHasUndone, hst2, alistLookup_insert_self]
  · simp [innerHasUndone, hst2, alistLookup_insert_ne _ _ _ _ hps, hps]

theorem counterVal_insert (st st2 : DriverState) (nm : String) (c : Nat)
    (hst2 : st2.recordCounter = alistInsert st.recordCounter nm c) (s : String) :
    counterVal st2 s = if nm = s then c else counterVal st s := by
  by_cases hps : nm = s
  · subst hps
    simp [counterVal, hst2, alistLookup_insert_self]
  · simp [counterVal, hst2, alistLookup_insert_ne _ _ _ _ hps, hps]

theorem innerNonempty_of_hasUndone (st : DriverState) (s : String)
    (h : innerHasUndone st s = true) : innerNonempty st s = true := by
  unfold innerHasUndone at h
  unfold innerNonempty
  rcases hl : alistLookup st.streamsToPartitionsToDone s with - | inner
  · rw [hl] at h
    exact Bool.noConfusion h
  · rw [hl] at h
    rw [List.any_eq_true] at h
    obtain ⟨q, hq, -⟩ := h
    cases inner with
    | nil => exact absurd hq (by simp)
    | cons a rest => rfl

theorem classOf_inprogress (st2 : DriverState) (s : String)
    (h1 : s ∈ st2.streamsInProgress) :
    classOf st2 s = .started :: (if counterVal st2 s = 0 then [] else [.running]) := by
  unfold classOf
  rw [if_pos h1]

theorem classOf_finalized (st2 : DriverState) (s : String)
    (h1 : s ∉ st2.streamsInProgress) (h2 : innerNonempty st2 s = true) :
    classOf st2 s =
      (.started :: (if counterVal st2 s = 0 then [] else [.running])) ++
        [.complete] := by
  unfold classOf
  rw [if_neg h1, if_pos h2]

theorem handlePGC_c3 (st st2 : DriverState) (name : String) (ev? : Option Event)
    (hg : handlePartitionGenerationCompleted st name = .ok (st2, ev?))
    (ht : TInv st) (evs : List Event) (hsr : StatusRel evs st) :
    TInv st2 ∧ StatusRel (evs ++ ev?.toList) st2 := by
  obtain ⟨⟨hd, hr, hn⟩, hnd, hcz, hu⟩ := ht
  obtain ⟨hnm, hcase⟩ := handlePGC_ok_cases st st2 name ev? hg
  rcases hcase with ⟨h1, hev, rfl⟩ | ⟨g, rest, h1, hev, rfl⟩
  · subst hev
    constructor
    · refine ⟨⟨hd, ?_, hn⟩, hnd, hcz, hu⟩
      exact fun t ht' => hr t (removeFirst_subset _ _ _ ht')
    · intro s
      rw [streamStatuses_append]
      have hnil : streamStatuses (Option.toList (none : Option Event)) s = [] := rfl
      rw [hnil, List.append_nil, hsr s]
      rfl
  · subst hev
    have hgpend : g ∈ st.partitionGenerators := by
      rw [h1]
      exact List.mem_cons_self _ _
    have hgnotin : g ∉ st.streamsInProgress := hd.2 g hgpend
    have hgempty : innerNonempty st g = false := by
      cases hni : innerNonempty st g
      · rfl
      · exact absurd hgpend (hn g hni)
    obtain ⟨hndp, hdisj⟩ := hd
    rw [h1] at hndp hdisj
    obtain ⟨hg1, hrest⟩ := List.nodup_cons.mp hndp
    constructor
    · refine ⟨⟨⟨hrest, ?_⟩, ?_, ?_⟩, nodup_setAdd _ _ hnd, ?_, ?_⟩
      · intro t ht' hmem
        rcases mem_setAdd hmem with hmem' | rfl
        · exact hdisj t (List.mem_cons_of_mem _ ht') hmem'
        · exact hg1 ht'
      · intro t ht'
        rcases List.mem_append.mp ht' with ht'' | ht''
        · exact mem_setAdd_of_mem (hr t (removeFirst_subset _ _ _ ht''))
        · rw [List.mem_singleton.mp ht'']
          exact mem_setAdd_self _ _
      · intro s hs hmem
        have hs' : innerNonempty st s = true := hs
        have := hn s hs'
        rw [h1] at this
        exact this (List.mem_cons_of_mem _ hmem)
      · exact hcz
      · intro s hs
        exact mem_setAdd_of_mem (hu s hs)
    · intro s
      rw [streamStatuses_append]
      have hone : streamStatuses
          (Option.toList (some (Event.statusMessage g none .started))) s =
          (if g = s then [StreamStatus.started] else []) := by
        by_cases hgs : g = s <;> simp [streamStatuses, hgs]
      rw [hone, hsr s]
      by_cases hgs : g = s
      · subst hgs
        rw [if_pos rfl]
        have hcl : classOf st g = [] := by
          simp [classOf, hgnotin, hgempty]
        have hcr : classOf { st with
            partitionGeneratorRunning :=
              removeFirst st.partitionGeneratorRunning name ++ [g]
            partitionGenerators := rest
            streamsInProgress := setAdd st.streamsInProgress g } g =
            [StreamStatus.started] := by
          have hmem : g ∈ setAdd st.streamsInProgress g := mem_setAdd_self g _
          have hcz2 : counterVal { st with
              partitionGeneratorRunning :=
                removeFirst st.partitionGeneratorRunning name ++ [g]
              partitionGenerators := rest
              streamsInProgress := setAdd st.streamsInProgress g } g = 0 :=
            hcz g hgempty
          simp [classOf, hmem, hcz2]
        rw [hcl, hcr]
        rfl
      · rw [if_neg hgs, List.append_nil]
        have hcc : classOf { st with
            partitionGeneratorRunning :=
              removeFirst st.partitionGeneratorRunning name ++ [g]
            partitionGenerators := rest
            streamsInProgress := setAdd st.streamsInProgress g } s = classOf st s := by
          refine classOf_congr st _ s ?_ rfl rfl
          constructor
          · intro hms
            rcases mem_setAdd hms with h' | h'
            · exact h'
            · exact absurd h'.symm hgs
          · exact mem_setAdd_of_mem
        rw [hcc]

theorem handlePartition_c3 (cfg : SourceConfig) (st st2 : DriverState) (p : Partition)
    (hp : handlePartition cfg st p = .ok st2)
    (hrun : p.stream_name ∈ st.partitionGeneratorRunning)
    (ht : TInv st) : TInv st2 ∧ ∀ s, classOf st2 s = classOf st s := by
  obtain ⟨⟨hd, hr, hn⟩, hnd, hcz, hu⟩ := ht
  obtain ⟨inner, hl, rfl⟩ := handlePartition_ok_cases cfg st st2 p hp
  have hinp : p.stream_name ∈ st.streamsInProgress := hr _ hrun
  have hne2 : ((alistInsert inner p false).isEmpty) = false :=
    isEmpty_false_of_lookup _ p false (alistLookup_insert_self inner p false)
  constructor
  · refine ⟨⟨hd, hr, ?_⟩, hnd, ?_, ?_⟩
    · intro s hs
      by_cases hps : p.stream_name = s
      · subst hps
        intro hmem
        exact hd.2 _ hmem hinp
      · have hs' : innerNonempty st s = true := by
          rw [innerNonempty_insert st _ p.stream_name (alistInsert inner p false) rfl s,
            if_neg hps] at hs
          exact hs
        exact hn s hs'
    · intro s hs
      rw [innerNonempty_insert st _ p.stream_name (alistInsert inner p false) rfl s] at hs
      by_cases hps : p.stream_name = s
      · rw [if_pos hps, hne2] at hs
        exact Bool.noConfusion hs
      · rw [if_neg hps] at hs
        exact hcz s hs
    · intro s hs
      by_cases hps : p.stream_name = s
      · rw [← hps]
        exact hinp
      · rw [innerHasUndone_insert st _ p.stream_name (alistInsert inner p false) rfl s,
          if_neg hps] at hs
        exact hu s hs
  · intro s
    by_cases hps : p.stream_name = s
    · subst hps
      have hmem2 : p.stream_name ∈ ({ st with
          streamsToPartitionsToDone :=
            alistInsert st.streamsToPartitionsToDone p.stream_name
              (alistInsert inner p false)
          repository := if cfg.shouldLogSlice then st.repository ++ [p.pid]
            else st.repository } : DriverState).streamsInProgress := hinp
      simp [classOf, hinp, hmem2, counterVal]
    · have hnn : innerNonempty { st with
          streamsToPartitionsToDone :=
            alistInsert st.streamsToPartitionsToDone p.stream_name
              (alistInsert inner p false)
          repository := if cfg.shouldLogSlice then st.repository ++ [p.pid]
            else st.repository } s = innerNonempty st s := by
        rw [innerNonempty_insert st _ p.stream_name (alistInsert inner p false) rfl s,
          if_neg hps]
      exact classOf_congr st _ s Iff.rfl rfl hnn

theorem handleRecord_c3 (streams : List AbstractStream) (st st2 : DriverState)
    (s' : String) (d : Nat)
    (hp : (handleRecord streams st s' d).2 = .ok st2)
    (hundone : innerHasUndone st s' = true)
    (ht : TInv st) (evs : List Event) (hsr : StatusRel evs st) :
    TInv st2 ∧ StatusRel (evs ++ (handleRecord streams st s' d).1) st2 := by
  obtain ⟨⟨hd, hr, hn⟩, hnd, hcz, hu⟩ := ht
  obtain ⟨stream, c, hfs, hc, rfl, hpr⟩ := handleRecord_ok_cases streams st st2 s' d hp
  have hname : stream.name = s' := findStream_name streams s' stream hfs
  rw [hname] at hc
  have hinp : s' ∈ st.streamsInProgress := hu s' hundone
  have hs'ne : innerNonempty st s' = true := innerNonempty_of_hasUndone st s' hundone
  have hcv : counterVal st s' = c := by
    simp [counterVal, hc]
  have hB : ∀ s, streamStatuses ((handleRecord streams st s' d).1) s =
      if c = 0 then (if s' = s then [StreamStatus.running] else []) else [] := by
    intro s
    have htail : streamStatuses (Event.recordMessage s' d :: Event.cursorObserve s' d ::
        st.repository.map Event.repoMessage) s = [] := by
      refine streamStatuses_eq_nil _ _ ?_
      simp [notStatus, List.all_eq_true, List.mem_map]
    rw [hpr]
    by_cases hc0 : c = 0
    · rw [if_pos hc0, if_pos hc0]
      rw [hname]
      rw [streamStatuses_append, streamStatuses_cons_status, htail, List.append_nil]
      simp [streamStatuses]
    · rw [if_neg hc0, if_neg hc0]
      rw [streamStatuses_append, htail]
      rfl
  constructor
  · refine ⟨⟨hd, hr, hn⟩, hnd, ?_, hu⟩
    intro s hs
    have hs2 : innerNonempty st s = false := hs
    rw [counterVal_insert st _ stream.name (c + 1) rfl s]
    by_cases hss : stream.name = s
    · exfalso
      rw [hname] at hss
      rw [hss] at hs'ne
      rw [hs'ne] at hs2
      exact Bool.noConfusion hs2
    · rw [if_neg hss]
      exact hcz s hs2
  · intro s
    rw [streamStatuses_append, hB s, hsr s]
    by_cases hss : s' = s
    · subst hss
      have hL : classOf st s' = .started :: (if c = 0 then [] else [.running]) := by
        simp [classOf, hinp, hcv]
      have h2 : counterVal { st with
          recordCounter := alistInsert st.recordCounter stream.name (c + 1)
          repository := [] } s' = c + 1 := by
        rw [counterVal_insert st _ stream.name (c + 1) rfl s', if_pos (by rw [hname])]
      have hmem2 : s' ∈ ({ st with
          recordCounter := alistInsert st.recordCounter stream.name (c + 1)
          repository := [] } : DriverState).streamsInProgress := hinp
      have hR : classOf { st with
          recordCounter := alistInsert st.recordCounter stream.name (c + 1)
          repository := [] } s' = [.started, .running] := by
        simp [classOf, hmem2, h2]
      rw [hL, hR, if_pos rfl]
      by_cases hc0 : c = 0 <;> simp [hc0]
    · have hBz : (if c = 0 then (if s' = s then [StreamStatus.running] else [])
          else []) = [] := by
        by_cases hc0 : c = 0 <;> simp [hc0, hss]
      rw [hBz, List.append_nil]
      have hcc : classOf { st with
          recordCounter := alistInsert st.recordCounter stream.name (c + 1)
          repository := [] } s = classOf st s := by
        refine classOf_congr st _ s Iff.rfl ?_ rfl
        rw [counterVal_insert st _ stream.name (c + 1) rfl s,
          if_neg (by rw [hname]; exact hss)]
      rw [hcc]

theorem handlePartitionCompleted_c3 (streams : List AbstractStream)
    (st st2 : DriverState) (p : Partition)
    (hp : (handlePartitionCompleted streams st p).2 = .ok st2)
    (hok : itemOk st (.partitionCompleted p) = true)
    (ht : TInv st) (evs : List Event) (hsr : StatusRel evs st) :
    TInv st2 ∧ StatusRel (evs ++ (handlePartitionCompleted streams st p).1) st2 := by
  obtain ⟨⟨hd, hr, hn⟩, hnd, hcz, hu⟩ := ht
  obtain ⟨inner, hl, hcase⟩ := handlePartitionCompleted_ok_cases streams st st2 p hp
  simp only [itemOk, hl] at hok
  have hfalse : alistLookup inner p = some false := of_decide_eq_true hok
  have hundone : innerHasUndone st p.stream_name = true :=
    innerHasUndone_of_lookup st p.stream_name inner p hl hfalse
  have hinp : p.stream_name ∈ st.streamsInProgress := hu _ hundone
  have hnep : innerNonempty st p.stream_name = true :=
    innerNonempty_of_hasUndone st p.stream_name hundone
  have hne2 : ((alistInsert inner p true).isEmpty) = false :=
    isEmpty_false_of_lookup _ p true (alistLookup_insert_self inner p true)
  rcases hcase with ⟨hcnd, rfl, hpair⟩ | ⟨hcnd, hmemip, c, stream, hc, hf, rfl, hpair⟩
  · constructor
    · refine ⟨⟨hd, hr, ?_⟩, hnd, ?_, ?_⟩
      · intro s hs
        by_cases hps : p.stream_name = s
        · rw [← hps]
          exact hn _ hnep
        · rw [innerNonempty_insert st (streamDoneUpdate st p inner) p.stream_name
            (alistInsert inner p true) rfl s, if_neg hps] at hs
          exact hn s hs
      · intro s hs
        rw [innerNonempty_insert st (streamDoneUpdate st p inner) p.stream_name
          (alistInsert inner p true) rfl s] at hs
        by_cases hps : p.stream_name = s
        · rw [if_pos hps, hne2] at hs
          exact Bool.noConfusion hs
        · rw [if_neg hps] at hs
          exact hcz s hs
      · intro s hs
        by_cases hps : p.stream_name = s
        · rw [← hps]
          exact hinp
        · rw [innerHasUndone_insert st (streamDoneUpdate st p inner) p.stream_name
            (alistInsert inner p true) rfl s, if_neg hps] at hs
          exact hu s hs
    · intro s
      rw [streamStatuses_append, hsr s]
      have hz : streamStatuses ((handlePartitionCompleted streams st p).1) s = [] := by
        rw [hpair]
        rfl
      rw [hz, List.append_nil]
      refine (classOf_congr st (streamDoneUpdate st p inner) s Iff.rfl rfl ?_).symm
      by_cases hps : p.stream_name = s
      · subst hps
        rw [innerNonempty_insert st (streamDoneUpdate st p inner) p.stream_name
          (alistInsert inner p true) rfl p.stream_name, if_pos rfl, hnep, hne2]
        rfl
      · rw [innerNonempty_insert st (streamDoneUpdate st p inner) p.stream_name
          (alistInsert inner p true) rfl s, if_neg hps]
  · have hsname : stream.name = p.stream_name :=
      findStream_name streams p.stream_name stream hf
    have hnotin2 : p.stream_name ∉ removeFirst st.streamsInProgress p.stream_name :=
      not_mem_removeFirst_of_nodup _ _ hnd
    have hanyf : (alistInsert inner p true).any (fun q => !q.2) = false := by
      rw [List.any_eq_false]
      intro q hq
      have hq2 := List.all_eq_true.mp hcnd.1 q hq
      simp at hq2
      simp [hq2]
    constructor
    · refine ⟨⟨⟨hd.1, ?_⟩, ?_, ?_⟩, nodup_removeFirst _ _ hnd, ?_, ?_⟩
      · intro t ht' hm
        exact hd.2 t ht' (removeFirst_subset _ _ _ hm)
      · intro t ht'
        refine mem_removeFirst_of_mem_ne _ _ _ (hr t ht') ?_
        intro he
        refine hcnd.2 ?_
        rw [← he]
        exact ht'
      · intro s hs
        by_cases hps : p.stream_name = s
        · rw [← hps]
          exact hn _ hnep
        · rw [innerNonempty_insert st { streamDoneUpdate st p inner with
              streamsInProgress := removeFirst st.streamsInProgress p.stream_name }
              p.stream_name (alistInsert inner p true) rfl s, if_neg hps] at hs
          exact hn s hs
      · intro s hs
        rw [innerNonempty_insert st { streamDoneUpdate st p inner with
            streamsInProgress := removeFirst st.streamsInProgress p.stream_name }
            p.stream_name (alistInsert inner p true) rfl s] at hs
        by_cases hps : p.stream_name = s
        · rw [if_pos hps, hne2] at hs
          exact Bool.noConfusion hs
        · rw [if_neg hps] at hs
          exact hcz s hs
      · intro s hs
        rw [innerHasUndone_insert st { streamDoneUpdate st p inner with
            streamsInProgress := removeFirst st.streamsInProgress p.stream_name }
            p.stream_name (alistInsert inner p true) rfl s] at hs
        by_cases hps : p.stream_name = s
        · rw [if_pos hps, hanyf] at hs
          exact Bool.noConfusion hs
        · rw [if_neg hps] at hs
          exact mem_removeFirst_of_mem_ne _ _ _ (hu s hs) (fun he => hps he.symm)
    · intro s
      rw [streamStatuses_append, hsr s]
      have hsts : streamStatuses ((handlePartitionCompleted streams st p).1) s =
          if p.stream_name = s then [StreamStatus.complete] else [] := by
        rw [hpair, ← hsname]
        by_cases hws : stream.name = s <;>
          simp [streamStatuses, List.filterMap_cons, hws]
      rw [hsts]
      by_cases hps : p.stream_name = s
      · subst hps
        rw [if_pos rfl]
        have hL : classOf st p.stream_name =
            .started :: (if counterVal st p.stream_name = 0 then []
              else [.running]) := by
          simp [classOf, hinp]
        have hR : classOf { streamDoneUpdate st p inner with
            streamsInProgress := removeFirst st.streamsInProgress p.stream_name }
            p.stream_name =
            (.started :: (if counterVal st p.stream_name = 0 then []
              else [.running])) ++ [.complete] := by
          have hm2 : p.stream_name ∉ ({ streamDoneUpdate st p inner with
              streamsInProgress := removeFirst st.streamsInProgress p.stream_name }
              : DriverState).streamsInProgress := hnotin2
          have hne3 : innerNonempty { streamDoneUpdate st p inner with
              streamsInProgress := removeFirst st.streamsInProgress p.stream_name }
              p.stream_name = true := by
            rw [innerNonempty_insert st { streamDoneUpdate st p inner with
              streamsInProgress := removeFirst st.streamsInProgress p.stream_name }
              p.stream_name (alistInsert inner p true) rfl p.stream_name,
              if_pos rfl, hne2]
            rfl
          have hcv2 : counterVal { streamDoneUpdate st p inner with
              streamsInProgress := removeFirst st.streamsInProgress p.stream_name }
              p.stream_name = counterVal st p.stream_name := rfl
          rw [classOf_finalized _ _ hm2 hne3, hcv2]
        rw [hL, hR]
      · rw [if_neg hps, List.append_nil]
        refine (classOf_congr st { streamDoneUpdate st p inner with
          streamsInProgress := removeFirst st.streamsInProgress p.stream_name }
          s ?_ rfl ?_).symm
        · constructor
          · intro hms
            exact removeFirst_subset _ _ _ hms
          · intro hms
            exact mem_removeFirst_of_mem_ne _ _ _ hms (fun he => hps he.symm)
        · rw [innerNonempty_insert st { streamDoneUpdate st p inner with
            streamsInProgress := removeFirst st.streamsInProgress p.stream_name }
            p.stream_name (alistInsert inner p true) rfl s, if_neg hps]

theorem stopStreamsGo_statuses_notmem (streams : List AbstractStream) :
    ∀ (l : List String) (s : String), s ∉ l →
      streamStatuses (stopStreamsGo streams l).1 s = [] := by
  intro l
  induction l with
  | nil =>
    intro s _
    rfl
  | cons t rest ih =>
    intro s hs
    have hts : t ≠ s := fun h => hs (by rw [← h]; exact List.mem_cons_self _ _)
    have hsrest : s ∉ rest := fun h => hs (List.mem_cons_of_mem _ h)
    rcases hf : findStream streams t with - | stream
    · have heq : (stopStreamsGo streams (t :: rest)).1 = [] := by
        simp [stopStreamsGo, hf]
      rw [heq]
      rfl
    · have hname := findStream_name streams t stream hf
      have heq : (stopStreamsGo streams (t :: rest)).1 =
          Event.statusMessage stream.name stream.ns .incomplete ::
            (stopStreamsGo streams rest).1 := by
        simp [stopStreamsGo, hf]
      rw [heq, streamStatuses_cons_status, hname, if_neg hts, List.nil_append]
      exact ih s hsrest

theorem stopStreamsGo_statuses_mem (streams : List AbstractStream) :
    ∀ (l : List String) (s : String), l.Nodup →
      streamStatuses (stopStreamsGo streams l).1 s = [] ∨
      streamStatuses (stopStreamsGo streams l).1 s = [.incomplete] := by
  intro l
  induction l with
  | nil =>
    intro s _
    exact Or.inl rfl
  | cons t rest ih =>
    intro s hnd
    obtain ⟨htr, hrest⟩ := List.nodup_cons.mp hnd
    rcases hf : findStream streams t with - | stream
    · have heq : (stopStreamsGo streams (t :: rest)).1 = [] := by
        simp [stopStreamsGo, hf]
      rw [heq]
      exact Or.inl rfl
    · have hname := findStream_name streams t stream hf
      have heq : (stopStreamsGo streams (t :: rest)).1 =
          Event.statusMessage stream.name stream.ns .incomplete ::
            (stopStreamsGo streams rest).1 := by
        simp [stopStreamsGo, hf]
      rw [heq, streamStatuses_cons_status, hname]
      by_cases hts : t = s
      · subst hts
        rw [if_pos rfl, stopStreamsGo_statuses_notmem streams rest t htr]
        exact Or.inr rfl
      · rw [if_neg hts, List.nil_append]
        exact ih s hrest

theorem handlePartitionCompleted_err_notStatus (streams : List AbstractStream)
    (st : DriverState) (p : Partition) (k : RunError)
    (h : (handlePartitionCompleted streams st p).2 = .error k) :
    (((handlePartitionCompleted streams st p).1).all notStatus) = true := by
  rcases hl : alistLookup st.streamsToPartitionsToDone p.stream_name with - | inner
  · have heq : handlePartitionCompleted streams st p = ([], .error .keyError) := by
      unfold handlePartitionCompleted
      rw [hl]
    rw [heq]
    rfl
  · rw [handlePartitionCompleted_eq_aux streams st p inner hl] at h ⊢
    unfold handlePartitionCompletedAux at h ⊢
    repeat' split at h
    all_goals simp_all [notStatus]

theorem statusRel_append_nilev (evs : List Event) (st2 : DriverState)
    (l : List Event) (hl : (l.all notStatus) = true) (h : StatusRel evs st2) :
    StatusRel (evs ++ l) st2 := by
  intro s
  rw [streamStatuses_append, streamStatuses_eq_nil l s hl, List.append_nil]
  exact h s

theorem statusRel_of_classOf_eq (evs : List Event) (st st2 : DriverState)
    (h : StatusRel evs st) (hcc : ∀ s, classOf st2 s = classOf st s) :
    StatusRel evs st2 := by
  intro s
  rw [h s, hcc s]

theorem driverStep_c3 (cfg : SourceConfig) (streams : List AbstractStream)
    (st : DriverState) (item : QueueItem) (f : Bool)
    (hok : itemOk st item = true) (ht : TInv st)
    (evs : List Event) (hsr : StatusRel evs st) :
    (∀ st2, (driverStep cfg streams st item f).2 = .cont st2 →
      TInv st2 ∧ StatusRel (evs ++ (driverStep cfg streams st item f).1) st2) ∧
    (∀ out st2, (driverStep cfg streams st item f).2 = .halt out st2 →
      ∀ s, streamStatuses (evs ++ (driverStep cfg streams st item f).1) s ∈
        c3SafePatterns) := by
  cases item with
  | exception e =>
    obtain ⟨-, hnd, -, -⟩ := ht
    refine ⟨?_, ?_⟩
    · intro st2 hcont
      rcases hs : (stopStreams streams st.streamsInProgress).2 with k | u
      · rw [stepEq_exception_err cfg streams st e f k hs] at hcont
        exact absurd hcont (by simp)
      · rw [stepEq_exception_ok cfg streams st e f u hs] at hcont
        exact absurd hcont (by simp)
    · intro out st2 hhalt s
      have hev : (driverStep cfg streams st (.exception e) f).1 =
          (stopStreams streams st.streamsInProgress).1 := by
        rcases hs : (stopStreams streams st.streamsInProgress).2 with k | u
        · rw [stepEq_exception_err cfg streams st e f k hs]
        · rw [stepEq_exception_ok cfg streams st e f u hs]
      have hsg : streamStatuses ((stopStreams streams st.streamsInProgress).1) s =
          streamStatuses ((stopStreamsGo streams st.streamsInProgress).1) s := rfl
      rw [streamStatuses_append, hev, hsg, hsr s]
      by_cases hm : s ∈ st.streamsInProgress
      · rw [classOf_inprogress st s hm]
        rcases stopStreamsGo_statuses_mem streams st.streamsInProgress s hnd
          with hz | hz <;> rw [hz] <;>
          by_cases hc0 : counterVal st s = 0 <;>
          simp [hc0, c3SafePatterns]
      · rw [stopStreamsGo_statuses_notmem streams st.streamsInProgress s hm,
          List.append_nil]
        exact classOf_mem_patterns st s
  | generationCompleted name =>
    rcases hgc : handlePartitionGenerationCompleted st name with k | ⟨st3, ev?⟩
    · refine ⟨?_, ?_⟩
      · intro st2 hcont
        rw [stepEq_gen_err cfg streams st name f k hgc] at hcont
        exact absurd hcont (by simp)
      · intro out st2 hhalt s
        have hev : (driverStep cfg streams st (.generationCompleted name) f).1 =
            [] := by
          rw [stepEq_gen_err cfg streams st name f k hgc]
        rw [streamStatuses_append, hev]
        have hz : streamStatuses ([] : List Event) s = [] := rfl
        rw [hz, List.append_nil, hsr s]
        exact classOf_mem_patterns st s
    · obtain ⟨ht3, hrel3⟩ := handlePGC_c3 st st3 name ev? hgc ht evs hsr
      cases hl : loopEndCheck st3 f with
      | true =>
        refine ⟨?_, ?_⟩
        · intro st2 hcont
          rw [stepEq_gen_end cfg streams st st3 name f ev? hgc hl] at hcont
          exact absurd hcont (by simp)
        · intro out st2 hhalt s
          have hev : (driverStep cfg streams st (.generationCompleted name) f).1 =
              ev?.toList ++ postLoopEvents := by
            rw [stepEq_gen_end cfg streams st st3 name f ev? hgc hl]
          rw [hev, ← List.append_assoc, streamStatuses_append]
          have hpl : streamStatuses postLoopEvents s = [] := rfl
          rw [hpl, List.append_nil, hrel3 s]
          exact classOf_mem_patterns st3 s
      | false =>
        refine ⟨?_, ?_⟩
        · intro st2 hcont
          rw [stepEq_gen_cont cfg streams st st3 name f ev? hgc hl] at hcont
          simp only [StepOut.cont.injEq] at hcont
          subst hcont
          refine ⟨ht3, ?_⟩
          have hev : (driverStep cfg streams st (.generationCompleted name) f).1 =
              ev?.toList := by
            rw [stepEq_gen_cont cfg streams st st3 name f ev? hgc hl]
          rw [hev]
          exact hrel3
        · intro out st2 hhalt
          rw [stepEq_gen_cont cfg streams st st3 name f ev? hgc hl] at hhalt
          exact absurd hhalt (by simp)
  | partitionItem p =>
    simp only [itemOk] at hok
    have hrun : p.stream_name ∈ st.partitionGeneratorRunning := of_decide_eq_true hok
    rcases hp : handlePartition cfg st p with k | st3
    · refine ⟨?_, ?_⟩
      · intro st2 hcont
        rw [stepEq_part_err cfg streams st p f k hp] at hcont
        exact absurd hcont (by simp)
      · intro out st2 hhalt s
        have hev : (driverStep cfg streams st (.partitionItem p) f).1 = [] := by
          rw [stepEq_part_err cfg streams st p f k hp]
        rw [streamStatuses_append, hev]
        have hz : streamStatuses ([] : List Event) s = [] := rfl
        rw [hz, List.append_nil, hsr s]
        exact classOf_mem_patterns st s
    · obtain ⟨ht3, hcc⟩ := handlePartition_c3 cfg st st3 p hp hrun ht
      have hrel3 : StatusRel evs st3 := statusRel_of_classOf_eq evs st st3 hsr hcc
      cases hl : loopEndCheck st3 f with
      | true =>
        refine ⟨?_, ?_⟩
        · intro st2 hcont
          rw [stepEq_part_end cfg streams st st3 p f hp hl] at hcont
          exact absurd hcont (by simp)
        · intro out st2 hhalt s
          have hev : (driverStep cfg streams st (.partitionItem p) f).1 =
              postLoopEvents := by
            rw [stepEq_part_end cfg streams st st3 p f hp hl]
          rw [streamStatuses_append, hev]
          have hpl : streamStatuses postLoopEvents s = [] := rfl
          rw [hpl, List.append_nil, hrel3 s]
          exact classOf_mem_patterns st3 s
      | false =>
        refine ⟨?_, ?_⟩
        · intro st2 hcont
          rw [stepEq_part_cont cfg streams st st3 p f hp hl] at hcont
          simp only [StepOut.cont.injEq] at hcont
          subst hcont
          refine ⟨ht3, ?_⟩
          have hev : (driverStep cfg streams st (.partitionItem p) f).1 = [] := by
            rw [stepEq_part_cont cfg streams st st3 p f hp hl]
          rw [hev]
          exact statusRel_append_nilev evs st3 [] rfl hrel3
        · intro out st2 hhalt
          rw [stepEq_part_cont cfg streams st st3 p f hp hl] at hhalt
          exact absurd hhalt (by simp)
  | partitionCompleted p =>
    rcases hp : (handlePartitionCompleted streams st p).2 with k | st3
    · refine ⟨?_, ?_⟩
      · intro st2 hcont
        rw [stepEq_pc_err cfg streams st p f k hp] at hcont
        exact absurd hcont (by simp)
      · intro out st2 hhalt s
        have hev : (driverStep cfg streams st (.partitionCompleted p) f).1 =
            (handlePartitionCompleted streams st p).1 := by
          rw [stepEq_pc_err cfg streams st p f k hp]
        rw [streamStatuses_append, hev, streamStatuses_eq_nil _ s
          (handlePartitionCompleted_err_notStatus streams st p k hp),
          List.append_nil, hsr s]
        exact classOf_mem_patterns st s
    · obtain ⟨ht3, hrel3⟩ :=
        handlePartitionCompleted_c3 streams st st3 p hp hok ht evs hsr
      cases he : st3.streamsInProgress.isEmpty with
      | true =>
        refine ⟨?_, ?_⟩
        · intro st2 hcont
          rw [stepEq_pc_done cfg streams st st3 p f hp he] at hcont
          exact absurd hcont (by simp)
        · intro out st2 hhalt s
          have hev : (driverStep cfg streams st (.partitionCompleted p) f).1 =
              (handlePartitionCompleted streams st p).1 ++ postLoopEvents := by
            rw [stepEq_pc_done cfg streams st st3 p f hp he]
          rw [hev, ← List.append_assoc, streamStatuses_append]
          have hpl : streamStatuses postLoopEvents s = [] := rfl
          rw [hpl, List.append_nil, hrel3 s]
          exact classOf_mem_patterns st3 s
      | false =>
        cases hl : loopEndCheck st3 f with
        | true =>
          refine ⟨?_, ?_⟩
          · intro st2 hcont
            rw [stepEq_pc_end cfg streams st st3 p f hp he hl] at hcont
            exact absurd hcont (by simp)
          · intro out st2 hhalt s
            have hev : (driverStep cfg streams st (.partitionCompleted p) f).1 =
                (handlePartitionCompleted streams st p).1 ++ postLoopEvents := by
              rw [stepEq_pc_end cfg streams st st3 p f hp he hl]
            rw [hev, ← List.append_assoc, streamStatuses_append]
            have hpl : streamStatuses postLoopEvents s = [] := rfl
            rw [hpl, List.append_nil, hrel3 s]
            exact classOf_mem_patterns st3 s
        | false =>
          refine ⟨?_, ?_⟩
          · intro st2 hcont
            rw [stepEq_pc_cont cfg streams st st3 p f hp he hl] at hcont
            simp only [StepOut.cont.injEq] at hcont
            subst hcont
            refine ⟨ht3, ?_⟩
            have hev : (driverStep cfg streams st (.partitionCompleted p) f).1 =
                (handlePartitionCompleted streams st p).1 := by
              rw [stepEq_pc_cont cfg streams st st3 p f hp he hl]
            rw [hev]
            exact hrel3
          · intro out st2 hhalt
            rw [stepEq_pc_cont cfg streams st st3 p f hp he hl] at hhalt
            exact absurd hhalt (by simp)
  | record s' d =>
    simp only [itemOk] at hok
    rcases hp : (handleRecord streams st s' d).2 with k | st3
    · have hev0 : ((handleRecord streams st s' d).1.all notStatus) = true := by
        rcases hfs : findStream streams s' with - | stream
        · have heq : handleRecord streams st s' d = ([], .error .keyError) := by
            simp [handleRecord, hfs]
          rw [heq]
          rfl
        · rcases hc : alistLookup st.recordCounter stream.name with - | c
          · have heq : handleRecord streams st s' d = ([], .error .keyError) := by
              simp [handleRecord, hfs, hc]
            rw [heq]
            rfl
          · exfalso
            have hpair : (handleRecord streams st s' d).2 = .ok { st with
                recordCounter := alistInsert st.recordCounter stream.name (c + 1)
                repository := [] } := by
              simp [handleRecord, hfs, hc]
            rw [hpair] at hp
            exact absurd hp (by simp)
      refine ⟨?_, ?_⟩
      · intro st2 hcont
        rw [stepEq_rec_err cfg streams st s' d f k hp] at hcont
        exact absurd hcont (by simp)
      · intro out st2 hhalt s
        have hev : (driverStep cfg streams st (.record s' d) f).1 =
            (handleRecord streams st s' d).1 := by
          rw [stepEq_rec_err cfg streams st s' d f k hp]
        rw [streamStatuses_append, hev, streamStatuses_eq_nil _ s hev0,
          List.append_nil, hsr s]
        exact classOf_mem_patterns st s
    · obtain ⟨ht3, hrel3⟩ := handleRecord_c3 streams st st3 s' d hp hok ht evs hsr
      cases hl : loopEndCheck st3 f with
      | true =>
        refine ⟨?_, ?_⟩
        · intro st2 hcont
          rw [stepEq_rec_end cfg streams st st3 s' d f hp hl] at hcont
          exact absurd hcont (by simp)
        · intro out st2 hhalt s
          have hev : (driverStep cfg streams st (.record s' d) f).1 =
              (handleRecord streams st s' d).1 ++ postLoopEvents := by
            rw [stepEq_rec_end cfg streams st st3 s' d f hp hl]
          rw [hev, ← List.append_assoc, streamStatuses_append]
          have hpl : streamStatuses postLoopEvents s = [] := rfl
          rw [hpl, List.append_nil, hrel3 s]
          exact classOf_mem_patterns st3 s
      | false =>
        refine ⟨?_, ?_⟩
        · intro st2 hcont
          rw [stepEq_rec_cont cfg streams st st3 s' d f hp hl] at hcont
          simp only [StepOut.cont.injEq] at hcont
          subst hcont
          refine ⟨ht3, ?_⟩
          have hev : (driverStep cfg streams st (.record s' d) f).1 =
              (handleRecord streams st s' d).1 := by
            rw [stepEq_rec_cont cfg streams st st3 s' d f hp hl]
          rw [hev]
          exact hrel3
        · intro out st2 hhalt
          rw [stepEq_rec_cont cfg streams st st3 s' d f hp hl] at hhalt
          exact absurd hhalt (by simp)

theorem driverLoop_c3 (cfg : SourceConfig) (streams : List AbstractStream) :
    ∀ (items : List (QueueItem × Bool)) (st : DriverState) (evs : List Event),
      TInv st → StatusRel evs st → wfFrom cfg streams st items = true →
      ∀ s, streamStatuses (evs ++ (driverLoop cfg streams st items).1) s ∈
        c3SafePatterns := by
  intro items
  induction items with
  | nil =>
    intro st evs ht hsr _ s
    have hev : (driverLoop cfg streams st []).1 = [] := rfl
    rw [streamStatuses_append, hev]
    have hz : streamStatuses ([] : List Event) s = [] := rfl
    rw [hz, List.append_nil, hsr s]
    exact classOf_mem_patterns st s
  | cons itf rest ih =>
    intro st evs ht hsr hwf s
    obtain ⟨item, f⟩ := itf
    rw [wfFrom_cons] at hwf
    obtain ⟨hok, hm⟩ := Bool.and_eq_true_iff.mp hwf
    obtain ⟨hcont, hhalt⟩ := driverStep_c3 cfg streams st item f hok ht evs hsr
    rcases hs : (driverStep cfg streams st item f).2 with st2 | ⟨out, st2⟩
    · rw [hs] at hm
      have hwf2 : wfFrom cfg streams st2 rest = true := hm
      obtain ⟨ht2, hsr2⟩ := hcont st2 hs
      have hev : (driverLoop cfg streams st ((item, f) :: rest)).1 =
          (driverStep cfg streams st item f).1 ++
            (driverLoop cfg streams st2 rest).1 := by
        rw [driverLoop_cons_cont cfg streams st st2 item f rest hs]
      rw [hev, ← List.append_assoc]
      exact ih st2 (evs ++ (driverStep cfg streams st item f).1) ht2 hsr2 hwf2 s
    · have hev : (driverLoop cfg streams st ((item, f) :: rest)).1 =
          (driverStep cfg streams st item f).1 := by
        rw [driverLoop_cons_halt cfg streams st st2 item f out rest hs]
      rw [hev]
      exact hhalt out st2 hs s

theorem startupGo_c3 :
    ∀ (k : Nat) (st : DriverState) (evs : List Event),
      TInv st → StatusRel evs st →
      ∀ st', (startupGo st k).2 = .ok st' →
        TInv st' ∧ StatusRel (evs ++ (startupGo st k).1) st' := by
  intro k
  induction k with
  | zero =>
    intro st evs ht hsr st' h
    simp only [startupGo] at h
    injection h with h
    subst h
    exact ⟨ht, statusRel_append_nilev evs st _ rfl hsr⟩
  | succ k ih =>
    intro st evs ht hsr st' h
    rcases hp : st.partitionGenerators with - | ⟨g, rest⟩
    · have heq : (startupGo st (Nat.succ k)).2 = .error .indexError := by
        simp [startupGo, hp]
      rw [heq] at h
      exact absurd h (by simp)
    · obtain ⟨⟨hd, hr, hn⟩, hnd, hcz, hu⟩ := ht
      have hgpend : g ∈ st.partitionGenerators := by
        rw [hp]
        exact List.mem_cons_self _ _
      have hgnotin : g ∉ st.streamsInProgress := hd.2 g hgpend
      have hgempty : innerNonempty st g = false := by
        cases hni : innerNonempty st g
        · rfl
        · exact absurd hgpend (hn g hni)
      obtain ⟨hndp, hdisj⟩ := hd
      rw [hp] at hndp hdisj
      obtain ⟨hg1, hrest⟩ := List.nodup_cons.mp hndp
      simp only [startupGo, hp] at h
      have hT2 : TInv { st with
          partitionGenerators := rest
          streamsInProgress := setAdd st.streamsInProgress g
          partitionGeneratorRunning := st.partitionGeneratorRunning ++ [g] } := by
        refine ⟨⟨⟨hrest, ?_⟩, ?_, ?_⟩, nodup_setAdd _ _ hnd, hcz, ?_⟩
        · intro t ht' hmem
          rcases mem_setAdd hmem with hmem' | rfl
          · exact hdisj t (List.mem_cons_of_mem _ ht') hmem'
          · exact hg1 ht'
        · intro t ht'
          rcases List.mem_append.mp ht' with ht'' | ht''
          · exact mem_setAdd_of_mem (hr t ht'')
          · rw [List.mem_singleton.mp ht'']
            exact mem_setAdd_self _ _
        · intro s hs hmem
          have hs' : innerNonempty st s = true := hs
          have := hn s hs'
          rw [hp] at this
          exact this (List.mem_cons_of_mem _ hmem)
        · intro s hs
          exact mem_setAdd_of_mem (hu s hs)
      have hS2 : StatusRel (evs ++ [Event.statusMessage g none .started])
          { st with
            partitionGenerators := rest
            streamsInProgress := setAdd st.streamsInProgress g
            partitionGeneratorRunning := st.partitionGeneratorRunning ++ [g] } := by
        intro s
        rw [streamStatuses_append]
        have hone : streamStatuses ([Event.statusMessage g none .started]) s =
            (if g = s then [StreamStatus.started] else []) := by
          by_cases hgs : g = s <;> simp [streamStatuses, hgs]
        rw [hone, hsr s]
        by_cases hgs : g = s
        · subst hgs
          rw [if_pos rfl]
          have hcl : classOf st g = [] := by
            simp [classOf, hgnotin, hgempty]
          have hcr : classOf { st with
              partitionGenerators := rest
              streamsInProgress := setAdd st.streamsInProgress g
              partitionGeneratorRunning := st.partitionGeneratorRunning ++ [g] } g =
              [StreamStatus.started] := by
            have hmem : g ∈ setAdd st.streamsInProgress g := mem_setAdd_self g _
            have hcz2 : counterVal { st with
                partitionGenerators := rest
                streamsInProgress := setAdd st.streamsInProgress g
                partitionGeneratorRunning := st.partitionGeneratorRunning ++ [g] } g =
                0 := hcz g hgempty
            simp [classOf, hmem, hcz2]
          rw [hcl, hcr]
          rfl
        · rw [if_neg hgs, List.append_nil]
          have hcc : classOf { st with
              partitionGenerators := rest
              streamsInProgress := setAdd st.streamsInProgress g
              partitionGeneratorRunning := st.partitionGeneratorRunning ++ [g] } s =
              classOf st s := by
            refine classOf_congr st _ s ?_ rfl rfl
            constructor
            · intro hms
              rcases mem_setAdd hms with h' | h'
              · exact h'
              · exact absurd h'.symm hgs
            · exact mem_setAdd_of_mem
          rw [hcc]
      obtain ⟨hT', hS'⟩ := ih _ (evs ++ [Event.statusMessage g none .started])
        hT2 hS2 st' h
      refine ⟨hT', ?_⟩
      have hev : (startupGo st (Nat.succ k)).1 =
          Event.statusMessage g none .started ::
            (startupGo { st with
              partitionGenerators := rest
              streamsInProgress := setAdd st.streamsInProgress g
              partitionGeneratorRunning := st.partitionGeneratorRunning ++ [g] } k).1 := by
        simp [startupGo, hp]
      rw [hev, List.append_cons]
      exact hS'

/-- C3 (amended): on every feasible run that enters the main loop, each
stream's status sequence is one of the seven shapes
`[]`, `[STARTED]`, `[STARTED, RUNNING]`, `[STARTED, COMPLETE]`,
`[STARTED, RUNNING, COMPLETE]`, `[STARTED, INCOMPLETE]`,
`[STARTED, RUNNING, INCOMPLETE]`: no status is ever repeated, STARTED
precedes everything, RUNNING precedes any terminal status, and no stream
receives both COMPLETE and INCOMPLETE — but a terminal status is not
guaranteed, so the claim's "exactly one of COMPLETE or INCOMPLETE" fails
on stalled, aborted, or zero-partition streams. -/
theorem c3_status_sequences_safe (cfg : SourceConfig)
    (streams : List AbstractStream) (catalog : List String)
    (items : List (QueueItem × Bool)) (eligible : List AbstractStream)
    (st1 : DriverState)
    (hnd : catalog.Nodup)
    (hsel : (selectStreams cfg streams catalog).2 = .ok eligible)
    (hst : (startup (maxNumberOfPartitionGeneratorInProgress cfg)
      (initState eligible)).2 = .ok st1)
    (hwf : wfFrom cfg streams st1 items = true) :
    ∀ s, streamStatuses (read cfg streams catalog items).1 s ∈ c3SafePatterns := by
  intro s
  have hne : (eligible.map fun t => t.name).Nodup :=
    selectStreams_ok_names_nodup cfg streams catalog eligible hnd hsel
  have hT0 : TInv (initState eligible) := by
    refine ⟨initState_ginv eligible hne, List.nodup_nil, ?_, ?_⟩
    · intro t _
      exact counterVal_initState eligible t
    · intro t hs'
      have hne' := innerNonempty_of_hasUndone (initState eligible) t hs'
      rw [initState_inner_empty] at hne'
      exact absurd hne' (by simp)
  have hS0 : StatusRel ((selectStreams cfg streams catalog).1)
      (initState eligible) := by
    intro t
    have hnil : streamStatuses ((selectStreams cfg streams catalog).1) t = [] := by
      refine streamStatuses_eq_nil _ _ ?_
      rw [List.all_eq_true]
      intro e he
      obtain ⟨nm, rfl⟩ := selectStreams_events_skip cfg streams catalog e he
      rfl
    rw [hnil]
    have h1 : t ∉ (initState eligible).streamsInProgress := by
      simp [initState]
    have h2 : ¬ (innerNonempty (initState eligible) t = true) := by
      rw [initState_inner_empty]
      simp
    unfold classOf
    rw [if_neg h1, if_neg h2]
  have hst' : (startupGo (initState eligible)
      (maxNumberOfPartitionGeneratorInProgress cfg -
        (initState eligible).partitionGeneratorRunning.length)).2 = .ok st1 := hst
  obtain ⟨hT1, hS1⟩ := startupGo_c3 _ (initState eligible)
    ((selectStreams cfg streams catalog).1) hT0 hS0 st1 hst'
  have hloop := driverLoop_c3 cfg streams items st1
    ((selectStreams cfg streams catalog).1 ++
      (startupGo (initState eligible)
        (maxNumberOfPartitionGeneratorInProgress cfg -
          (initState eligible).partitionGeneratorRunning.length)).1)
    hT1 hS1 hwf s
  rw [readEq_ok cfg streams catalog items eligible st1 hsel hst]
  exact hloop

theorem c3_status_sequences_safe_witness :
    streamStatuses
      (read ⟨10, 300, true, false⟩ [⟨"s1", some "nsA", true⟩, ⟨"s2", none, true⟩]
        ["s1", "s2"]
        [(QueueItem.partitionItem ⟨"s1", 1⟩, false),
          (QueueItem.generationCompleted "s1", false),
          (QueueItem.record "s1" 100, false),
          (QueueItem.partitionCompleted ⟨"s1", 1⟩, false),
          (QueueItem.generationCompleted "s2", false)]).1 "s2" ∈ c3SafePatterns ∧
    streamStatuses
      (read ⟨10, 300, true, false⟩ [⟨"s1", some "nsA", true⟩, ⟨"s2", none, true⟩]
        ["s1", "s2"]
        [(QueueItem.partitionItem ⟨"s1", 1⟩, false),
          (QueueItem.generationCompleted "s1", false),
          (QueueItem.record "s1" 100, false),
          (QueueItem.partitionCompleted ⟨"s1", 1⟩, false),
          (QueueItem.generationCompleted "s2", false)]).1 "s1" ∈ c3SafePatterns :=
  have h := c3_status_sequences_safe ⟨10, 300, true, false⟩
    [⟨"s1", some "nsA", true⟩, ⟨"s2", none, true⟩] ["s1", "s2"]
    [(QueueItem.partitionItem ⟨"s1", 1⟩, false),
      (QueueItem.generationCompleted "s1", false),
      (QueueItem.record "s1" 100, false),
      (QueueItem.partitionCompleted ⟨"s1", 1⟩, false),
      (QueueItem.generationCompleted "s2", false)]
    [⟨"s1", some "nsA", true⟩, ⟨"s2", none, true⟩]
    ⟨["s1"], ["s1"], ["s2"], [("s1", []), ("s2", [])], [("s1", 0), ("s2", 0)], []⟩
    (by decide) (by rfl) (by rfl) (by decide)
  ⟨h "s2", h "s1"⟩

end ConcurrentSource
